import Mathlib

/-!
# Rich-rule codec of `libs/dbus` (gofirewallder)

A shallow embedding of `libs/dbus/option.go` (the rule data model, the
serializer `Rule.ToString`, the parser `StringToRule` with its sub-parsers) and
of `removeSliceElement` and `checkPort` from `libs/dbus/wapper.go`, followed by
theorems about them.

Conventions of the embedding:

* a Go `string` is a Lean `String`; the zero value of a struct is `{}`;
* a Go `[]string` is a `List String`; an index expression `s[i]` is bounds
  checked against `len(s)`, as in Go, and an access out of bounds is the
  outcome `Outcome.fault` (the Go runtime fault that ends the call);
* a `for ... range` loop that is re-entered with `goto Label` is a scan over the
  current slice that either ends, faults, or restarts with a new state; the
  restarts are counted down by a fuel argument, and running out of fuel is the
  separate outcome `Outcome.fuelOut`.
-/

set_option linter.dupNamespace false

namespace Dbus

/-! ## Data model (`option.go`, lines 8-96)

The field `Type` of `Reject` is spelled `Type_`, `Type` being reserved. -/

structure Limit where
  Value : String := ""
  deriving DecidableEq, Repr

structure Source where
  Address : String := ""
  Mac : String := ""
  Ipset : String := ""
  Invert : String := ""
  deriving DecidableEq, Repr

structure Destination where
  Address : String := ""
  Invert : String := ""
  deriving DecidableEq, Repr

structure Service where
  Name : String := ""
  deriving DecidableEq, Repr

structure Port where
  Port : String := ""
  Protocol : String := ""
  deriving DecidableEq, Repr

structure Protocol where
  Value : String := ""
  deriving DecidableEq, Repr

structure IcmpBlock where
  Name : String := ""
  deriving DecidableEq, Repr

structure IcmpType where
  Name : String := ""
  deriving DecidableEq, Repr

structure ForwardPort where
  Port : String := ""
  Protocol : String := ""
  ToPort : String := ""
  ToAddr : String := ""
  deriving DecidableEq, Repr

structure Log where
  Prefix : String := ""
  Level : String := ""
  Limit : Limit := {}
  deriving DecidableEq, Repr

structure Audit where
  Limit : Limit := {}
  deriving DecidableEq, Repr

structure Accept where
  Flag : Bool := false
  Limit : Limit := {}
  deriving DecidableEq, Repr

structure Reject where
  Type_ : String := ""
  Limit : Limit := {}
  deriving DecidableEq, Repr

structure Drop where
  Flag : Bool := false
  Limit : Limit := {}
  deriving DecidableEq, Repr

structure Mark where
  Set : String := ""
  Limit : Limit := {}
  deriving DecidableEq, Repr

structure Rule where
  Family : String := ""
  Source : Source := {}
  Destination : Destination := {}
  Service : Service := {}
  Port : Port := {}
  Protocol : Protocol := {}
  IcmpBlock : IcmpBlock := {}
  IcmpType : IcmpType := {}
  ForwardPort : ForwardPort := {}
  Log : Log := {}
  Audit : Audit := {}
  Accept : Accept := {}
  Reject : Reject := {}
  Drop : Drop := {}
  Mark : Mark := {}
  deriving DecidableEq, Repr

/-! ## Emptiness (`option.go`, lines 144-202)

Each `IsEmpty` is `reflect.DeepEqual(this, &T{})`: on structs of strings,
booleans and nested such structs, deep equality with the zero value. -/

def Source.IsEmpty (this : Source) : Bool := decide (this = {})

def Destination.IsEmpty (this : Destination) : Bool := decide (this = {})

def Service.IsEmpty (this : Service) : Bool := decide (this = {})

def Port.IsEmpty (this : Dbus.Port) : Bool := decide (this = {})

def Protocol.IsEmpty (this : Protocol) : Bool := decide (this = {})

def IcmpBlock.IsEmpty (this : IcmpBlock) : Bool := decide (this = {})

def IcmpType.IsEmpty (this : IcmpType) : Bool := decide (this = {})

def Log.IsEmpty (this : Log) : Bool := decide (this = {})

def ForwardPort.IsEmpty (this : ForwardPort) : Bool := decide (this = {})

def Audit.IsEmpty (this : Audit) : Bool := decide (this = {})

def Accept.IsEmpty (this : Accept) : Bool := decide (this = {})

def Reject.IsEmpty (this : Reject) : Bool := decide (this = {})

def Drop.IsEmpty (this : Drop) : Bool := decide (this = {})

def Mark.IsEmpty (this : Mark) : Bool := decide (this = {})

def Limit.IsEmpty (this : Limit) : Bool := decide (this = {})

/-! ## Serializer (`option.go`, lines 204-464)

Every `str += x` of the source is one `let str := str ++ x`. -/

def Source.ToString (this : Source) : String :=
  let str := " source "
  let str :=
    if this.Address ≠ "" then str ++ ("address=" ++ this.Address)
    else if this.Mac ≠ "" then str ++ ("mac=" ++ this.Mac)
    else str ++ ("ipset=" ++ this.Ipset)
  let str := if this.Invert ≠ "" then (str ++ " ") ++ ("invert=" ++ this.Invert) else str
  let str := str ++ " "
  str

def Destination.ToString (this : Destination) : String :=
  let str := " destination "
  let str := if this.Address ≠ "" then str ++ ("address=" ++ this.Address) else str
  let str := if this.Invert ≠ "" then (str ++ " ") ++ ("invert=" ++ this.Invert) else str
  let str := str ++ " "
  str

def Service.ToString (this : Service) : String :=
  let str := "service "
  let str := if this.Name ≠ "" then str ++ ("name=" ++ this.Name) else str
  let str := str ++ " "
  str

def Port.ToString (this : Dbus.Port) : String :=
  let str := "port "
  let str := if this.Port ≠ "" then str ++ ("name=" ++ this.Port) else str
  let str := if this.Protocol ≠ "" then str ++ ("protocol=" ++ this.Protocol) else str
  let str := str ++ " "
  str

def Protocol.ToString (this : Protocol) : String :=
  let str := "Protocol "
  let str := if this.Value ≠ "" then str ++ ("value=" ++ this.Value) else str
  let str := str ++ " "
  str

def IcmpBlock.ToString (this : IcmpBlock) : String :=
  let str := "icmp-block "
  let str := if this.Name ≠ "" then str ++ ("name=" ++ this.Name) else str
  let str := str ++ " "
  str

def IcmpType.ToString (this : IcmpType) : String :=
  let str := "icmp-type "
  let str := if this.Name ≠ "" then str ++ ("name=" ++ this.Name) else str
  let str := str ++ " "
  str

def ForwardPort.ToString (this : ForwardPort) : String :=
  let str := "forward-port "
  let str := if this.Port ≠ "" then str ++ ("port=" ++ this.Port) else str
  let str := if this.Protocol ≠ "" then (str ++ " ") ++ ("protocol=" ++ this.Protocol) else str
  let str := if this.ToPort ≠ "" then (str ++ " ") ++ ("to-port=" ++ this.ToPort) else str
  let str := if this.ToAddr ≠ "" then (str ++ " ") ++ ("to-addr=" ++ this.ToAddr) else str
  let str := str ++ " "
  str

def Log.ToString (this : Log) : String :=
  let str := "log"
  let str := if this.Prefix ≠ "" then str ++ ((" " ++ "prefix=") ++ this.Prefix) else str
  let str := if this.Level ≠ "" then str ++ ((" " ++ "level=") ++ this.Level) else str
  let str :=
    if ¬ this.Limit.IsEmpty then str ++ ((" " ++ "limit value=") ++ this.Limit.Value) else str
  let str := str ++ " "
  str

def Audit.ToString (this : Audit) : String :=
  let str := "audit"
  let str :=
    if ¬ this.Limit.IsEmpty then str ++ ((" " ++ "limit value=") ++ this.Limit.Value) else str
  let str := str ++ " "
  str

def Accept.ToString (this : Accept) : String :=
  let str := ""
  let str := if this.Flag then "accept " else str
  let str := if ¬ this.Limit.IsEmpty then str ++ ("limit value=" ++ this.Limit.Value) else str
  let str := str ++ " "
  str

def Reject.ToString (this : Reject) : String :=
  let str := "reject "
  let str := if this.Type_ ≠ "" then str ++ ("type=" ++ this.Type_) else str
  let str :=
    if ¬ this.Limit.IsEmpty then (str ++ " ") ++ ("limit value=" ++ this.Limit.Value) else str
  let str := str ++ " "
  str

def Drop.ToString (this : Drop) : String :=
  let str := ""
  let str := if this.Flag then "drop " else str
  let str := if ¬ this.Limit.IsEmpty then str ++ ("limit value=" ++ this.Limit.Value) else str
  let str := str ++ " "
  str

def Mark.ToString (this : Mark) : String :=
  let str := "mark"
  let str := if this.Set ≠ "" then (str ++ " ") ++ ("set=" ++ this.Set) else str
  let str :=
    if ¬ this.Limit.IsEmpty then (str ++ " ") ++ ("limit value=" ++ this.Limit.Value) else str
  let str := str ++ " "
  str

def Rule.ToString (this : Rule) : String :=
  let ruleString := "rule "
  let ruleString :=
    if this.Family ≠ "" then ruleString ++ ("family=" ++ this.Family) else ruleString
  let ruleString :=
    if ¬ this.Source.IsEmpty then ruleString ++ this.Source.ToString else ruleString
  let ruleString :=
    if ¬ this.Destination.IsEmpty then ruleString ++ this.Destination.ToString else ruleString
  let ruleString :=
    if ¬ this.Service.IsEmpty then ruleString ++ this.Service.ToString else ruleString
  let ruleString :=
    if ¬ this.Port.IsEmpty then ruleString ++ this.Port.ToString else ruleString
  let ruleString :=
    if ¬ this.Protocol.IsEmpty then ruleString ++ this.Protocol.ToString else ruleString
  let ruleString :=
    if ¬ this.IcmpBlock.IsEmpty then ruleString ++ this.IcmpBlock.ToString else ruleString
  let ruleString :=
    if ¬ this.IcmpType.IsEmpty then ruleString ++ this.IcmpType.ToString else ruleString
  let ruleString :=
    if ¬ this.ForwardPort.IsEmpty then ruleString ++ this.ForwardPort.ToString else ruleString
  let ruleString :=
    if ¬ this.Log.IsEmpty then ruleString ++ this.Log.ToString else ruleString
  let ruleString :=
    if ¬ this.Audit.IsEmpty then ruleString ++ this.Audit.ToString else ruleString
  let ruleString :=
    if ¬ this.Accept.IsEmpty then ruleString ++ this.Accept.ToString else ruleString
  let ruleString :=
    if ¬ this.Reject.IsEmpty then ruleString ++ this.Reject.ToString else ruleString
  let ruleString :=
    if ¬ this.Drop.IsEmpty then ruleString ++ this.Drop.ToString else ruleString
  let ruleString :=
    if ¬ this.Mark.IsEmpty then ruleString ++ this.Mark.ToString else ruleString
  ruleString

/-! ## Outcomes, slices and `strings.Split` -/

/-- The result of running a function that can fault: it returned a value, it
hit a Go runtime fault (index or slice bound out of range), or the model ran out
of fuel. -/
inductive Outcome (α : Type) where
  | returned (a : α)
  | fault
  | fuelOut
  deriving DecidableEq, Repr

def Outcome.bind {α β : Type} : Outcome α → (α → Outcome β) → Outcome β
  | .returned a, k => k a
  | .fault, _ => .fault
  | .fuelOut, _ => .fuelOut

instance : Monad Outcome where
  pure := Outcome.returned
  bind := Outcome.bind

/-- The index expression `s[i]` of Go on a slice: a fault unless `i < len(s)`. -/
def sliceIndex {α : Type} (s : List α) (i : Nat) : Outcome α :=
  match s[i]? with
  | some v => .returned v
  | none => .fault

/-- One separator-free piece per separator, plus one: the pieces of a character
sequence between the occurrences of `sep`. -/
def splitChars (sep : Char) : List Char → List (List Char)
  | [] => [[]]
  | c :: cs =>
    if c = sep then [] :: splitChars sep cs
    else
      match splitChars sep cs with
      | [] => [[c]]
      | t :: ts => (c :: t) :: ts

/-- Go's `strings.Split(s, sep)` for a separator of one character (the program
only splits on `" "`, `"="`, `"/"` and `"-"`): all substrings of `s` between
separators, `count(sep) + 1` of them, so `[""]` for the empty string. -/
def strings.Split (s : String) (sep : Char) : List String :=
  (splitChars sep s.data).map String.mk

/-- `removeSliceElement` of `wapper.go`: `append(s[:index], s[index+1:]...)`.
The slice expression `s[index+1:]` faults unless `index + 1 ≤ len(s)`. -/
def removeSliceElement (s : List String) (index : Nat) : Outcome (List String) :=
  if index + 1 ≤ s.length then .returned (s.take index ++ s.drop (index + 1)) else .fault

/-! ## Sub-parsers (`option.go`, lines 466-562)

Each is a `for index, value := range slice` whose every `case` ends in
`goto Label`. `scan` is one run of the `range` loop from `index` on, over the
elements `rest` still to visit: `returned none` when the loop ends without a
match, `returned (some state)` at a `goto Label`. `loop` restarts the scan. -/

def stringToReject.scan (reject : Reject) (slice : List String) :
    Nat → List String → Outcome (Option (Reject × List String))
  | _, [] => pure none
  | index, value :: rest => do
    let tmp_slice := strings.Split value '='
    let key ← sliceIndex tmp_slice 1
    if key = "type" then do
      let slice ← removeSliceElement slice index
      let type ← sliceIndex slice index
      let slice ← removeSliceElement slice index
      pure (some ({ reject with Type_ := type }, slice))
    else if key = "limit" then do
      let slice ← removeSliceElement slice index
      let tmp_slice := strings.Split (← sliceIndex slice index) '='
      let limit ← sliceIndex tmp_slice 1
      let slice ← removeSliceElement slice index
      pure (some ({ reject with Limit := { Value := limit } }, slice))
    else stringToReject.scan reject slice (index + 1) rest

def stringToReject.loop : Nat → Reject → List String → Outcome (Reject × List String)
  | 0, _, _ => .fuelOut
  | fuel + 1, reject, slice =>
    match stringToReject.scan reject slice 0 slice with
    | .returned none => .returned (reject, slice)
    | .returned (some (reject, slice)) => stringToReject.loop fuel reject slice
    | .fault => .fault
    | .fuelOut => .fuelOut

def stringToReject (slice : List String) : Outcome (Reject × List String) :=
  stringToReject.loop (slice.length + 1) {} slice

def stringToMark.scan (mark : Mark) (slice : List String) :
    Nat → List String → Outcome (Option (Mark × List String))
  | _, [] => pure none
  | index, value :: rest => do
    let tmp_slice := strings.Split value '='
    let key ← sliceIndex tmp_slice 0
    if key = "set" then do
      let slice ← removeSliceElement slice index
      let set ← sliceIndex tmp_slice 1
      pure (some ({ mark with Set := set }, slice))
    else if key = "limit" then do
      let slice ← removeSliceElement slice index
      let tmp_slice := strings.Split (← sliceIndex slice index) '='
      let limit ← sliceIndex tmp_slice 1
      let slice ← removeSliceElement slice index
      pure (some ({ mark with Limit := { Value := limit } }, slice))
    else stringToMark.scan mark slice (index + 1) rest

def stringToMark.loop : Nat → Mark → List String → Outcome (Mark × List String)
  | 0, _, _ => .fuelOut
  | fuel + 1, mark, slice =>
    match stringToMark.scan mark slice 0 slice with
    | .returned none => .returned (mark, slice)
    | .returned (some (mark, slice)) => stringToMark.loop fuel mark slice
    | .fault => .fault
    | .fuelOut => .fuelOut

def stringToMark (slice : List String) : Outcome (Mark × List String) :=
  stringToMark.loop (slice.length + 1) {} slice

def stringToForwardPort.scan (forwardPort : ForwardPort) (slice : List String) :
    Nat → List String → Outcome (Option (ForwardPort × List String))
  | _, [] => pure none
  | index, value :: rest => do
    let tmp_slice := strings.Split value '='
    let key ← sliceIndex tmp_slice 0
    if key = "port" then do
      let slice ← removeSliceElement slice index
      let port ← sliceIndex tmp_slice 1
      pure (some ({ forwardPort with Port := port }, slice))
    else if key = "protocol" then do
      let slice ← removeSliceElement slice index
      let protocol ← sliceIndex tmp_slice 1
      pure (some ({ forwardPort with Protocol := protocol }, slice))
    else if key = "to-port" then do
      let slice ← removeSliceElement slice index
      let toPort ← sliceIndex tmp_slice 1
      pure (some ({ forwardPort with ToPort := toPort }, slice))
    else if key = "to-addr" then do
      let slice ← removeSliceElement slice index
      let toAddr ← sliceIndex tmp_slice 1
      pure (some ({ forwardPort with ToAddr := toAddr }, slice))
    else stringToForwardPort.scan forwardPort slice (index + 1) rest

def stringToForwardPort.loop :
    Nat → ForwardPort → List String → Outcome (ForwardPort × List String)
  | 0, _, _ => .fuelOut
  | fuel + 1, forwardPort, slice =>
    match stringToForwardPort.scan forwardPort slice 0 slice with
    | .returned none => .returned (forwardPort, slice)
    | .returned (some (forwardPort, slice)) => stringToForwardPort.loop fuel forwardPort slice
    | .fault => .fault
    | .fuelOut => .fuelOut

def stringToForwardPort (slice : List String) : Outcome (ForwardPort × List String) :=
  stringToForwardPort.loop (slice.length + 1) {} slice

def stringToLog.scan (log : Log) (slice : List String) :
    Nat → List String → Outcome (Option (Log × List String))
  | _, [] => pure none
  | index, value :: rest => do
    let tmp_slice := strings.Split value '='
    let key ← sliceIndex tmp_slice 0
    if key = "prefix" then do
      let slice ← removeSliceElement slice index
      let pre ← sliceIndex tmp_slice 1
      pure (some ({ log with Prefix := pre }, slice))
    else if key = "level" then do
      let slice ← removeSliceElement slice index
      let level ← sliceIndex tmp_slice 1
      pure (some ({ log with Level := level }, slice))
    else if key = "limit" then do
      let slice ← removeSliceElement slice index
      let tmp_slice := strings.Split (← sliceIndex slice index) '='
      let limit ← sliceIndex tmp_slice 1
      let slice ← removeSliceElement slice index
      pure (some ({ log with Limit := { Value := limit } }, slice))
    else stringToLog.scan log slice (index + 1) rest

def stringToLog.loop : Nat → Log → List String → Outcome (Log × List String)
  | 0, _, _ => .fuelOut
  | fuel + 1, log, slice =>
    match stringToLog.scan log slice 0 slice with
    | .returned none => .returned (log, slice)
    | .returned (some (log, slice)) => stringToLog.loop fuel log slice
    | .fault => .fault
    | .fuelOut => .fuelOut

def stringToLog (slice : List String) : Outcome (Log × List String) :=
  stringToLog.loop (slice.length + 1) {} slice

/-! ## Parser (`option.go`, lines 564-690) -/

def StringToRule.scan (rule : Rule) (strslice : List String) :
    Nat → List String → Outcome (Option (Rule × List String))
  | _, [] => pure none
  | index, value :: rest =>
    if value = "rule" then do
      let strslice ← removeSliceElement strslice index
      let tmp_str := strings.Split (← sliceIndex strslice index) '='
      let family ← sliceIndex tmp_str 1
      let strslice ← removeSliceElement strslice index
      pure (some ({ rule with Family := family }, strslice))
    else if value = "source" then do
      let strslice ← removeSliceElement strslice index
      let tmp_str := strings.Split (← sliceIndex strslice index) '='
      let source : Source := {}
      let key ← sliceIndex tmp_str 0
      let source ←
        if key = "address" then do
          pure { source with Address := (← sliceIndex tmp_str 1) }
        else if key = "mac" then do
          pure { source with Mac := (← sliceIndex tmp_str 1) }
        else if key = "ipset" then do
          pure { source with Ipset := (← sliceIndex tmp_str 1) }
        else if key = "invert" then do
          pure { source with Invert := (← sliceIndex tmp_str 1) }
        else pure source
      let strslice ← removeSliceElement strslice index
      pure (some ({ rule with Source := source }, strslice))
    else if value = "destination" then do
      let strslice ← removeSliceElement strslice index
      let dst : Destination := {}
      let tmp_str := strings.Split (← sliceIndex strslice index) '='
      let key ← sliceIndex tmp_str 0
      let dst ←
        if key = "address" then do
          pure { dst with Address := (← sliceIndex tmp_str 1) }
        else if key = "invert" then do
          pure { dst with Invert := (← sliceIndex tmp_str 1) }
        else pure dst
      let strslice ← removeSliceElement strslice index
      pure (some ({ rule with Destination := dst }, strslice))
    else if value = "service" then do
      let strslice ← removeSliceElement strslice index
      let tmp_str := strings.Split (← sliceIndex strslice index) '='
      let name ← sliceIndex tmp_str 1
      let strslice ← removeSliceElement strslice index
      pure (some ({ rule with Service := { Name := name } }, strslice))
    else if value = "port" then do
      let strslice ← removeSliceElement strslice index
      let port := strings.Split (← sliceIndex strslice index) '='
      let protocol := strings.Split (← sliceIndex strslice (index + 1)) '='
      let portValue ← sliceIndex port 1
      let protocolValue ← sliceIndex protocol 1
      let strslice ← removeSliceElement strslice index
      pure (some ({ rule with Port := { Port := portValue, Protocol := protocolValue } },
        strslice))
    else if value = "protocol" then do
      let strslice ← removeSliceElement strslice index
      let tmp_str := strings.Split (← sliceIndex strslice (index + 1)) '='
      let v ← sliceIndex tmp_str 1
      let strslice ← removeSliceElement strslice index
      pure (some ({ rule with Protocol := { Value := v } }, strslice))
    else if value = "icmp-block" then do
      let strslice ← removeSliceElement strslice index
      let tmp_str := strings.Split (← sliceIndex strslice (index + 1)) '='
      let name ← sliceIndex tmp_str 1
      let strslice ← removeSliceElement strslice index
      pure (some ({ rule with IcmpBlock := { Name := name } }, strslice))
    else if value = "icmp-type" then do
      let strslice ← removeSliceElement strslice index
      let tmp_str := strings.Split (← sliceIndex strslice (index + 1)) '='
      let name ← sliceIndex tmp_str 1
      let strslice ← removeSliceElement strslice index
      pure (some ({ rule with IcmpType := { Name := name } }, strslice))
    else if value = "forward-port" then do
      let strslice ← removeSliceElement strslice index
      let (forwardPort, strslice) ← stringToForwardPort strslice
      pure (some ({ rule with ForwardPort := forwardPort }, strslice))
    else if value = "log" then do
      let strslice ← removeSliceElement strslice index
      let (log, strslice) ← stringToLog strslice
      pure (some ({ rule with Log := log }, strslice))
    else if value = "audit" then do
      let strslice ← removeSliceElement strslice index
      let tmp_str := strings.Split (← sliceIndex strslice index) '='
      let limit ← sliceIndex tmp_str 1
      let strslice ← removeSliceElement strslice index
      pure (some ({ rule with Audit := { Limit := { Value := limit } } }, strslice))
    else if value = "accept" then do
      let strslice ← removeSliceElement strslice index
      let rule := { rule with Accept := { rule.Accept with Flag := true } }
      if strslice.length > 0 then do
        if (← sliceIndex strslice index) = "limit" then do
          let strslice ← removeSliceElement strslice index
          let tmp_str := strings.Split (← sliceIndex strslice index) '='
          let limit ← sliceIndex tmp_str 1
          pure (some ({ rule with Accept := { rule.Accept with Limit := { Value := limit } } },
            strslice))
        else pure (some (rule, strslice))
      else pure (some (rule, strslice))
    else if value = "drop" then do
      let strslice ← removeSliceElement strslice index
      let rule := { rule with Drop := { rule.Drop with Flag := true } }
      if strslice.length > 0 then do
        if (← sliceIndex strslice index) = "limit" then do
          let strslice ← removeSliceElement strslice index
          let tmp_str := strings.Split (← sliceIndex strslice index) '='
          let limit ← sliceIndex tmp_str 1
          pure (some ({ rule with Drop := { rule.Drop with Limit := { Value := limit } } },
            strslice))
        else pure (some (rule, strslice))
      else pure (some (rule, strslice))
    else if value = "reject" then do
      let strslice ← removeSliceElement strslice index
      let (reject, strslice) ← stringToReject strslice
      pure (some ({ rule with Reject := reject }, strslice))
    else if value = "mark" then do
      let strslice ← removeSliceElement strslice index
      let (mark, strslice) ← stringToMark strslice
      pure (some ({ rule with Mark := mark }, strslice))
    else StringToRule.scan rule strslice (index + 1) rest

def StringToRule.loop : Nat → Rule → List String → Outcome Rule
  | 0, _, _ => .fuelOut
  | fuel + 1, rule, strslice =>
    match StringToRule.scan rule strslice 0 strslice with
    | .returned none => .returned rule
    | .returned (some (rule, strslice)) => StringToRule.loop fuel rule strslice
    | .fault => .fault
    | .fuelOut => .fuelOut

/-- `StringToRule`: split on `" "`, start from the zero `Rule`, run the
restarting scan. No restart happens without a token removed, so
`len(strslice) + 1` scans are enough for the loop to end. -/
def StringToRule (str : String) : Outcome Rule :=
  let strslice := strings.Split str ' '
  StringToRule.loop (strslice.length + 1) {} strslice

/-! ## Port check (`wapper.go`, lines 28-50)

`strings.Contains` and `strconv.Atoi` are the Go library functions that
`checkPort` calls; `checkPort` ignores the error of `Atoi` and uses the value. -/

/-- Go's `strings.Contains(s, substr)` for a `substr` of one character. -/
def strings.Contains (s : String) (substr : Char) : Bool := decide (substr ∈ s.data)

/-- The number that a sequence of decimal digits denotes, computed as Go's
`strconv` does: `n = n*10 + (ch - '0')` from left to right. -/
def digitsValue (cs : List Char) : Nat :=
  cs.foldl (fun n ch => n * 10 + (ch.toNat - '0'.toNat)) 0

/-- Go's `strconv.Atoi` where `int` has 64 bits: the value and whether the error
is non-nil. An optional sign, then decimal digits; on a syntax error (no digit,
or a character that is no digit) the value is `0`; a number that does not fit
is clamped to `2^63 - 1` or `-2^63`, with a range error. -/
def strconv.Atoi (s : String) : Int × Bool :=
  let neg := s.data.head? = some '-'
  let body := if s.data.head? = some '-' ∨ s.data.head? = some '+' then s.data.tail else s.data
  if body = [] ∨ ¬ body.all Char.isDigit then (0, true)
  else
    let un := digitsValue body
    if ¬ neg ∧ un ≥ 2 ^ 63 then (2 ^ 63 - 1, true)
    else if neg ∧ un > 2 ^ 63 then (-2 ^ 63, true)
    else (if neg then -(un : Int) else (un : Int), false)

/-- `checkPort` of `wapper.go`; the result is the error, `none` for `nil`. Both
branches split the whole of `portProtocol` on `-`, and the two range tests are
joined by `&&`. -/
def checkPort (portProtocol : String) : Outcome (Option String) :=
  if strings.Contains portProtocol '/' then do
    let slices := strings.Split portProtocol '/'
    if strings.Contains (← sliceIndex slices 0) '-' then do
      let portRange := strings.Split portProtocol '-'
      let frist := (strconv.Atoi (← sliceIndex portRange 0)).1
      let last := (strconv.Atoi (← sliceIndex portRange 1)).1
      if ¬ (frist > 0 ∧ frist ≤ 65535) ∧ ¬ (last > 0 ∧ last ≤ 65535) then
        pure (some "port range error.")
      else pure none
    else pure none
  else
    if strings.Contains portProtocol '-' then do
      let portRange := strings.Split portProtocol '-'
      let frist := (strconv.Atoi (← sliceIndex portRange 0)).1
      let last := (strconv.Atoi (← sliceIndex portRange 1)).1
      if ¬ (frist > 0 ∧ frist ≤ 65535) ∧ ¬ (last > 0 ∧ last ≤ 65535) then
        pure (some "port range error.")
      else pure none
    else pure none

/-! ## Auxiliary definitions

Vocabulary for the statements and proofs below: the parts of a token around its
first `=`, the key sets of the sub-parsers, the tokens that each renderer
writes, and the class of rules on which rendering and parsing agree. None of
it is in the source. -/

def keywords : List String :=
  ["rule", "source", "destination", "service", "port", "protocol", "icmp-block", "icmp-type",
    "forward-port", "log", "audit", "accept", "drop", "reject", "mark"]

/-- The text of a token before its first `=` (the whole token when it has none):
`strings.Split(value, "=")[0]`. -/
def firstPart (t : String) : String := ((strings.Split t '=')[0]?).getD ""

/-- The text of a token between its first and second `=`:
`strings.Split(value, "=")[1]`, when the token has an `=`. -/
def secondPart (t : String) : String := ((strings.Split t '=')[1]?).getD ""

def markKeys : List String := ["set", "limit"]

def logKeys : List String := ["prefix", "level", "limit"]

/-- The tokens that `Mark.ToString` writes after the keyword `mark`. -/
def Mark.body (m : Mark) : List String :=
  (if m.Set ≠ "" then ["set=" ++ m.Set] else []) ++
    (if m.Limit.Value ≠ "" then ["limit", "value=" ++ m.Limit.Value] else [])

/-- The tokens that `Log.ToString` writes after the keyword `log`. -/
def Log.body (l : Log) : List String :=
  (if l.Prefix ≠ "" then ["prefix=" ++ l.Prefix] else []) ++
    ((if l.Level ≠ "" then ["level=" ++ l.Level] else []) ++
      (if l.Limit.Value ≠ "" then ["limit", "value=" ++ l.Limit.Value] else []))

def fpKeys : List String := ["port", "protocol", "to-port", "to-addr"]

/-- The effect of one `key=value` token on a `ForwardPort`, as in the four cases
of `stringToForwardPort`. -/
def ForwardPort.set (forwardPort : ForwardPort) (t : String) : ForwardPort :=
  if firstPart t = "port" then { forwardPort with Port := secondPart t }
  else if firstPart t = "protocol" then { forwardPort with Protocol := secondPart t }
  else if firstPart t = "to-port" then { forwardPort with ToPort := secondPart t }
  else if firstPart t = "to-addr" then { forwardPort with ToAddr := secondPart t }
  else forwardPort

/-- The tokens that `ForwardPort.ToString` writes after the keyword
`forward-port`; the first is empty when `Port` is. -/
def ForwardPort.body (fp : ForwardPort) : List String :=
  (if fp.Port ≠ "" then "port=" ++ fp.Port else "") ::
    ((if fp.Protocol ≠ "" then ["protocol=" ++ fp.Protocol] else []) ++
      ((if fp.ToPort ≠ "" then ["to-port=" ++ fp.ToPort] else []) ++
        (if fp.ToAddr ≠ "" then ["to-addr=" ++ fp.ToAddr] else [])))

/-- A token that no scan reacts to, such as the parser leaves behind: one
whose part before the first `=` is empty (the empty token) or is `value` (the
`value=v` of a consumed limit). -/
def Inert (t : String) : Prop := firstPart t = "" ∨ firstPart t = "value"

instance (t : String) : Decidable (Inert t) := inferInstanceAs (Decidable (_ ∨ _))

/-- Every run of `StringToRule.loop` from `rule` on `rest`, behind any inert
tokens and with more fuel than `rest` has tokens, returns `result`. -/
def Parses (rule : Rule) (rest : List String) (result : Rule) : Prop :=
  ∀ (pre : List String) (fuel : Nat), (∀ t ∈ pre, Inert t) → rest.length < fuel →
    StringToRule.loop fuel rule (pre ++ rest) = .returned result

/-- The tokens of a rendered destination clause: the clause starts with a
space, which gives an empty token in front of the keyword. -/
def Destination.tokens (d : Destination) : List String :=
  if d.Address ≠ "" then ["", "destination", "address=" ++ d.Address] else []

def Service.tokens (s : Service) : List String :=
  if s.Name ≠ "" then ["service", "name=" ++ s.Name] else []

def ForwardPort.tokens (fp : ForwardPort) : List String :=
  if fp ≠ {} then "forward-port" :: fp.body else []

def Log.tokens (l : Log) : List String :=
  if l ≠ {} then "log" :: l.body else []

/-- The tokens of a rendered accept clause whose flag is set; without a limit
the clause ends in two spaces, which gives an empty token. -/
def Accept.tokens (a : Accept) : List String :=
  if a.Flag then
    "accept" :: (if a.Limit.Value ≠ "" then ["limit", "value=" ++ a.Limit.Value] else [""])
  else []

def Drop.tokens (d : Drop) : List String :=
  if d.Flag then
    "drop" :: (if d.Limit.Value ≠ "" then ["limit", "value=" ++ d.Limit.Value] else [""])
  else []

def Mark.tokens (m : Mark) : List String :=
  if m ≠ {} then "mark" :: m.body else []

/-- The `key=value` token that `Source.ToString` writes after the keyword. -/
def Source.token (s : Source) : String :=
  if s.Address ≠ "" then "address=" ++ s.Address
  else if s.Mac ≠ "" then "mac=" ++ s.Mac
  else "ipset=" ++ s.Ipset

/-- Exactly one of `Address`, `Mac`, `Ipset` is set, and `Invert` is not. -/
abbrev Source.Single (s : Source) : Prop :=
  s.Invert = "" ∧
    ((s.Address ≠ "" ∧ s.Mac = "" ∧ s.Ipset = "") ∨ (s.Address = "" ∧ s.Mac ≠ "" ∧ s.Ipset = "") ∨
      (s.Address = "" ∧ s.Mac = "" ∧ s.Ipset ≠ ""))

/-- The text whose tokens are `ts`, each followed by one space, and then
`tail`. -/
def joinTokens (ts : List String) (tail : String) : String :=
  ts.foldr (fun t acc => t ++ " " ++ acc) tail

/-- No space and no `=` in the string. -/
abbrev plain (s : String) : Prop := ' ' ∉ s.data ∧ '=' ∉ s.data

/-- The class of rules on which the serializer and the parser agree: a family; a
source with exactly one of address, mac and ipset and no invert, or else no
source and a destination address (the first clause written must be the source
or the destination, the only two that start with a space), or else no clause at
all; a destination without invert; no port, protocol, icmp-block, icmp-type,
audit or reject clause; accept and drop either empty or with their flag set; no
limit on accept, drop or mark next to a log clause; and no value with a space or
an `=`. -/
structure Rule.Supported (r : Rule) : Prop where
  family_ne : r.Family ≠ ""
  family : plain r.Family
  source : r.Source.Single ∨ (r.Source = {} ∧ r.Destination.Address ≠ "") ∨
    r = { Family := r.Family }
  source_address : plain r.Source.Address
  source_mac : plain r.Source.Mac
  source_ipset : plain r.Source.Ipset
  destination_invert : r.Destination.Invert = ""
  destination_address : plain r.Destination.Address
  service : plain r.Service.Name
  port : r.Port = {}
  protocol : r.Protocol = {}
  icmpBlock : r.IcmpBlock = {}
  icmpType : r.IcmpType = {}
  forwardPort_port : plain r.ForwardPort.Port
  forwardPort_protocol : plain r.ForwardPort.Protocol
  forwardPort_toPort : plain r.ForwardPort.ToPort
  forwardPort_toAddr : plain r.ForwardPort.ToAddr
  log_prefix : plain r.Log.Prefix
  log_level : plain r.Log.Level
  log_limit : plain r.Log.Limit.Value
  log_alone : r.Log ≠ {} →
    r.Accept.Limit.Value = "" ∧ r.Drop.Limit.Value = "" ∧ r.Mark.Limit.Value = ""
  audit : r.Audit = {}
  accept_flag : r.Accept.Flag = true ∨ r.Accept.Limit.Value = ""
  accept_limit : plain r.Accept.Limit.Value
  reject : r.Reject = {}
  drop_flag : r.Drop.Flag = true ∨ r.Drop.Limit.Value = ""
  drop_limit : plain r.Drop.Limit.Value
  mark_set : plain r.Mark.Set
  mark_limit : plain r.Mark.Limit.Value

/-- The tokens of the rendering of a supported rule that has a source, the last,
empty, one left out. -/
def Rule.tokens (r : Rule) : List String :=
  ["rule", "family=" ++ r.Family, "source", r.Source.token] ++
    (r.Destination.tokens ++ (r.Service.tokens ++ (r.ForwardPort.tokens ++
      (r.Log.tokens ++ (r.Accept.tokens ++ (r.Drop.tokens ++ r.Mark.tokens))))))

/-- The tokens that the clauses after the destination render. -/
def Rule.clauseTokens (r : Rule) : List String :=
  r.Service.tokens ++ (r.ForwardPort.tokens ++
    (r.Log.tokens ++ (r.Accept.tokens ++ (r.Drop.tokens ++ r.Mark.tokens))))

/-- The tokens of the rendering of a supported rule that has no source and has
a destination, the last, empty, one left out. -/
def Rule.tokensNoSource (r : Rule) : List String :=
  ["rule", "family=" ++ r.Family, "destination", "address=" ++ r.Destination.Address] ++
    r.clauseTokens

/-- The effect on a rule of parsing one of the four clauses `rule family=f`,
`source address=a`, `service name=n`, `accept`. -/
def setClause (f a n : String) (rule : Rule) (c : String) : Rule :=
  if c = "rule family=" ++ f then { rule with Family := f }
  else if c = "source address=" ++ a then { rule with Source := { Address := a } }
  else if c = "service name=" ++ n then { rule with Service := { Name := n } }
  else if c = "accept" then { rule with Accept := { rule.Accept with Flag := true } }
  else rule

/-- The outcome with `f` applied to the returned value. -/
def Outcome.map {α β : Type} (f : α → β) : Outcome α → Outcome β
  | .returned a => .returned (f a)
  | .fault => .fault
  | .fuelOut => .fuelOut

/-- The restarting loop shared by the parser and its sub-parsers: run `scan`;
when it ends return the state, when it restarts go on with the new state. -/
def restartLoop {σ : Type} (scan : σ → List String → Outcome (Option (σ × List String))) :
    Nat → σ → List String → Outcome (σ × List String)
  | 0, _, _ => .fuelOut
  | fuel + 1, st, s =>
    match scan st s with
    | .returned none => .returned (st, s)
    | .returned (some (st1, s1)) => restartLoop scan fuel st1 s1
    | .fault => .fault
    | .fuelOut => .fuelOut

/-- On a restart the new slice is a sublist of the old one and is strictly
shorter. -/
def Shrinks {σ : Type} (s : List String) (o : Outcome (Option (σ × List String))) : Prop :=
  ∀ st s1, o = .returned (some (st, s1)) → s1.Sublist s ∧ s1.length < s.length

/-- Putting the token `n` in front of the slice of a scan result. -/
def consState {σ : Type} (n : String) (o : Option (σ × List String)) :
    Option (σ × List String) :=
  o.map (fun p => (p.1, n :: p.2))

/-- The slice of a restart is a sublist of `s`. -/
def Within {σ : Type} (s : List String) (o : Outcome (Option (σ × List String))) : Prop :=
  ∀ st s1, o = .returned (some (st, s1)) → s1.Sublist s

/-- A token that no scan of the parser or of a sub-parser reacts to: it has an
`=`, the text before it is no field name of a sub-parser, and the text after it
is neither `type` nor `limit` (the two values the reject sub-parser looks for). -/
abbrev Noise (n : String) : Prop :=
  '=' ∈ n.data ∧ secondPart n ≠ "type" ∧ secondPart n ≠ "limit" ∧
    firstPart n ∉ markKeys ∧ firstPart n ∉ fpKeys ∧ firstPart n ∉ logKeys

/-- Every value that the outcome returns satisfies `Q`. -/
def Outcome.All {α : Type} (Q : α → Prop) (o : Outcome α) : Prop :=
  ∀ a, o = .returned a → Q a

/-- The outcome is a return or a fault: the fuel was enough. -/
def Outcome.Done {α : Type} (o : Outcome α) : Prop := o ≠ .fuelOut

/-- The state of a restart satisfies `P`. -/
def Keeps {σ : Type} (P : σ → Prop) (o : Option (σ × List String)) : Prop :=
  ∀ p, o = some p → P p.1

/-- The number of non-empty strings in the list. -/
def nonEmptyCount (l : List String) : Nat := (l.filter (fun v => decide (v ≠ ""))).length

/-- At most one of the four fields of the source is non-empty, and at most one
of the two fields of the destination. -/
def Rule.OneField (r : Rule) : Prop :=
  nonEmptyCount [r.Source.Address, r.Source.Mac, r.Source.Ipset, r.Source.Invert] ≤ 1 ∧
    nonEmptyCount [r.Destination.Address, r.Destination.Invert] ≤ 1

instance (r : Rule) : Decidable r.OneField := inferInstanceAs (Decidable (_ ∧ _))

/-- The text between the first and the second `=` of the last token of `l` whose
key is `key`, or the empty string when no token of `l` has that key. -/
def lastValue (key : String) (l : List String) : String :=
  match (l.filter (fun t => decide (firstPart t = key))).getLast? with
  | some t => secondPart t
  | none => ""

/-- The single pass that the forward-port sub-parser is compared with: each
field holds the value of the last token with its key, and the tokens with one
of the four keys are filtered out, the others kept in their order. -/
def forwardPortOnePass (l : List String) : ForwardPort × List String :=
  ({ Port := lastValue "port" l, Protocol := lastValue "protocol" l,
     ToPort := lastValue "to-port" l, ToAddr := lastValue "to-addr" l },
    l.filter (fun t => decide (firstPart t ∉ fpKeys)))

/-- The text is empty, or it starts with a token without `=` that is followed by
a space. -/
def HeadToken (c : String) : Prop :=
  c = "" ∨ ∃ tok more : String, plain tok ∧ c = tok ++ " " ++ more

/-- A decimal numeral: one or more decimal digits. -/
def Numeral (s : String) : Prop := s.data ≠ [] ∧ ∀ c ∈ s.data, c.isDigit = true

instance (s : String) : Decidable (Numeral s) := inferInstanceAs (Decidable (_ ∧ _))

/-- The number is a port number: in `1..65535`. -/
def inPortRange (n : Nat) : Prop := 1 ≤ n ∧ n ≤ 65535

instance (n : Nat) : Decidable (inPortRange n) := inferInstanceAs (Decidable (_ ∧ _))

/-! ## Lemmas on strings and slices -/

theorem ite_append_right (c : Prop) [Decidable c] (s t : String) :
    (if c then s ++ t else s) = s ++ (if c then t else "") := by
  split <;> simp

theorem ne_of_mem_data (c : Char) {s t : String} (hs : c ∈ s.data) (ht : c ∉ t.data) :
    s ≠ t :=
  fun e => ht (e ▸ hs)

theorem splitChars_of_not_mem (sep : Char) (l : List Char) (h : sep ∉ l) :
    splitChars sep l = [l] := by
  induction l with
  | nil => rfl
  | cons c cs ih =>
    have hc : c ≠ sep := fun e => h (by simp [e])
    have hcs : sep ∉ cs := fun e => h (by simp [e])
    simp [splitChars, hc, ih hcs]

theorem splitChars_append_sep (sep : Char) (a b : List Char) (h : sep ∉ a) :
    splitChars sep (a ++ sep :: b) = a :: splitChars sep b := by
  induction a with
  | nil => simp [splitChars]
  | cons c cs ih =>
    have hc : c ≠ sep := fun e => h (by simp [e])
    have hcs : sep ∉ cs := fun e => h (by simp [e])
    simp [splitChars, hc, ih hcs]

theorem strings.Split_of_not_mem (sep : Char) (a : String) (h : sep ∉ a.data) :
    strings.Split a sep = [a] := by
  simp [strings.Split, splitChars_of_not_mem sep a.data h]

theorem strings.Split_append_sep (sep : Char) (a b : String) (h : sep ∉ a.data) :
    strings.Split (a ++ String.singleton sep ++ b) sep = a :: strings.Split b sep := by
  simp [strings.Split, String.data_append, splitChars_append_sep sep a.data b.data h]

/-- A token `k=v` with no `=` in `k` nor in `v` splits into `k` and `v`. -/
theorem strings.Split_key_value (k v : String) (hk : '=' ∉ k.data) (hv : '=' ∉ v.data) :
    strings.Split (k ++ "=" ++ v) '=' = [k, v] := by
  have h := strings.Split_append_sep '=' k v hk
  rw [strings.Split_of_not_mem _ _ hv] at h
  exact h

/-- A token that contains `=` is none of the clause keywords, nor `limit`. -/
theorem ne_keywords (value : String) (h : '=' ∈ value.data) :
    value ≠ "rule" ∧ value ≠ "source" ∧ value ≠ "destination" ∧ value ≠ "service" ∧
    value ≠ "port" ∧ value ≠ "protocol" ∧ value ≠ "icmp-block" ∧ value ≠ "icmp-type" ∧
    value ≠ "forward-port" ∧ value ≠ "log" ∧ value ≠ "audit" ∧ value ≠ "accept" ∧
    value ≠ "drop" ∧ value ≠ "reject" ∧ value ≠ "mark" ∧ value ≠ "limit" := by
  refine ⟨?_, ?_, ?_, ?_, ?_, ?_, ?_, ?_, ?_, ?_, ?_, ?_, ?_, ?_, ?_, ?_⟩ <;>
    exact ne_of_mem_data '=' h (by decide)

theorem tokens_family_port_accept (f p q : String)
    (hf : ' ' ∉ f.data) (hp : ' ' ∉ p.data) (hq : ' ' ∉ q.data) :
    strings.Split
        ("rule family=" ++ f ++ " port name=" ++ p ++ " protocol=" ++ q ++ " accept ") ' ' =
      ["rule", "family=" ++ f, "port", "name=" ++ p, "protocol=" ++ q, "accept", ""] := by
  have e : "rule family=" ++ f ++ " port name=" ++ p ++ " protocol=" ++ q ++ " accept " =
      "rule" ++ String.singleton ' ' ++ (("family=" ++ f) ++ String.singleton ' ' ++
        ("port" ++ String.singleton ' ' ++ (("name=" ++ p) ++ String.singleton ' ' ++
          (("protocol=" ++ q) ++ String.singleton ' ' ++
            ("accept" ++ String.singleton ' ' ++ ""))))) := by
    apply String.ext; simp
  rw [e, strings.Split_append_sep _ _ _ (by decide),
    strings.Split_append_sep _ _ _ (by simp [hf]), strings.Split_append_sep _ _ _ (by decide),
    strings.Split_append_sep _ _ _ (by simp [hp]), strings.Split_append_sep _ _ _ (by simp [hq]),
    strings.Split_append_sep _ _ _ (by decide), strings.Split_of_not_mem _ _ (by decide)]

theorem splitChars_ne_nil (sep : Char) (l : List Char) : splitChars sep l ≠ [] := by
  cases l with
  | nil => simp [splitChars]
  | cons c cs =>
    simp only [splitChars]
    split
    · simp
    · split <;> simp

theorem splitChars_length_of_mem (sep : Char) (l : List Char) (h : sep ∈ l) :
    2 ≤ (splitChars sep l).length := by
  induction l with
  | nil => simp at h
  | cons c cs ih =>
    by_cases hc : c = sep
    · have := splitChars_ne_nil sep cs
      simp only [splitChars, hc, if_true, List.length_cons]
      have : 0 < (splitChars sep cs).length := List.length_pos.mpr this
      omega
    · have hcs : sep ∈ cs := by
        rcases List.mem_cons.mp h with h | h
        · exact absurd h.symm hc
        · exact h
      have := ih hcs
      simp only [splitChars, hc, if_false]
      split
      · rename_i e; rw [e] at this; simp at this
      · rename_i t ts e; rw [e] at this; simpa using this

theorem sliceIndex_Split_zero (t : String) :
    sliceIndex (strings.Split t '=') 0 = .returned (firstPart t) := by
  have h := splitChars_ne_nil '=' t.data
  unfold sliceIndex firstPart strings.Split
  cases e : splitChars '=' t.data with
  | nil => exact absurd e h
  | cons a as => simp

theorem sliceIndex_Split_one (t : String) (h : '=' ∈ t.data) :
    sliceIndex (strings.Split t '=') 1 = .returned (secondPart t) := by
  have h := splitChars_length_of_mem '=' t.data h
  unfold sliceIndex secondPart strings.Split
  cases e : splitChars '=' t.data with
  | nil => rw [e] at h; simp at h
  | cons a as =>
    cases as with
    | nil => rw [e] at h; simp at h
    | cons b bs => simp

theorem sliceIndex_Split_one_of_not_mem (t : String) (h : '=' ∉ t.data) :
    sliceIndex (strings.Split t '=') 1 = .fault := by
  rw [strings.Split_of_not_mem _ _ h]; rfl

theorem removeSliceElement_append (pre : List String) (t : String) (tl : List String) :
    removeSliceElement (pre ++ t :: tl) pre.length = .returned (pre ++ tl) := by
  simp [removeSliceElement]

theorem sliceIndex_append (pre : List String) (t : String) (tl : List String) :
    sliceIndex (pre ++ t :: tl) pre.length = .returned t := by
  unfold sliceIndex
  rw [List.getElem?_append_right (Nat.le_refl _)]
  simp

theorem sliceIndex_append_nil (pre : List String) :
    sliceIndex pre pre.length = .fault := by
  simp [sliceIndex]

theorem sliceIndex_cons_zero {α : Type} (a : α) (l : List α) :
    sliceIndex (a :: l) 0 = .returned a := by simp [sliceIndex]

theorem sliceIndex_cons_one {α : Type} (a b : α) (l : List α) :
    sliceIndex (a :: b :: l) 1 = .returned b := by simp [sliceIndex]

theorem firstPart_key_value (k v : String) (hk : '=' ∉ k.data) :
    firstPart (k ++ "=" ++ v) = k := by
  have h := strings.Split_append_sep '=' k v hk
  unfold firstPart
  rw [show k ++ "=" ++ v = k ++ String.singleton '=' ++ v from rfl, h]
  simp

theorem firstPart_of_not_mem (t : String) (h : '=' ∉ t.data) : firstPart t = t := by
  unfold firstPart
  rw [strings.Split_of_not_mem _ _ h]
  simp

theorem secondPart_key_value (k v : String) (hk : '=' ∉ k.data) (hv : '=' ∉ v.data) :
    secondPart (k ++ "=" ++ v) = v := by
  unfold secondPart
  rw [strings.Split_key_value k v hk hv]
  simp

theorem filter_eq_nil_of_forall {α : Type} (p : α → Bool) (l : List α)
    (h : ∀ t ∈ l, p t = false) : l.filter p = [] := by
  induction l with
  | nil => rfl
  | cons a as ih =>
    rw [List.filter_cons, h a (by simp)]
    simpa using ih (fun t ht => h t (by simp [ht]))

theorem filter_eq_self_of_forall {α : Type} (p : α → Bool) (l : List α)
    (h : ∀ t ∈ l, p t = true) : l.filter p = l := by
  induction l with
  | nil => rfl
  | cons a as ih =>
    rw [List.filter_cons, h a (by simp)]
    simpa using ih (fun t ht => h t (by simp [ht]))

theorem firstPart_lit :
    firstPart "" = "" ∧ firstPart "log" = "log" ∧ firstPart "limit" = "limit" ∧
    firstPart "accept" = "accept" ∧ firstPart "drop" = "drop" ∧ firstPart "mark" = "mark" := by
  decide

theorem firstPart_keys (v : String) :
    firstPart ("prefix=" ++ v) = "prefix" ∧ firstPart ("level=" ++ v) = "level" ∧
    firstPart ("value=" ++ v) = "value" ∧ firstPart ("set=" ++ v) = "set" := by
  have f1 := firstPart_key_value "prefix" v (by decide)
  have f2 := firstPart_key_value "level" v (by decide)
  have f3 := firstPart_key_value "value" v (by decide)
  have f4 := firstPart_key_value "set" v (by decide)
  simp only [String.reduceAppend] at f1 f2 f3 f4
  exact ⟨f1, f2, f3, f4⟩

/-! ## The sub-parser `stringToMark` -/

theorem stringToMark_scan_skip (mark : Mark) (slice : List String)
    (index : Nat) (value : String) (rest : List String) (h : firstPart value ∉ markKeys) :
    stringToMark.scan mark slice index (value :: rest) =
      stringToMark.scan mark slice (index + 1) rest := by
  simp only [markKeys, List.mem_cons, List.mem_singleton, not_or, List.not_mem_nil, or_false] at h
  simp [stringToMark.scan, sliceIndex_Split_zero, bind, Outcome.bind, h]

theorem stringToMark_scan_at (mark : Mark) (pre : List String)
    (h : ∀ t ∈ pre, firstPart t ∉ markKeys) (rest : List String) :
    stringToMark.scan mark (pre ++ rest) 0 (pre ++ rest) =
      stringToMark.scan mark (pre ++ rest) pre.length rest := by
  have key : ∀ (l : List String) (slice : List String) (index : Nat),
      (∀ t ∈ l, firstPart t ∉ markKeys) →
      stringToMark.scan mark slice index (l ++ rest) =
        stringToMark.scan mark slice (index + l.length) rest := by
    intro l
    induction l with
    | nil => intro slice index _; simp
    | cons t ts ih =>
      intro slice index hl
      rw [List.cons_append, stringToMark_scan_skip _ _ _ _ _ (hl t (by simp)),
        ih slice (index + 1) (fun u hu => hl u (by simp [hu]))]
      simp [Nat.add_assoc, Nat.add_comm 1]
  rw [key pre (pre ++ rest) 0 h, Nat.zero_add]

theorem stringToMark_loop_done (fuel : Nat) (hfuel : 0 < fuel) (mark : Mark)
    (slice : List String) (h : ∀ t ∈ slice, firstPart t ∉ markKeys) :
    stringToMark.loop fuel mark slice = .returned (mark, slice) := by
  obtain ⟨n, rfl⟩ : ∃ n, fuel = n + 1 := ⟨fuel - 1, by omega⟩
  have := stringToMark_scan_at mark slice h []
  simp only [List.append_nil] at this
  simp [stringToMark.loop, this, stringToMark.scan]

theorem stringToMark_loop_set (fuel : Nat) (hfuel : 0 < fuel) (mark : Mark)
    (pre tl : List String) (s : String) (hpre : ∀ t ∈ pre, firstPart t ∉ markKeys)
    (hs : '=' ∉ s.data) :
    stringToMark.loop fuel mark (pre ++ ("set=" ++ s) :: tl) =
      stringToMark.loop (fuel - 1) { mark with Set := s } (pre ++ tl) := by
  obtain ⟨n, rfl⟩ : ∃ n, fuel = n + 1 := ⟨fuel - 1, by omega⟩
  have k := strings.Split_key_value "set" s (by decide) hs
  simp only [String.reduceAppend] at k
  rw [stringToMark.loop, stringToMark_scan_at mark pre hpre]
  simp [stringToMark.scan, removeSliceElement_append, bind, Outcome.bind, pure, k,
    sliceIndex_cons_zero, sliceIndex_cons_one]

theorem stringToMark_loop_limit (fuel : Nat) (hfuel : 0 < fuel) (mark : Mark)
    (pre tl : List String) (v : String) (hpre : ∀ t ∈ pre, firstPart t ∉ markKeys)
    (hv : '=' ∉ v.data) :
    stringToMark.loop fuel mark (pre ++ "limit" :: ("value=" ++ v) :: tl) =
      stringToMark.loop (fuel - 1) { mark with Limit := { Value := v } } (pre ++ tl) := by
  obtain ⟨n, rfl⟩ : ∃ n, fuel = n + 1 := ⟨fuel - 1, by omega⟩
  have k := strings.Split_key_value "value" v (by decide) hv
  simp only [String.reduceAppend] at k
  have k0 : strings.Split "limit" '=' = ["limit"] := by decide
  rw [stringToMark.loop, stringToMark_scan_at mark pre hpre]
  simp [stringToMark.scan, removeSliceElement_append, sliceIndex_append, bind, Outcome.bind,
    pure, k, k0, sliceIndex_cons_zero, sliceIndex_cons_one]

theorem stringToMark_body (m : Mark) (pre post : List String)
    (hs : '=' ∉ m.Set.data) (hv : '=' ∉ m.Limit.Value.data)
    (hpre : ∀ t ∈ pre, firstPart t ∉ markKeys) (hpost : ∀ t ∈ post, firstPart t ∉ markKeys) :
    stringToMark (pre ++ (m.body ++ post)) = .returned (m, pre ++ post) := by
  have hall : ∀ t ∈ pre ++ post, firstPart t ∉ markKeys := by
    intro t ht
    rcases List.mem_append.mp ht with ht | ht
    · exact hpre t ht
    · exact hpost t ht
  obtain ⟨s, ⟨v⟩⟩ := m
  simp only at hs hv
  unfold stringToMark Mark.body
  by_cases h1 : s = "" <;> by_cases h2 : v = ""
  · subst h1; subst h2
    simp only [ne_eq, not_true_eq_false, if_false, List.nil_append]
    exact stringToMark_loop_done _ (by omega) _ _ hall
  · subst h1
    simp only [ne_eq, not_true_eq_false, if_false, List.nil_append, h2, not_false_eq_true,
      if_true, List.cons_append]
    rw [stringToMark_loop_limit _ (by omega) _ _ _ _ hpre hv,
      stringToMark_loop_done _ (by simp) _ _ hall]
  · subst h2
    simp only [ne_eq, not_true_eq_false, if_false, List.append_nil, h1, not_false_eq_true,
      if_true, List.cons_append, List.nil_append]
    rw [stringToMark_loop_set _ (by omega) _ _ _ _ hpre hs,
      stringToMark_loop_done _ (by simp) _ _ hall]
  · simp only [ne_eq, h1, h2, not_false_eq_true, if_true, List.cons_append, List.nil_append]
    rw [stringToMark_loop_set _ (by omega) _ _ _ _ hpre hs,
      stringToMark_loop_limit _ (by simp) _ _ _ _ hpre hv,
      stringToMark_loop_done _ (by simp) _ _ hall]

/-! ## The sub-parser `stringToLog` -/

theorem stringToLog_scan_skip (log : Log) (slice : List String)
    (index : Nat) (value : String) (rest : List String) (h : firstPart value ∉ logKeys) :
    stringToLog.scan log slice index (value :: rest) =
      stringToLog.scan log slice (index + 1) rest := by
  simp only [logKeys, List.mem_cons, List.mem_singleton, not_or, List.not_mem_nil, or_false] at h
  simp [stringToLog.scan, sliceIndex_Split_zero, bind, Outcome.bind, h]

theorem stringToLog_scan_at (log : Log) (pre : List String)
    (h : ∀ t ∈ pre, firstPart t ∉ logKeys) (rest : List String) :
    stringToLog.scan log (pre ++ rest) 0 (pre ++ rest) =
      stringToLog.scan log (pre ++ rest) pre.length rest := by
  have key : ∀ (l : List String) (slice : List String) (index : Nat),
      (∀ t ∈ l, firstPart t ∉ logKeys) →
      stringToLog.scan log slice index (l ++ rest) =
        stringToLog.scan log slice (index + l.length) rest := by
    intro l
    induction l with
    | nil => intro slice index _; simp
    | cons t ts ih =>
      intro slice index hl
      rw [List.cons_append, stringToLog_scan_skip _ _ _ _ _ (hl t (by simp)),
        ih slice (index + 1) (fun u hu => hl u (by simp [hu]))]
      simp [Nat.add_assoc, Nat.add_comm 1]
  rw [key pre (pre ++ rest) 0 h, Nat.zero_add]

theorem stringToLog_loop_done (fuel : Nat) (hfuel : 0 < fuel) (log : Log)
    (slice : List String) (h : ∀ t ∈ slice, firstPart t ∉ logKeys) :
    stringToLog.loop fuel log slice = .returned (log, slice) := by
  obtain ⟨n, rfl⟩ : ∃ n, fuel = n + 1 := ⟨fuel - 1, by omega⟩
  have := stringToLog_scan_at log slice h []
  simp only [List.append_nil] at this
  simp [stringToLog.loop, this, stringToLog.scan]

theorem stringToLog_loop_pre (fuel : Nat) (hfuel : 0 < fuel) (log : Log)
    (pre tl : List String) (s : String) (hpre : ∀ t ∈ pre, firstPart t ∉ logKeys)
    (hs : '=' ∉ s.data) :
    stringToLog.loop fuel log (pre ++ ("prefix=" ++ s) :: tl) =
      stringToLog.loop (fuel - 1) { log with Prefix := s } (pre ++ tl) := by
  obtain ⟨n, rfl⟩ : ∃ n, fuel = n + 1 := ⟨fuel - 1, by omega⟩
  have k := strings.Split_key_value "prefix" s (by decide) hs
  simp only [String.reduceAppend] at k
  rw [stringToLog.loop, stringToLog_scan_at log pre hpre]
  simp [stringToLog.scan, removeSliceElement_append, bind, Outcome.bind, pure, k,
    sliceIndex_cons_zero, sliceIndex_cons_one]

theorem stringToLog_loop_level (fuel : Nat) (hfuel : 0 < fuel) (log : Log)
    (pre tl : List String) (s : String) (hpre : ∀ t ∈ pre, firstPart t ∉ logKeys)
    (hs : '=' ∉ s.data) :
    stringToLog.loop fuel log (pre ++ ("level=" ++ s) :: tl) =
      stringToLog.loop (fuel - 1) { log with Level := s } (pre ++ tl) := by
  obtain ⟨n, rfl⟩ : ∃ n, fuel = n + 1 := ⟨fuel - 1, by omega⟩
  have k := strings.Split_key_value "level" s (by decide) hs
  simp only [String.reduceAppend] at k
  rw [stringToLog.loop, stringToLog_scan_at log pre hpre]
  simp [stringToLog.scan, removeSliceElement_append, bind, Outcome.bind, pure, k,
    sliceIndex_cons_zero, sliceIndex_cons_one]

theorem stringToLog_loop_limit (fuel : Nat) (hfuel : 0 < fuel) (log : Log)
    (pre tl : List String) (v : String) (hpre : ∀ t ∈ pre, firstPart t ∉ logKeys)
    (hv : '=' ∉ v.data) :
    stringToLog.loop fuel log (pre ++ "limit" :: ("value=" ++ v) :: tl) =
      stringToLog.loop (fuel - 1) { log with Limit := { Value := v } } (pre ++ tl) := by
  obtain ⟨n, rfl⟩ : ∃ n, fuel = n + 1 := ⟨fuel - 1, by omega⟩
  have k := strings.Split_key_value "value" v (by decide) hv
  simp only [String.reduceAppend] at k
  have k0 : strings.Split "limit" '=' = ["limit"] := by decide
  rw [stringToLog.loop, stringToLog_scan_at log pre hpre]
  simp [stringToLog.scan, removeSliceElement_append, sliceIndex_append, bind, Outcome.bind,
    pure, k, k0, sliceIndex_cons_zero, sliceIndex_cons_one]

theorem stringToLog_body (l : Log) (pre post : List String)
    (hp : '=' ∉ l.Prefix.data) (hl : '=' ∉ l.Level.data) (hv : '=' ∉ l.Limit.Value.data)
    (hpre : ∀ t ∈ pre, firstPart t ∉ logKeys) (hpost : ∀ t ∈ post, firstPart t ∉ logKeys) :
    stringToLog (pre ++ (l.body ++ post)) = .returned (l, pre ++ post) := by
  have hall : ∀ t ∈ pre ++ post, firstPart t ∉ logKeys := by
    intro t ht
    rcases List.mem_append.mp ht with ht | ht
    · exact hpre t ht
    · exact hpost t ht
  obtain ⟨p, lv, ⟨v⟩⟩ := l
  simp only at hp hl hv
  unfold stringToLog Log.body
  by_cases h1 : p = "" <;> by_cases h2 : lv = "" <;> by_cases h3 : v = "" <;>
    simp only [ne_eq, h1, h2, h3, not_true_eq_false, not_false_eq_true, if_true, if_false,
      List.nil_append, List.cons_append, List.append_nil]
  · rw [stringToLog_loop_done _ (by omega) _ _ hall]
  · rw [stringToLog_loop_limit _ (by omega) _ _ _ _ hpre hv,
      stringToLog_loop_done _ (by simp) _ _ hall]
  · rw [stringToLog_loop_level _ (by omega) _ _ _ _ hpre hl,
      stringToLog_loop_done _ (by simp) _ _ hall]
  · rw [stringToLog_loop_level _ (by omega) _ _ _ _ hpre hl,
      stringToLog_loop_limit _ (by simp) _ _ _ _ hpre hv,
      stringToLog_loop_done _ (by simp) _ _ hall]
  · rw [stringToLog_loop_pre _ (by omega) _ _ _ _ hpre hp,
      stringToLog_loop_done _ (by simp) _ _ hall]
  · rw [stringToLog_loop_pre _ (by omega) _ _ _ _ hpre hp,
      stringToLog_loop_limit _ (by simp) _ _ _ _ hpre hv,
      stringToLog_loop_done _ (by simp) _ _ hall]
  · rw [stringToLog_loop_pre _ (by omega) _ _ _ _ hpre hp,
      stringToLog_loop_level _ (by simp) _ _ _ _ hpre hl,
      stringToLog_loop_done _ (by simp) _ _ hall]
  · rw [stringToLog_loop_pre _ (by omega) _ _ _ _ hpre hp,
      stringToLog_loop_level _ (by simp) _ _ _ _ hpre hl,
      stringToLog_loop_limit _ (by simp) _ _ _ _ hpre hv,
      stringToLog_loop_done _ (by simp) _ _ hall]

/-! ## The sub-parser `stringToForwardPort` -/

theorem stringToForwardPort_scan_skip (forwardPort : ForwardPort) (slice : List String)
    (index : Nat) (value : String) (rest : List String) (h : firstPart value ∉ fpKeys) :
    stringToForwardPort.scan forwardPort slice index (value :: rest) =
      stringToForwardPort.scan forwardPort slice (index + 1) rest := by
  simp only [fpKeys, List.mem_cons, List.mem_singleton, not_or, List.not_mem_nil, or_false] at h
  simp [stringToForwardPort.scan, sliceIndex_Split_zero, bind, Outcome.bind, h]

theorem stringToForwardPort_scan_skip_list (forwardPort : ForwardPort) (slice : List String)
    (pre : List String) (h : ∀ t ∈ pre, firstPart t ∉ fpKeys) (index : Nat) (rest : List String) :
    stringToForwardPort.scan forwardPort slice index (pre ++ rest) =
      stringToForwardPort.scan forwardPort slice (index + pre.length) rest := by
  induction pre generalizing index with
  | nil => simp
  | cons t ts ih =>
    rw [List.cons_append, stringToForwardPort_scan_skip _ _ _ _ _ (h t (by simp)),
      ih (fun u hu => h u (by simp [hu]))]
    simp [Nat.add_assoc, Nat.add_comm 1]

theorem stringToForwardPort_scan_hit (forwardPort : ForwardPort) (pre : List String)
    (t : String) (tl : List String) (hk : firstPart t ∈ fpKeys) (he : '=' ∈ t.data) :
    stringToForwardPort.scan forwardPort (pre ++ t :: tl) pre.length (t :: tl) =
      .returned (some (forwardPort.set t, pre ++ tl)) := by
  simp only [fpKeys, List.mem_cons, List.mem_singleton, List.not_mem_nil, or_false] at hk
  simp only [stringToForwardPort.scan, sliceIndex_Split_zero, sliceIndex_Split_one t he,
    removeSliceElement_append, bind, Outcome.bind, pure, ForwardPort.set]
  rcases hk with hk | hk | hk | hk <;> simp [hk]

theorem stringToForwardPort_loop_filter (l : List String) :
    ∀ (pre : List String) (forwardPort : ForwardPort) (fuel : Nat),
      (∀ t ∈ pre, firstPart t ∉ fpKeys) →
      (∀ t ∈ l, firstPart t ∈ fpKeys → '=' ∈ t.data) →
      (l.filter (fun t => decide (firstPart t ∈ fpKeys))).length < fuel →
      stringToForwardPort.loop fuel forwardPort (pre ++ l) =
        .returned ((l.filter (fun t => decide (firstPart t ∈ fpKeys))).foldl
            ForwardPort.set forwardPort,
          pre ++ l.filter (fun t => decide (firstPart t ∉ fpKeys))) := by
  induction l with
  | nil =>
    intro pre forwardPort fuel hpre _ hfuel
    cases fuel with
    | zero => simp at hfuel
    | succ n =>
      have := stringToForwardPort_scan_skip_list forwardPort (pre ++ []) pre hpre 0 []
      simp only [List.append_nil] at this
      simp [stringToForwardPort.loop, this, stringToForwardPort.scan]
  | cons t tl ih =>
    intro pre forwardPort fuel hpre hl hfuel
    by_cases hk : firstPart t ∈ fpKeys
    · cases fuel with
      | zero => simp at hfuel
      | succ n =>
        have hs := stringToForwardPort_scan_skip_list forwardPort (pre ++ t :: tl) pre hpre 0
          (t :: tl)
        rw [Nat.zero_add] at hs
        have hh := stringToForwardPort_scan_hit forwardPort pre t tl hk (hl t (by simp) hk)
        have hfuel' : (tl.filter (fun t => decide (firstPart t ∈ fpKeys))).length < n := by
          simp [List.filter_cons, hk] at hfuel; omega
        simp only [stringToForwardPort.loop, hs, hh]
        rw [ih pre _ n hpre (fun u hu => hl u (by simp [hu])) hfuel']
        simp [List.filter_cons, hk]
    · have hpre' : ∀ u ∈ pre ++ [t], firstPart u ∉ fpKeys := by
        intro u hu
        rcases List.mem_append.mp hu with hu | hu
        · exact hpre u hu
        · simp at hu; rw [hu]; exact hk
      have hfuel' : (tl.filter (fun t => decide (firstPart t ∈ fpKeys))).length < fuel := by
        simpa [List.filter_cons, hk] using hfuel
      have := ih (pre ++ [t]) forwardPort fuel hpre' (fun u hu => hl u (by simp [hu])) hfuel'
      simp only [List.append_assoc, List.singleton_append] at this
      rw [this]
      simp [List.filter_cons, hk]

theorem stringToForwardPort_body (fp : ForwardPort) (pre post : List String)
    (h1 : '=' ∉ fp.Port.data) (h2 : '=' ∉ fp.Protocol.data) (h3 : '=' ∉ fp.ToPort.data)
    (h4 : '=' ∉ fp.ToAddr.data)
    (hpre : ∀ t ∈ pre, firstPart t ∉ fpKeys) (hpost : ∀ t ∈ post, firstPart t ∉ fpKeys) :
    stringToForwardPort (pre ++ (fp.body ++ post)) =
      .returned (fp, pre ++ ((if fp.Port = "" then [""] else []) ++ post)) := by
  obtain ⟨p, q, tp, ta⟩ := fp
  simp only at h1 h2 h3 h4
  have f1 := firstPart_key_value "port" p (by decide)
  have f2 := firstPart_key_value "protocol" q (by decide)
  have f3 := firstPart_key_value "to-port" tp (by decide)
  have f4 := firstPart_key_value "to-addr" ta (by decide)
  have s1 := secondPart_key_value "port" p (by decide) h1
  have s2 := secondPart_key_value "protocol" q (by decide) h2
  have s3 := secondPart_key_value "to-port" tp (by decide) h3
  have s4 := secondPart_key_value "to-addr" ta (by decide) h4
  simp only [String.reduceAppend] at f1 f2 f3 f4 s1 s2 s3 s4
  have f0 : firstPart "" = "" := by decide
  have hbody : ∀ t ∈ ForwardPort.body ⟨p, q, tp, ta⟩, firstPart t ∈ fpKeys → '=' ∈ t.data := by
    intro t ht
    simp only [ForwardPort.body, List.mem_cons, List.mem_append] at ht
    rcases ht with ht | ht | ht | ht
    · subst ht; split
      · intro _; simp
      · rw [f0]; intro h; simp [fpKeys] at h
    · split at ht
      · simp at ht; subst ht; intro _; simp
      · simp at ht
    · split at ht
      · simp at ht; subst ht; intro _; simp
      · simp at ht
    · split at ht
      · simp at ht; subst ht; intro _; simp
      · simp at ht
  have hl : ∀ t ∈ pre ++ (ForwardPort.body ⟨p, q, tp, ta⟩ ++ post),
      firstPart t ∈ fpKeys → '=' ∈ t.data := by
    intro t ht hk
    rcases List.mem_append.mp ht with ht | ht
    · exact absurd hk (hpre t ht)
    · rcases List.mem_append.mp ht with ht | ht
      · exact hbody t ht hk
      · exact absurd hk (hpost t ht)
  have := stringToForwardPort_loop_filter (pre ++ (ForwardPort.body ⟨p, q, tp, ta⟩ ++ post)) []
    {} ((pre ++ (ForwardPort.body ⟨p, q, tp, ta⟩ ++ post)).length + 1) (by simp) hl
    (Nat.lt_succ_of_le (List.length_filter_le _ _))
  rw [List.nil_append] at this
  unfold stringToForwardPort
  rw [this]
  simp only [List.filter_append, List.nil_append]
  rw [filter_eq_nil_of_forall _ pre (fun t ht => by simpa using hpre t ht),
    filter_eq_nil_of_forall _ post (fun t ht => by simpa using hpost t ht),
    filter_eq_self_of_forall _ pre (fun t ht => by simpa using hpre t ht),
    filter_eq_self_of_forall _ post (fun t ht => by simpa using hpost t ht)]
  by_cases c1 : p = "" <;> by_cases c2 : q = "" <;> by_cases c3 : tp = "" <;>
    by_cases c4 : ta = "" <;>
    simp [ForwardPort.body, c1, c2, c3, c4, List.filter_cons, f0, f1, f2, f3, f4, s1, s2, s3,
      s4, fpKeys, ForwardPort.set]

/-! ## One restart of `StringToRule` per keyword -/

theorem StringToRule_scan_skip (rule : Rule) (strslice : List String) (index : Nat)
    (value : String) (rest : List String) (h : value ∉ keywords) :
    StringToRule.scan rule strslice index (value :: rest) =
      StringToRule.scan rule strslice (index + 1) rest := by
  simp only [keywords, List.mem_cons, List.mem_singleton, not_or, List.not_mem_nil,
    or_false] at h
  simp [StringToRule.scan, h]

theorem StringToRule_scan_skip_list (rule : Rule) (strslice : List String)
    (pre : List String) (h : ∀ t ∈ pre, t ∉ keywords) (index : Nat) (rest : List String) :
    StringToRule.scan rule strslice index (pre ++ rest) =
      StringToRule.scan rule strslice (index + pre.length) rest := by
  induction pre generalizing index with
  | nil => simp
  | cons t ts ih =>
    rw [List.cons_append, StringToRule_scan_skip _ _ _ _ _ (h t (by simp)),
      ih (fun u hu => h u (by simp [hu]))]
    simp [Nat.add_assoc, Nat.add_comm 1]

/-- The scan from the start of a slice whose first keyword stands after `pre`. -/
theorem StringToRule_scan_at (rule : Rule) (pre : List String) (h : ∀ t ∈ pre, t ∉ keywords)
    (rest : List String) :
    StringToRule.scan rule (pre ++ rest) 0 (pre ++ rest) =
      StringToRule.scan rule (pre ++ rest) pre.length rest := by
  rw [StringToRule_scan_skip_list rule (pre ++ rest) pre h 0 rest, Nat.zero_add]

theorem StringToRule_loop_mono (n : Nat) :
    ∀ (m : Nat) (rule : Rule) (strslice : List String) (r : Rule), n ≤ m →
      StringToRule.loop n rule strslice = .returned r →
      StringToRule.loop m rule strslice = .returned r := by
  induction n with
  | zero => intro m rule strslice r _ h; simp [StringToRule.loop] at h
  | succ n ih =>
    intro m rule strslice r hm h
    cases m with
    | zero => omega
    | succ m =>
      simp only [StringToRule.loop] at h ⊢
      split at h
      · exact h
      · rename_i rule' strslice' e; exact ih m rule' strslice' r (by omega) h
      · simp at h
      · simp at h

theorem StringToRule_loop_done (n : Nat) (rule : Rule) (strslice : List String)
    (h : ∀ t ∈ strslice, t ∉ keywords) :
    StringToRule.loop (n + 1) rule strslice = .returned rule := by
  have := StringToRule_scan_at rule strslice h []
  simp only [List.append_nil] at this
  simp [StringToRule.loop, this, StringToRule.scan]

theorem StringToRule_loop_head_source (n : Nat) (f : String) (s : Source) (rest : List String)
    (hf : '=' ∉ f.data) (hs : s.Single) (h1 : '=' ∉ s.Address.data) (h2 : '=' ∉ s.Mac.data)
    (h3 : '=' ∉ s.Ipset.data) :
    StringToRule.loop (n + 2) {} ("rule" :: ("family=" ++ f) :: "source" :: s.token :: rest) =
      StringToRule.loop n { Family := f, Source := s } rest := by
  obtain ⟨a, m, i, inv⟩ := s
  obtain ⟨hinv, hs⟩ := hs
  simp only at h1 h2 h3 hinv hs
  subst hinv
  have k0 := strings.Split_key_value "family" f (by decide) hf
  have k1 := strings.Split_key_value "address" a (by decide) h1
  have k2 := strings.Split_key_value "mac" m (by decide) h2
  have k3 := strings.Split_key_value "ipset" i (by decide) h3
  simp only [String.reduceAppend] at k0 k1 k2 k3
  rcases hs with ⟨c1, c2, c3⟩ | ⟨c1, c2, c3⟩ | ⟨c1, c2, c3⟩ <;>
    simp [StringToRule.loop, StringToRule.scan, removeSliceElement, bind, Outcome.bind, pure,
      k0, k1, k2, k3, sliceIndex_cons_zero, sliceIndex_cons_one, Source.token, c1, c2, c3]

theorem StringToRule_loop_destination (n : Nat) (rule : Rule) (pre rest : List String)
    (d : String) (hpre : ∀ t ∈ pre, t ∉ keywords) (hd : '=' ∉ d.data) :
    StringToRule.loop (n + 1) rule (pre ++ "destination" :: ("address=" ++ d) :: rest) =
      StringToRule.loop n { rule with Destination := { Address := d } } (pre ++ rest) := by
  have k := strings.Split_key_value "address" d (by decide) hd
  simp only [String.reduceAppend] at k
  rw [StringToRule.loop, StringToRule_scan_at rule pre hpre]
  simp [StringToRule.scan, removeSliceElement_append, sliceIndex_append, bind, Outcome.bind,
    pure, k, sliceIndex_cons_zero, sliceIndex_cons_one]

theorem StringToRule_loop_service (n : Nat) (rule : Rule) (pre rest : List String)
    (s : String) (hpre : ∀ t ∈ pre, t ∉ keywords) (hs : '=' ∉ s.data) :
    StringToRule.loop (n + 1) rule (pre ++ "service" :: ("name=" ++ s) :: rest) =
      StringToRule.loop n { rule with Service := { Name := s } } (pre ++ rest) := by
  have k := strings.Split_key_value "name" s (by decide) hs
  simp only [String.reduceAppend] at k
  rw [StringToRule.loop, StringToRule_scan_at rule pre hpre]
  simp [StringToRule.scan, removeSliceElement_append, sliceIndex_append, bind, Outcome.bind,
    pure, k, sliceIndex_cons_zero, sliceIndex_cons_one]

theorem StringToRule_loop_accept (n : Nat) (rule : Rule) (pre rest : List String)
    (hpre : ∀ t ∈ pre, t ∉ keywords) :
    StringToRule.loop (n + 1) rule (pre ++ "accept" :: "" :: rest) =
      StringToRule.loop n { rule with Accept := { rule.Accept with Flag := true } }
        (pre ++ "" :: rest) := by
  rw [StringToRule.loop, StringToRule_scan_at rule pre hpre]
  simp [StringToRule.scan, removeSliceElement_append, sliceIndex_append, bind, Outcome.bind,
    pure]

theorem StringToRule_loop_accept_limit (n : Nat) (rule : Rule) (pre rest : List String)
    (v : String) (hpre : ∀ t ∈ pre, t ∉ keywords) (hv : '=' ∉ v.data) :
    StringToRule.loop (n + 1) rule (pre ++ "accept" :: "limit" :: ("value=" ++ v) :: rest) =
      StringToRule.loop n { rule with Accept := { Flag := true, Limit := { Value := v } } }
        (pre ++ ("value=" ++ v) :: rest) := by
  have k := strings.Split_key_value "value" v (by decide) hv
  simp only [String.reduceAppend] at k
  rw [StringToRule.loop, StringToRule_scan_at rule pre hpre]
  simp [StringToRule.scan, removeSliceElement_append, sliceIndex_append, bind, Outcome.bind,
    pure, k, sliceIndex_cons_zero, sliceIndex_cons_one]

theorem StringToRule_loop_drop (n : Nat) (rule : Rule) (pre rest : List String)
    (hpre : ∀ t ∈ pre, t ∉ keywords) :
    StringToRule.loop (n + 1) rule (pre ++ "drop" :: "" :: rest) =
      StringToRule.loop n { rule with Drop := { rule.Drop with Flag := true } }
        (pre ++ "" :: rest) := by
  rw [StringToRule.loop, StringToRule_scan_at rule pre hpre]
  simp [StringToRule.scan, removeSliceElement_append, sliceIndex_append, bind, Outcome.bind,
    pure]

theorem StringToRule_loop_drop_limit (n : Nat) (rule : Rule) (pre rest : List String)
    (v : String) (hpre : ∀ t ∈ pre, t ∉ keywords) (hv : '=' ∉ v.data) :
    StringToRule.loop (n + 1) rule (pre ++ "drop" :: "limit" :: ("value=" ++ v) :: rest) =
      StringToRule.loop n { rule with Drop := { Flag := true, Limit := { Value := v } } }
        (pre ++ ("value=" ++ v) :: rest) := by
  have k := strings.Split_key_value "value" v (by decide) hv
  simp only [String.reduceAppend] at k
  rw [StringToRule.loop, StringToRule_scan_at rule pre hpre]
  simp [StringToRule.scan, removeSliceElement_append, sliceIndex_append, bind, Outcome.bind,
    pure, k, sliceIndex_cons_zero, sliceIndex_cons_one]

theorem StringToRule_loop_forward_port (n : Nat) (rule : Rule) (pre slice : List String)
    (forwardPort : ForwardPort) (strslice : List String)
    (hpre : ∀ t ∈ pre, t ∉ keywords)
    (h : stringToForwardPort (pre ++ slice) = .returned (forwardPort, strslice)) :
    StringToRule.loop (n + 1) rule (pre ++ "forward-port" :: slice) =
      StringToRule.loop n { rule with ForwardPort := forwardPort } strslice := by
  rw [StringToRule.loop, StringToRule_scan_at rule pre hpre]
  simp [StringToRule.scan, removeSliceElement_append, bind, Outcome.bind, pure, h]

theorem StringToRule_loop_log (n : Nat) (rule : Rule) (pre slice : List String)
    (log : Log) (strslice : List String)
    (hpre : ∀ t ∈ pre, t ∉ keywords)
    (h : stringToLog (pre ++ slice) = .returned (log, strslice)) :
    StringToRule.loop (n + 1) rule (pre ++ "log" :: slice) =
      StringToRule.loop n { rule with Log := log } strslice := by
  rw [StringToRule.loop, StringToRule_scan_at rule pre hpre]
  simp [StringToRule.scan, removeSliceElement_append, bind, Outcome.bind, pure, h]

theorem StringToRule_loop_mark (n : Nat) (rule : Rule) (pre slice : List String)
    (mark : Mark) (strslice : List String)
    (hpre : ∀ t ∈ pre, t ∉ keywords)
    (h : stringToMark (pre ++ slice) = .returned (mark, strslice)) :
    StringToRule.loop (n + 1) rule (pre ++ "mark" :: slice) =
      StringToRule.loop n { rule with Mark := mark } strslice := by
  rw [StringToRule.loop, StringToRule_scan_at rule pre hpre]
  simp [StringToRule.scan, removeSliceElement_append, bind, Outcome.bind, pure, h]

/-! ## Parsing clause by clause -/

theorem firstPart_keyword {t : String} (h : t ∈ keywords) : firstPart t ∈ keywords := by
  simp only [keywords, List.mem_cons, List.mem_singleton, List.not_mem_nil, or_false] at h
  rcases h with h | h | h | h | h | h | h | h | h | h | h | h | h | h | h <;> subst h <;> decide

theorem Inert.not_keyword {t : String} (h : Inert t) : t ∉ keywords := by
  intro hk
  have := firstPart_keyword hk
  rcases h with h | h <;> rw [h] at this <;> revert this <;> decide

theorem Inert.firstPart {t : String} (h : Inert t) :
    Dbus.firstPart t = "" ∨ Dbus.firstPart t = "value" := h

theorem Inert.not_fpKeys {t : String} (h : Inert t) : Dbus.firstPart t ∉ fpKeys := by
  rcases h.firstPart with h | h <;> rw [h] <;> decide

theorem Inert.not_logKeys {t : String} (h : Inert t) : Dbus.firstPart t ∉ logKeys := by
  rcases h.firstPart with h | h <;> rw [h] <;> decide

theorem Inert.not_markKeys {t : String} (h : Inert t) : Dbus.firstPart t ∉ markKeys := by
  rcases h.firstPart with h | h <;> rw [h] <;> decide

theorem forall_inert_append {pre : List String} (hpre : ∀ t ∈ pre, Inert t) {t : String}
    (ht : Inert t) : ∀ u ∈ pre ++ [t], Inert u := by
  intro u hu
  rcases List.mem_append.mp hu with hu | hu
  · exact hpre u hu
  · simp at hu; subst hu; exact ht

theorem forall_inert_append_list {pre noise : List String} (hpre : ∀ t ∈ pre, Inert t)
    (hn : ∀ t ∈ noise, Inert t) : ∀ u ∈ pre ++ noise, Inert u := by
  intro u hu
  rcases List.mem_append.mp hu with hu | hu
  · exact hpre u hu
  · exact hn u hu

theorem Parses.done (rule : Rule) : Parses rule [""] rule := by
  intro pre fuel hpre hfuel
  obtain ⟨n, rfl⟩ : ∃ n, fuel = n + 1 := ⟨fuel - 1, by omega⟩
  apply StringToRule_loop_done
  intro t ht
  rcases List.mem_append.mp ht with ht | ht
  · exact (hpre t ht).not_keyword
  · simp at ht; subst ht; decide

theorem Parses.destination (rule : Rule) (rest : List String) (result : Rule) (d : String)
    (hd : '=' ∉ d.data)
    (h : Parses { rule with Destination := { Address := d } } rest result) :
    Parses rule ("" :: "destination" :: ("address=" ++ d) :: rest) result := by
  intro pre fuel hpre hfuel
  obtain ⟨n, rfl⟩ : ∃ n, fuel = n + 1 := ⟨fuel - 1, by omega⟩
  have hpre' := forall_inert_append hpre (by decide : Inert "")
  have := StringToRule_loop_destination n rule (pre ++ [""]) rest d
    (fun t ht => (hpre' t ht).not_keyword) hd
  simp only [List.append_assoc, List.singleton_append] at this
  rw [this]
  have := h (pre ++ [""]) n hpre' (by simp at hfuel; omega)
  simpa using this

theorem Parses.destination_opt (rule : Rule) (rest : List String) (result : Rule)
    (d : Destination) (hd : '=' ∉ d.Address.data) (hi : d.Invert = "")
    (hrule : rule.Destination = {})
    (h : Parses { rule with Destination := d } rest result) :
    Parses rule (d.tokens ++ rest) result := by
  obtain ⟨a, i⟩ := d
  simp only at hd hi
  subst hi
  unfold Destination.tokens
  by_cases ha : a = ""
  · subst ha
    have e : ({ rule with Destination := { Address := "", Invert := "" } } : Rule) = rule := by
      cases rule; simp only at hrule; subst hrule; rfl
    rw [e] at h
    simpa using h
  · simp only [ne_eq, ha, not_false_eq_true, if_true, List.cons_append, List.nil_append]
    exact Parses.destination rule rest result a hd h

theorem Parses.service_opt (rule : Rule) (rest : List String) (result : Rule)
    (s : Service) (hs : '=' ∉ s.Name.data) (hrule : rule.Service = {})
    (h : Parses { rule with Service := s } rest result) :
    Parses rule (s.tokens ++ rest) result := by
  obtain ⟨a⟩ := s
  simp only at hs
  unfold Service.tokens
  by_cases ha : a = ""
  · subst ha
    have e : ({ rule with Service := { Name := "" } } : Rule) = rule := by
      cases rule; simp only at hrule; subst hrule; rfl
    rw [e] at h
    simpa using h
  · simp only [ne_eq, ha, not_false_eq_true, if_true, List.cons_append, List.nil_append]
    intro pre fuel hpre hfuel
    obtain ⟨n, rfl⟩ : ∃ n, fuel = n + 1 := ⟨fuel - 1, by omega⟩
    rw [StringToRule_loop_service n rule pre rest a (fun t ht => (hpre t ht).not_keyword) hs]
    exact h pre n hpre (by simp at hfuel; omega)

theorem Parses.forwardPort_opt (rule : Rule) (rest : List String) (result : Rule)
    (fp : ForwardPort) (h1 : '=' ∉ fp.Port.data) (h2 : '=' ∉ fp.Protocol.data)
    (h3 : '=' ∉ fp.ToPort.data) (h4 : '=' ∉ fp.ToAddr.data)
    (hrule : rule.ForwardPort = {}) (hrest : ∀ t ∈ rest, firstPart t ∉ fpKeys)
    (h : Parses { rule with ForwardPort := fp } rest result) :
    Parses rule (fp.tokens ++ rest) result := by
  unfold ForwardPort.tokens
  by_cases he : fp = {}
  · subst he
    have e : ({ rule with ForwardPort := {} } : Rule) = rule := by
      cases rule; simp only at hrule; subst hrule; rfl
    rw [e] at h
    simpa using h
  · simp only [ne_eq, he, not_false_eq_true, if_true, List.cons_append]
    intro pre fuel hpre hfuel
    obtain ⟨n, rfl⟩ : ∃ n, fuel = n + 1 := ⟨fuel - 1, by omega⟩
    rw [StringToRule_loop_forward_port n rule pre _ fp _ (fun t ht => (hpre t ht).not_keyword)
      (stringToForwardPort_body fp pre rest h1 h2 h3 h4 (fun t ht => (hpre t ht).not_fpKeys)
        hrest)]
    rw [← List.append_assoc]
    apply h
    · apply forall_inert_append_list hpre
      intro t ht
      split at ht
      · simp at ht; subst ht; decide
      · simp at ht
    · simp at hfuel; omega

theorem Parses.log_opt (rule : Rule) (rest : List String) (result : Rule)
    (l : Log) (h1 : '=' ∉ l.Prefix.data) (h2 : '=' ∉ l.Level.data)
    (h3 : '=' ∉ l.Limit.Value.data)
    (hrule : rule.Log = {}) (hrest : l ≠ {} → ∀ t ∈ rest, firstPart t ∉ logKeys)
    (h : Parses { rule with Log := l } rest result) :
    Parses rule (l.tokens ++ rest) result := by
  unfold Log.tokens
  by_cases he : l = {}
  · subst he
    have e : ({ rule with Log := {} } : Rule) = rule := by
      cases rule; simp only at hrule; subst hrule; rfl
    rw [e] at h
    simpa using h
  · simp only [ne_eq, he, not_false_eq_true, if_true, List.cons_append]
    intro pre fuel hpre hfuel
    obtain ⟨n, rfl⟩ : ∃ n, fuel = n + 1 := ⟨fuel - 1, by omega⟩
    rw [StringToRule_loop_log n rule pre _ l _ (fun t ht => (hpre t ht).not_keyword)
      (stringToLog_body l pre rest h1 h2 h3 (fun t ht => (hpre t ht).not_logKeys) (hrest he))]
    exact h pre n hpre (by simp at hfuel; omega)

theorem Parses.mark_opt (rule : Rule) (rest : List String) (result : Rule)
    (m : Mark) (h1 : '=' ∉ m.Set.data) (h2 : '=' ∉ m.Limit.Value.data)
    (hrule : rule.Mark = {}) (hrest : ∀ t ∈ rest, firstPart t ∉ markKeys)
    (h : Parses { rule with Mark := m } rest result) :
    Parses rule (m.tokens ++ rest) result := by
  unfold Mark.tokens
  by_cases he : m = {}
  · subst he
    have e : ({ rule with Mark := {} } : Rule) = rule := by
      cases rule; simp only at hrule; subst hrule; rfl
    rw [e] at h
    simpa using h
  · simp only [ne_eq, he, not_false_eq_true, if_true, List.cons_append]
    intro pre fuel hpre hfuel
    obtain ⟨n, rfl⟩ : ∃ n, fuel = n + 1 := ⟨fuel - 1, by omega⟩
    rw [StringToRule_loop_mark n rule pre _ m _ (fun t ht => (hpre t ht).not_keyword)
      (stringToMark_body m pre rest h1 h2 (fun t ht => (hpre t ht).not_markKeys) hrest)]
    exact h pre n hpre (by simp at hfuel; omega)

theorem Parses.accept_opt (rule : Rule) (rest : List String) (result : Rule)
    (a : Accept) (hv : '=' ∉ a.Limit.Value.data) (ha : a.Flag = true ∨ a.Limit.Value = "")
    (hrule : rule.Accept = {})
    (h : Parses { rule with Accept := a } rest result) :
    Parses rule (a.tokens ++ rest) result := by
  obtain ⟨flag, ⟨v⟩⟩ := a
  simp only at hv ha
  unfold Accept.tokens
  cases flag with
  | false =>
    simp only [Bool.false_eq_true, false_or] at ha
    subst ha
    have e : ({ rule with Accept := { Flag := false, Limit := { Value := "" } } } : Rule) =
        rule := by
      cases rule; simp only at hrule; subst hrule; rfl
    rw [e] at h
    simpa using h
  | true =>
    intro pre fuel hpre hfuel
    obtain ⟨n, rfl⟩ : ∃ n, fuel = n + 1 := ⟨fuel - 1, by omega⟩
    by_cases c : v = ""
    · subst c
      simp only [if_true, ne_eq, not_true_eq_false, if_false, List.cons_append,
        List.nil_append]
      rw [StringToRule_loop_accept n rule pre rest (fun t ht => (hpre t ht).not_keyword)]
      have e : rule.Accept = {} := hrule
      rw [e]
      have := h (pre ++ [""]) n (forall_inert_append hpre (by decide : Inert ""))
        (by simp at hfuel; omega)
      simpa using this
    · simp only [if_true, ne_eq, c, not_false_eq_true, List.cons_append, List.nil_append]
      rw [StringToRule_loop_accept_limit n rule pre rest v
        (fun t ht => (hpre t ht).not_keyword) hv]
      have := h (pre ++ ["value=" ++ v]) n
        (forall_inert_append hpre (Or.inr (firstPart_keys v).2.2.1)) (by simp at hfuel; omega)
      simpa using this

theorem Parses.drop_opt (rule : Rule) (rest : List String) (result : Rule)
    (a : Drop) (hv : '=' ∉ a.Limit.Value.data) (ha : a.Flag = true ∨ a.Limit.Value = "")
    (hrule : rule.Drop = {})
    (h : Parses { rule with Drop := a } rest result) :
    Parses rule (a.tokens ++ rest) result := by
  obtain ⟨flag, ⟨v⟩⟩ := a
  simp only at hv ha
  unfold Drop.tokens
  cases flag with
  | false =>
    simp only [Bool.false_eq_true, false_or] at ha
    subst ha
    have e : ({ rule with Drop := { Flag := false, Limit := { Value := "" } } } : Rule) =
        rule := by
      cases rule; simp only at hrule; subst hrule; rfl
    rw [e] at h
    simpa using h
  | true =>
    intro pre fuel hpre hfuel
    obtain ⟨n, rfl⟩ : ∃ n, fuel = n + 1 := ⟨fuel - 1, by omega⟩
    by_cases c : v = ""
    · subst c
      simp only [if_true, ne_eq, not_true_eq_false, if_false, List.cons_append,
        List.nil_append]
      rw [StringToRule_loop_drop n rule pre rest (fun t ht => (hpre t ht).not_keyword)]
      have e : rule.Drop = {} := hrule
      rw [e]
      have := h (pre ++ [""]) n (forall_inert_append hpre (by decide : Inert ""))
        (by simp at hfuel; omega)
      simpa using this
    · simp only [if_true, ne_eq, c, not_false_eq_true, List.cons_append, List.nil_append]
      rw [StringToRule_loop_drop_limit n rule pre rest v
        (fun t ht => (hpre t ht).not_keyword) hv]
      have := h (pre ++ ["value=" ++ v]) n
        (forall_inert_append hpre (Or.inr (firstPart_keys v).2.2.1)) (by simp at hfuel; omega)
      simpa using this

theorem Log_tokens_not_fpKeys (l : Log) : ∀ t ∈ l.tokens, firstPart t ∉ fpKeys := by
  unfold Log.tokens Log.body
  by_cases c0 : l = {} <;> by_cases c1 : l.Prefix = "" <;> by_cases c2 : l.Level = "" <;>
    by_cases c3 : l.Limit.Value = "" <;>
    simp [c0, c1, c2, c3, fpKeys, firstPart_lit, firstPart_keys]

theorem Accept_tokens_not_fpKeys (a : Accept) : ∀ t ∈ a.tokens, firstPart t ∉ fpKeys := by
  unfold Accept.tokens
  by_cases c0 : a.Flag = true <;> by_cases c1 : a.Limit.Value = "" <;>
    simp [c0, c1, fpKeys, firstPart_lit, firstPart_keys]

theorem Drop_tokens_not_fpKeys (a : Drop) : ∀ t ∈ a.tokens, firstPart t ∉ fpKeys := by
  unfold Drop.tokens
  by_cases c0 : a.Flag = true <;> by_cases c1 : a.Limit.Value = "" <;>
    simp [c0, c1, fpKeys, firstPart_lit, firstPart_keys]

theorem Mark_tokens_not_fpKeys (m : Mark) : ∀ t ∈ m.tokens, firstPart t ∉ fpKeys := by
  unfold Mark.tokens Mark.body
  by_cases c0 : m = {} <;> by_cases c1 : m.Set = "" <;> by_cases c3 : m.Limit.Value = "" <;>
    simp [c0, c1, c3, fpKeys, firstPart_lit, firstPart_keys]

theorem Accept_tokens_not_logKeys (a : Accept) (h : a.Limit.Value = "") :
    ∀ t ∈ a.tokens, firstPart t ∉ logKeys := by
  unfold Accept.tokens
  by_cases c0 : a.Flag = true <;> simp [c0, h, logKeys, firstPart_lit, firstPart_keys]

theorem Drop_tokens_not_logKeys (a : Drop) (h : a.Limit.Value = "") :
    ∀ t ∈ a.tokens, firstPart t ∉ logKeys := by
  unfold Drop.tokens
  by_cases c0 : a.Flag = true <;> simp [c0, h, logKeys, firstPart_lit, firstPart_keys]

theorem Mark_tokens_not_logKeys (m : Mark) (h : m.Limit.Value = "") :
    ∀ t ∈ m.tokens, firstPart t ∉ logKeys := by
  unfold Mark.tokens Mark.body
  by_cases c0 : m = {} <;> by_cases c1 : m.Set = "" <;>
    simp [c0, c1, h, logKeys, firstPart_lit, firstPart_keys]

/-! ## The tokens of a rendered rule -/

theorem joinTokens_append (a b : List String) (tail : String) :
    joinTokens (a ++ b) tail = joinTokens a (joinTokens b tail) := by
  simp [joinTokens, List.foldr_append]

theorem strings.Split_joinTokens (ts : List String) (tail : String)
    (h : ∀ t ∈ ts, ' ' ∉ t.data) :
    strings.Split (joinTokens ts tail) ' ' = ts ++ strings.Split tail ' ' := by
  induction ts with
  | nil => rfl
  | cons t ts ih =>
    have := strings.Split_append_sep ' ' t (joinTokens ts tail) (h t (by simp))
    rw [show joinTokens (t :: ts) tail = t ++ String.singleton ' ' ++ joinTokens ts tail from rfl,
      this, ih (fun u hu => h u (by simp [hu]))]
    rfl

theorem Destination_render_tokens (d : Destination) (hi : d.Invert = "") (tail : String) :
    (if ¬ d.IsEmpty then d.ToString else "") ++ tail = joinTokens d.tokens tail := by
  obtain ⟨a, i⟩ := d
  simp only at hi
  subst hi
  apply String.ext
  by_cases c : a = "" <;>
    simp [Destination.IsEmpty, Destination.ToString, Destination.tokens, joinTokens, c]

theorem Service_render_tokens (s : Service) (tail : String) :
    (if ¬ s.IsEmpty then s.ToString else "") ++ tail = joinTokens s.tokens tail := by
  obtain ⟨a⟩ := s
  apply String.ext
  by_cases c : a = "" <;>
    simp [Service.IsEmpty, Service.ToString, Service.tokens, joinTokens, c]

theorem ForwardPort_render_tokens (fp : ForwardPort) (tail : String) :
    (if ¬ fp.IsEmpty then fp.ToString else "") ++ tail = joinTokens fp.tokens tail := by
  obtain ⟨p, q, tp, ta⟩ := fp
  apply String.ext
  by_cases c1 : p = "" <;> by_cases c2 : q = "" <;> by_cases c3 : tp = "" <;>
    by_cases c4 : ta = "" <;>
    simp [ForwardPort.IsEmpty, ForwardPort.ToString, ForwardPort.tokens, ForwardPort.body,
      joinTokens, c1, c2, c3, c4]

theorem Log_render_tokens (l : Log) (tail : String) :
    (if ¬ l.IsEmpty then l.ToString else "") ++ tail = joinTokens l.tokens tail := by
  obtain ⟨p, lv, ⟨v⟩⟩ := l
  apply String.ext
  by_cases c1 : p = "" <;> by_cases c2 : lv = "" <;> by_cases c3 : v = "" <;>
    simp [Log.IsEmpty, Log.ToString, Log.tokens, Log.body, Limit.IsEmpty, joinTokens, c1, c2, c3]

theorem Accept_render_tokens (a : Accept) (ha : a.Flag = true ∨ a.Limit.Value = "")
    (tail : String) :
    (if ¬ a.IsEmpty then a.ToString else "") ++ tail = joinTokens a.tokens tail := by
  obtain ⟨flag, ⟨v⟩⟩ := a
  simp only at ha
  apply String.ext
  cases flag <;> by_cases c : v = "" <;>
    simp_all [Accept.IsEmpty, Accept.ToString, Accept.tokens, Limit.IsEmpty, joinTokens]

theorem Drop_render_tokens (a : Drop) (ha : a.Flag = true ∨ a.Limit.Value = "")
    (tail : String) :
    (if ¬ a.IsEmpty then a.ToString else "") ++ tail = joinTokens a.tokens tail := by
  obtain ⟨flag, ⟨v⟩⟩ := a
  simp only at ha
  apply String.ext
  cases flag <;> by_cases c : v = "" <;>
    simp_all [Drop.IsEmpty, Drop.ToString, Drop.tokens, Limit.IsEmpty, joinTokens]

theorem Mark_render_tokens (m : Mark) (tail : String) :
    (if ¬ m.IsEmpty then m.ToString else "") ++ tail = joinTokens m.tokens tail := by
  obtain ⟨s, ⟨v⟩⟩ := m
  apply String.ext
  by_cases c1 : s = "" <;> by_cases c3 : v = "" <;>
    simp [Mark.IsEmpty, Mark.ToString, Mark.tokens, Mark.body, Limit.IsEmpty, joinTokens, c1, c3]

theorem Source_render_tokens (f : String) (hf : f ≠ "") (s : Source) (hs : s.Single)
    (tail : String) :
    "rule " ++ ((if f ≠ "" then "family=" ++ f else "") ++
        ((if ¬ s.IsEmpty then s.ToString else "") ++ tail)) =
      joinTokens ["rule", "family=" ++ f, "source", s.token] tail := by
  obtain ⟨a, m, i, inv⟩ := s
  obtain ⟨hinv, hs⟩ := hs
  simp only at hinv hs
  subst hinv
  apply String.ext
  rcases hs with ⟨c1, c2, c3⟩ | ⟨c1, c2, c3⟩ | ⟨c1, c2, c3⟩ <;>
    simp [Source.IsEmpty, Source.ToString, Source.token, joinTokens, c1, c2, c3, hf]

theorem Rule.ToString_eq_append (r : Rule) :
    r.ToString =
      "rule " ++ ((if r.Family ≠ "" then "family=" ++ r.Family else "") ++
        ((if ¬ r.Source.IsEmpty then r.Source.ToString else "") ++
        ((if ¬ r.Destination.IsEmpty then r.Destination.ToString else "") ++
        ((if ¬ r.Service.IsEmpty then r.Service.ToString else "") ++
        ((if ¬ r.Port.IsEmpty then r.Port.ToString else "") ++
        ((if ¬ r.Protocol.IsEmpty then r.Protocol.ToString else "") ++
        ((if ¬ r.IcmpBlock.IsEmpty then r.IcmpBlock.ToString else "") ++
        ((if ¬ r.IcmpType.IsEmpty then r.IcmpType.ToString else "") ++
        ((if ¬ r.ForwardPort.IsEmpty then r.ForwardPort.ToString else "") ++
        ((if ¬ r.Log.IsEmpty then r.Log.ToString else "") ++
        ((if ¬ r.Audit.IsEmpty then r.Audit.ToString else "") ++
        ((if ¬ r.Accept.IsEmpty then r.Accept.ToString else "") ++
        ((if ¬ r.Reject.IsEmpty then r.Reject.ToString else "") ++
        ((if ¬ r.Drop.IsEmpty then r.Drop.ToString else "") ++
        ((if ¬ r.Mark.IsEmpty then r.Mark.ToString else "") ++ ""))))))))))))))) := by
  unfold Rule.ToString
  simp -zeta only [ite_append_right]
  simp only [String.append_assoc, String.append_empty]

theorem Rule.ToString_tokens (r : Rule) (h : r.Supported) (hs : r.Source.Single) :
    r.ToString = joinTokens r.tokens "" := by
  rw [Rule.ToString_eq_append, h.port, h.protocol, h.icmpBlock, h.icmpType, h.audit, h.reject,
    Mark_render_tokens, Drop_render_tokens _ h.drop_flag]
  simp only [show Reject.IsEmpty {} = true from by decide,
    show Dbus.Port.IsEmpty {} = true from by decide,
    show Protocol.IsEmpty {} = true from by decide,
    show IcmpBlock.IsEmpty {} = true from by decide,
    show IcmpType.IsEmpty {} = true from by decide,
    show Audit.IsEmpty {} = true from by decide, not_true_eq_false, if_false,
    String.empty_append]
  rw [Accept_render_tokens _ h.accept_flag, Log_render_tokens, ForwardPort_render_tokens,
    Service_render_tokens, Destination_render_tokens _ h.destination_invert,
    Source_render_tokens _ h.family_ne _ hs]
  simp only [Rule.tokens, joinTokens_append]

theorem Rule.tokens_no_space (r : Rule) (h : r.Supported) : ∀ t ∈ r.tokens, ' ' ∉ t.data := by
  have h1 := h.family.1
  have h2 := h.source_address.1
  have h3 := h.source_mac.1
  have h4 := h.source_ipset.1
  have h5 := h.destination_address.1
  have h6 := h.service.1
  have h7 := h.forwardPort_port.1
  have h8 := h.forwardPort_protocol.1
  have h9 := h.forwardPort_toPort.1
  have h10 := h.forwardPort_toAddr.1
  have h11 := h.log_prefix.1
  have h12 := h.log_level.1
  have h13 := h.log_limit.1
  have h14 := h.accept_limit.1
  have h15 := h.drop_limit.1
  have h16 := h.mark_set.1
  have h17 := h.mark_limit.1
  have src : ' ' ∉ r.Source.token.data := by
    unfold Source.token; split_ifs <;> simp [h2, h3, h4]
  have dst : ∀ t ∈ r.Destination.tokens, ' ' ∉ t.data := by
    unfold Destination.tokens; split_ifs <;> simp [h5]
  have svc : ∀ t ∈ r.Service.tokens, ' ' ∉ t.data := by
    unfold Service.tokens; split_ifs <;> simp [h6]
  have fp : ∀ t ∈ r.ForwardPort.tokens, ' ' ∉ t.data := by
    unfold ForwardPort.tokens ForwardPort.body; split_ifs <;> simp [h7, h8, h9, h10]
  have lg : ∀ t ∈ r.Log.tokens, ' ' ∉ t.data := by
    unfold Log.tokens Log.body; split_ifs <;> simp [h11, h12, h13]
  have acc : ∀ t ∈ r.Accept.tokens, ' ' ∉ t.data := by
    unfold Accept.tokens; split_ifs <;> simp [h14]
  have drp : ∀ t ∈ r.Drop.tokens, ' ' ∉ t.data := by
    unfold Drop.tokens; split_ifs <;> simp [h15]
  have mrk : ∀ t ∈ r.Mark.tokens, ' ' ∉ t.data := by
    unfold Mark.tokens Mark.body; split_ifs <;> simp [h16, h17]
  intro t ht
  simp only [Rule.tokens, List.mem_append, List.mem_cons, List.mem_singleton,
    List.not_mem_nil, or_false] at ht
  rcases ht with (ht | ht | ht | ht) | ht | ht | ht | ht | ht | ht | ht
  · subst ht; decide
  · subst ht; simp [h1]
  · subst ht; decide
  · subst ht; exact src
  · exact dst t ht
  · exact svc t ht
  · exact fp t ht
  · exact lg t ht
  · exact acc t ht
  · exact drp t ht
  · exact mrk t ht

/-- Parsing the rendering of a supported rule that has a source: the tokens are
consumed clause by clause, in the order in which they were written. -/
theorem StringToRule_ToString_with_source (r : Rule) (h : r.Supported)
    (hs : r.Source.Single) : StringToRule r.ToString = .returned r := by
  have hmark : ∀ t ∈ [""], firstPart t ∉ markKeys := by decide
  have hlog : r.Log ≠ {} →
      ∀ t ∈ r.Accept.tokens ++ (r.Drop.tokens ++ (r.Mark.tokens ++ [""])),
        firstPart t ∉ logKeys := by
    intro hl t ht
    obtain ⟨a, b, c⟩ := h.log_alone hl
    simp only [List.mem_append, List.mem_singleton] at ht
    rcases ht with ht | ht | ht | ht
    · exact Accept_tokens_not_logKeys _ a t ht
    · exact Drop_tokens_not_logKeys _ b t ht
    · exact Mark_tokens_not_logKeys _ c t ht
    · subst ht; decide
  have hfp : ∀ t ∈ r.Log.tokens ++ (r.Accept.tokens ++ (r.Drop.tokens ++
      (r.Mark.tokens ++ [""]))), firstPart t ∉ fpKeys := by
    intro t ht
    simp only [List.mem_append, List.mem_singleton] at ht
    rcases ht with ht | ht | ht | ht | ht
    · exact Log_tokens_not_fpKeys _ t ht
    · exact Accept_tokens_not_fpKeys _ t ht
    · exact Drop_tokens_not_fpKeys _ t ht
    · exact Mark_tokens_not_fpKeys _ t ht
    · subst ht; decide
  have hp : Parses { Family := r.Family, Source := r.Source }
      (r.Destination.tokens ++ (r.Service.tokens ++ (r.ForwardPort.tokens ++
        (r.Log.tokens ++ (r.Accept.tokens ++ (r.Drop.tokens ++ (r.Mark.tokens ++ [""])))))))
      r := by
    apply Parses.destination_opt _ _ _ r.Destination h.destination_address.2
      h.destination_invert rfl
    apply Parses.service_opt _ _ _ r.Service h.service.2 rfl
    apply Parses.forwardPort_opt _ _ _ r.ForwardPort h.forwardPort_port.2
      h.forwardPort_protocol.2 h.forwardPort_toPort.2 h.forwardPort_toAddr.2 rfl hfp
    apply Parses.log_opt _ _ _ r.Log h.log_prefix.2 h.log_level.2 h.log_limit.2 rfl hlog
    apply Parses.accept_opt _ _ _ r.Accept h.accept_limit.2 h.accept_flag rfl
    apply Parses.drop_opt _ _ _ r.Drop h.drop_limit.2 h.drop_flag rfl
    apply Parses.mark_opt _ _ _ r.Mark h.mark_set.2 h.mark_limit.2 rfl hmark
    refine (congrArg (Parses _ [""]) ?_).mp (Parses.done _)
    have h1 := h.port
    have h2 := h.protocol
    have h3 := h.icmpBlock
    have h4 := h.icmpType
    have h5 := h.audit
    have h6 := h.reject
    clear hmark hlog hfp h
    cases r
    simp only at h1 h2 h3 h4 h5 h6
    subst h1 h2 h3 h4 h5 h6
    rfl
  unfold StringToRule
  rw [Rule.ToString_tokens r h hs, strings.Split_joinTokens _ _ (Rule.tokens_no_space r h),
    show strings.Split "" ' ' = [""] from by decide]
  simp only [Rule.tokens, List.append_assoc, List.cons_append, List.nil_append]
  generalize r.Destination.tokens ++ (r.Service.tokens ++ (r.ForwardPort.tokens ++
    (r.Log.tokens ++ (r.Accept.tokens ++ (r.Drop.tokens ++ (r.Mark.tokens ++ [""])))))) = rest
    at hp ⊢
  have h1 := hp [] (rest.length + 1) (by simp) (Nat.lt_succ_self _)
  rw [List.nil_append] at h1
  have h2 := StringToRule_loop_head_source (rest.length + 1) r.Family r.Source rest h.family.2
    hs h.source_address.2 h.source_mac.2 h.source_ipset.2
  exact StringToRule_loop_mono _ _ _ _ _ (by simp only [List.length_cons]; omega) (h2.trans h1)

theorem Rule.ToString_clauses (r : Rule) (h : r.Supported) :
    r.ToString =
      "rule " ++ ((if r.Family ≠ "" then "family=" ++ r.Family else "") ++
        ((if ¬ r.Source.IsEmpty then r.Source.ToString else "") ++
        ((if ¬ r.Destination.IsEmpty then r.Destination.ToString else "") ++
          joinTokens r.clauseTokens ""))) := by
  rw [Rule.ToString_eq_append, h.port, h.protocol, h.icmpBlock, h.icmpType, h.audit, h.reject,
    Mark_render_tokens, Drop_render_tokens _ h.drop_flag]
  simp only [show Reject.IsEmpty {} = true from by decide,
    show Dbus.Port.IsEmpty {} = true from by decide,
    show Protocol.IsEmpty {} = true from by decide,
    show IcmpBlock.IsEmpty {} = true from by decide,
    show IcmpType.IsEmpty {} = true from by decide,
    show Audit.IsEmpty {} = true from by decide, not_true_eq_false, if_false,
    String.empty_append]
  rw [Accept_render_tokens _ h.accept_flag, Log_render_tokens, ForwardPort_render_tokens,
    Service_render_tokens]
  simp only [Rule.clauseTokens, joinTokens_append]

theorem Rule.clauseTokens_no_space (r : Rule) (h : r.Supported) :
    ∀ t ∈ r.clauseTokens, ' ' ∉ t.data := by
  have h6 := h.service.1
  have h7 := h.forwardPort_port.1
  have h8 := h.forwardPort_protocol.1
  have h9 := h.forwardPort_toPort.1
  have h10 := h.forwardPort_toAddr.1
  have h11 := h.log_prefix.1
  have h12 := h.log_level.1
  have h13 := h.log_limit.1
  have h14 := h.accept_limit.1
  have h15 := h.drop_limit.1
  have h16 := h.mark_set.1
  have h17 := h.mark_limit.1
  have svc : ∀ t ∈ r.Service.tokens, ' ' ∉ t.data := by
    unfold Service.tokens; split_ifs <;> simp [h6]
  have fp : ∀ t ∈ r.ForwardPort.tokens, ' ' ∉ t.data := by
    unfold ForwardPort.tokens ForwardPort.body; split_ifs <;> simp [h7, h8, h9, h10]
  have lg : ∀ t ∈ r.Log.tokens, ' ' ∉ t.data := by
    unfold Log.tokens Log.body; split_ifs <;> simp [h11, h12, h13]
  have acc : ∀ t ∈ r.Accept.tokens, ' ' ∉ t.data := by
    unfold Accept.tokens; split_ifs <;> simp [h14]
  have drp : ∀ t ∈ r.Drop.tokens, ' ' ∉ t.data := by
    unfold Drop.tokens; split_ifs <;> simp [h15]
  have mrk : ∀ t ∈ r.Mark.tokens, ' ' ∉ t.data := by
    unfold Mark.tokens Mark.body; split_ifs <;> simp [h16, h17]
  intro t ht
  simp only [Rule.clauseTokens, List.mem_append] at ht
  rcases ht with ht | ht | ht | ht | ht | ht
  · exact svc t ht
  · exact fp t ht
  · exact lg t ht
  · exact acc t ht
  · exact drp t ht
  · exact mrk t ht

/-- The clauses after the destination are parsed one by one, in the order in
which they were written. -/
theorem Parses_clauses (r : Rule) (h : r.Supported) :
    Parses { Family := r.Family, Source := r.Source, Destination := r.Destination }
      (r.clauseTokens ++ [""]) r := by
  have hmark : ∀ t ∈ [""], firstPart t ∉ markKeys := by decide
  have hlog : r.Log ≠ {} →
      ∀ t ∈ r.Accept.tokens ++ (r.Drop.tokens ++ (r.Mark.tokens ++ [""])),
        firstPart t ∉ logKeys := by
    intro hl t ht
    obtain ⟨a, b, c⟩ := h.log_alone hl
    simp only [List.mem_append, List.mem_singleton] at ht
    rcases ht with ht | ht | ht | ht
    · exact Accept_tokens_not_logKeys _ a t ht
    · exact Drop_tokens_not_logKeys _ b t ht
    · exact Mark_tokens_not_logKeys _ c t ht
    · subst ht; decide
  have hfp : ∀ t ∈ r.Log.tokens ++ (r.Accept.tokens ++ (r.Drop.tokens ++
      (r.Mark.tokens ++ [""]))), firstPart t ∉ fpKeys := by
    intro t ht
    simp only [List.mem_append, List.mem_singleton] at ht
    rcases ht with ht | ht | ht | ht | ht
    · exact Log_tokens_not_fpKeys _ t ht
    · exact Accept_tokens_not_fpKeys _ t ht
    · exact Drop_tokens_not_fpKeys _ t ht
    · exact Mark_tokens_not_fpKeys _ t ht
    · subst ht; decide
  simp only [Rule.clauseTokens, List.append_assoc]
  apply Parses.service_opt _ _ _ r.Service h.service.2 rfl
  apply Parses.forwardPort_opt _ _ _ r.ForwardPort h.forwardPort_port.2
    h.forwardPort_protocol.2 h.forwardPort_toPort.2 h.forwardPort_toAddr.2 rfl hfp
  apply Parses.log_opt _ _ _ r.Log h.log_prefix.2 h.log_level.2 h.log_limit.2 rfl hlog
  apply Parses.accept_opt _ _ _ r.Accept h.accept_limit.2 h.accept_flag rfl
  apply Parses.drop_opt _ _ _ r.Drop h.drop_limit.2 h.drop_flag rfl
  apply Parses.mark_opt _ _ _ r.Mark h.mark_set.2 h.mark_limit.2 rfl hmark
  refine (congrArg (Parses _ [""]) ?_).mp (Parses.done _)
  have h1 := h.port
  have h2 := h.protocol
  have h3 := h.icmpBlock
  have h4 := h.icmpType
  have h5 := h.audit
  have h6 := h.reject
  clear hmark hlog hfp h
  cases r
  simp only at h1 h2 h3 h4 h5 h6
  subst h1 h2 h3 h4 h5 h6
  rfl

theorem Destination_head_tokens (f : String) (hf : f ≠ "") (d : Destination)
    (hi : d.Invert = "") (ha : d.Address ≠ "") (tail : String) :
    "rule " ++ ((if f ≠ "" then "family=" ++ f else "") ++
        ((if ¬ Source.IsEmpty {} then Source.ToString {} else "") ++
        ((if ¬ d.IsEmpty then d.ToString else "") ++ tail))) =
      joinTokens ["rule", "family=" ++ f, "destination", "address=" ++ d.Address] tail := by
  obtain ⟨a, i⟩ := d
  simp only at hi ha
  subst hi
  apply String.ext
  simp [Source.IsEmpty, Destination.IsEmpty, Destination.ToString, joinTokens, ha, hf]

theorem StringToRule_loop_head_rule (n : Nat) (f : String) (rest : List String)
    (hf : '=' ∉ f.data) :
    StringToRule.loop (n + 1) {} ("rule" :: ("family=" ++ f) :: rest) =
      StringToRule.loop n { Family := f } rest := by
  have k0 := strings.Split_key_value "family" f (by decide) hf
  simp only [String.reduceAppend] at k0
  simp [StringToRule.loop, StringToRule.scan, removeSliceElement, bind, Outcome.bind, pure,
    k0, sliceIndex_cons_zero, sliceIndex_cons_one]

/-- Parsing the rendering of a supported rule without source and with a
destination. -/
theorem StringToRule_ToString_no_source (r : Rule) (h : r.Supported) (hs : r.Source = {})
    (hd : r.Destination.Address ≠ "") : StringToRule r.ToString = .returned r := by
  have hp := Parses_clauses r h
  have hts : ∀ t ∈ r.tokensNoSource, ' ' ∉ t.data := by
    intro t ht
    simp only [Rule.tokensNoSource, List.mem_append, List.mem_cons, List.mem_singleton,
      List.not_mem_nil, or_false] at ht
    rcases ht with (ht | ht | ht | ht) | ht
    · subst ht; decide
    · subst ht; simp [h.family.1]
    · subst ht; decide
    · subst ht; simp [h.destination_address.1]
    · exact Rule.clauseTokens_no_space r h t ht
  have hr : r.ToString = joinTokens r.tokensNoSource "" := by
    rw [Rule.ToString_clauses r h, hs,
      Destination_head_tokens _ h.family_ne _ h.destination_invert hd]
    simp only [Rule.tokensNoSource, joinTokens_append]
  have hdst : r.Destination = { Address := r.Destination.Address } := by
    have := h.destination_invert
    cases hdd : r.Destination
    rw [hdd] at this
    simp only at this
    subst this
    rfl
  unfold StringToRule
  rw [hr, strings.Split_joinTokens _ _ hts, show strings.Split "" ' ' = [""] from by decide]
  simp only [Rule.tokensNoSource, List.append_assoc, List.cons_append, List.nil_append]
  rw [hs, hdst] at hp
  generalize r.clauseTokens ++ [""] = rest at hp ⊢
  have h1 := hp [] (rest.length + 1) (by simp) (Nat.lt_succ_self _)
  rw [List.nil_append] at h1
  have h2 := StringToRule_loop_head_rule (rest.length + 2) r.Family
    ("destination" :: ("address=" ++ r.Destination.Address) :: rest) h.family.2
  have h3 := StringToRule_loop_destination (rest.length + 1) { Family := r.Family } [] rest
    r.Destination.Address (by simp) h.destination_address.2
  rw [List.nil_append, List.nil_append] at h3
  exact StringToRule_loop_mono _ _ _ _ _ (by simp only [List.length_cons]; omega)
    (h2.trans (h3.trans h1))

/-- Parsing the rendering of a rule that has a family and nothing else. -/
theorem StringToRule_ToString_family_only (f : String) (hf : plain f) (hf0 : f ≠ "") :
    StringToRule (Rule.ToString { Family := f }) = .returned { Family := f } := by
  have e : Rule.ToString { Family := f } = joinTokens ["rule"] ("family=" ++ f) := by
    apply String.ext
    simp [joinTokens, Rule.ToString, Source.IsEmpty, Destination.IsEmpty, Service.IsEmpty,
      Port.IsEmpty, Protocol.IsEmpty, IcmpBlock.IsEmpty, IcmpType.IsEmpty, ForwardPort.IsEmpty,
      Log.IsEmpty, Audit.IsEmpty, Accept.IsEmpty, Reject.IsEmpty, Drop.IsEmpty, Mark.IsEmpty,
      hf0]
  have k0 := strings.Split_key_value "family" f (by decide) hf.2
  simp only [String.reduceAppend] at k0
  unfold StringToRule
  rw [e, strings.Split_joinTokens _ _ (by decide),
    strings.Split_of_not_mem _ _ (by simp [hf.1])]
  simp [StringToRule.loop, StringToRule.scan, removeSliceElement, sliceIndex, bind,
    Outcome.bind, pure, k0]

/-- Parsing the rendering of a supported rule returns the rule: with a source,
without a source and with a destination, or with the family alone. -/
theorem StringToRule_ToString_supported (r : Rule) (h : r.Supported) :
    StringToRule r.ToString = .returned r := by
  rcases h.source with hs | ⟨hs, hd⟩ | he
  · exact StringToRule_ToString_with_source r h hs
  · exact StringToRule_ToString_no_source r h hs hd
  · have hf := h.family
    have hf0 := h.family_ne
    rw [he]
    exact StringToRule_ToString_family_only r.Family hf hf0

/-! ## Rules outside the supported class -/

/-- Outside the class of supported rules the round trip fails. One rule for each
condition of the class, which it alone violates: no family; a space or an `=`
in a value; two source fields; a source with `invert`, after an address or
alone; a destination with `invert`, after an address or alone; no source and no
destination in front of a service or an accept clause; a port, protocol,
icmp-block, icmp-type, audit or reject clause; an accept or a drop with a limit
and no flag; a limit on accept, drop or mark next to a log clause. -/
theorem StringToRule_ToString_unsupported :
    StringToRule (Rule.ToString { Source := { Address := "a" } }) ≠
      .returned { Source := { Address := "a" } } ∧
    StringToRule (Rule.ToString { Family := "ipv4", Source := { Address := "a b" } }) ≠
      .returned { Family := "ipv4", Source := { Address := "a b" } } ∧
    StringToRule (Rule.ToString { Family := "ipv4", Source := { Address := "a=b" } }) ≠
      .returned { Family := "ipv4", Source := { Address := "a=b" } } ∧
    StringToRule (Rule.ToString { Family := "ipv4", Source := { Address := "a", Mac := "m" } }) ≠
      .returned { Family := "ipv4", Source := { Address := "a", Mac := "m" } } ∧
    StringToRule (Rule.ToString
        { Family := "ipv4", Source := { Address := "a", Invert := "True" } }) ≠
      .returned { Family := "ipv4", Source := { Address := "a", Invert := "True" } } ∧
    StringToRule (Rule.ToString { Family := "ipv4", Source := { Invert := "True" } }) ≠
      .returned { Family := "ipv4", Source := { Invert := "True" } } ∧
    StringToRule (Rule.ToString
        { Family := "ipv4", Destination := { Address := "d", Invert := "True" } }) ≠
      .returned { Family := "ipv4", Destination := { Address := "d", Invert := "True" } } ∧
    StringToRule (Rule.ToString
        { Family := "ipv4", Source := { Address := "a" }, Destination := { Invert := "True" } }) ≠
      .returned
        { Family := "ipv4", Source := { Address := "a" }, Destination := { Invert := "True" } } ∧
    StringToRule (Rule.ToString { Family := "ipv4", Service := { Name := "ftp" } }) ≠
      .returned { Family := "ipv4", Service := { Name := "ftp" } } ∧
    StringToRule (Rule.ToString { Family := "ipv4", Accept := { Flag := true } }) ≠
      .returned { Family := "ipv4", Accept := { Flag := true } } ∧
    StringToRule (Rule.ToString
        { Family := "ipv4", Source := { Address := "a" },
          Port := { Port := "80", Protocol := "tcp" } }) ≠
      .returned
        { Family := "ipv4", Source := { Address := "a" },
          Port := { Port := "80", Protocol := "tcp" } } ∧
    StringToRule (Rule.ToString
        { Family := "ipv4", Source := { Address := "a" }, Protocol := { Value := "tcp" } }) ≠
      .returned
        { Family := "ipv4", Source := { Address := "a" }, Protocol := { Value := "tcp" } } ∧
    StringToRule (Rule.ToString
        { Family := "ipv4", Source := { Address := "a" }, IcmpBlock := { Name := "x" } }) ≠
      .returned
        { Family := "ipv4", Source := { Address := "a" }, IcmpBlock := { Name := "x" } } ∧
    StringToRule (Rule.ToString
        { Family := "ipv4", Source := { Address := "a" }, IcmpType := { Name := "x" } }) ≠
      .returned
        { Family := "ipv4", Source := { Address := "a" }, IcmpType := { Name := "x" } } ∧
    StringToRule (Rule.ToString
        { Family := "ipv4", Source := { Address := "a" },
          Audit := { Limit := { Value := "1/m" } } }) ≠
      .returned
        { Family := "ipv4", Source := { Address := "a" },
          Audit := { Limit := { Value := "1/m" } } } ∧
    StringToRule (Rule.ToString
        { Family := "ipv4", Source := { Address := "a" }, Reject := { Type_ := "t" } }) ≠
      .returned
        { Family := "ipv4", Source := { Address := "a" }, Reject := { Type_ := "t" } } ∧
    StringToRule (Rule.ToString
        { Family := "ipv4", Source := { Address := "a" },
          Accept := { Limit := { Value := "1/m" } } }) ≠
      .returned
        { Family := "ipv4", Source := { Address := "a" },
          Accept := { Limit := { Value := "1/m" } } } ∧
    StringToRule (Rule.ToString
        { Family := "ipv4", Source := { Address := "a" },
          Drop := { Limit := { Value := "1/m" } } }) ≠
      .returned
        { Family := "ipv4", Source := { Address := "a" },
          Drop := { Limit := { Value := "1/m" } } } ∧
    StringToRule (Rule.ToString
        { Family := "ipv4", Source := { Address := "a" }, Log := { Prefix := "p" },
          Accept := { Flag := true, Limit := { Value := "1/m" } } }) ≠
      .returned
        { Family := "ipv4", Source := { Address := "a" }, Log := { Prefix := "p" },
          Accept := { Flag := true, Limit := { Value := "1/m" } } } ∧
    StringToRule (Rule.ToString
        { Family := "ipv4", Source := { Address := "a" }, Log := { Prefix := "p" },
          Drop := { Flag := true, Limit := { Value := "1/m" } } }) ≠
      .returned
        { Family := "ipv4", Source := { Address := "a" }, Log := { Prefix := "p" },
          Drop := { Flag := true, Limit := { Value := "1/m" } } } ∧
    StringToRule (Rule.ToString
        { Family := "ipv4", Source := { Address := "a" }, Log := { Prefix := "p" },
          Mark := { Set := "1", Limit := { Value := "1/m" } } }) ≠
      .returned
        { Family := "ipv4", Source := { Address := "a" }, Log := { Prefix := "p" },
          Mark := { Set := "1", Limit := { Value := "1/m" } } } := by
  decide

/-! ## Tokens of given inputs -/

theorem strings.Split_tokens (ts : List String) (last : String)
    (h : ∀ t ∈ ts, ' ' ∉ t.data) (hl : ' ' ∉ last.data) :
    strings.Split (joinTokens ts last) ' ' = ts ++ [last] := by
  rw [strings.Split_joinTokens ts last h, strings.Split_of_not_mem _ _ hl]

theorem tokens_reject_type (t : String) (ht : ' ' ∉ t.data) :
    strings.Split ("rule family=ipv4 reject type=" ++ t) ' ' =
      ["rule", "family=ipv4", "reject", "type=" ++ t] := by
  have e : "rule family=ipv4 reject type=" ++ t =
      joinTokens ["rule", "family=ipv4", "reject"] ("type=" ++ t) := by
    apply String.ext; simp [joinTokens]
  rw [e, strings.Split_tokens _ _ (by decide) (by simp [ht])]
  rfl

theorem tokens_mark_limit (f s x : String) (hf : ' ' ∉ f.data) (hs : ' ' ∉ s.data)
    (hx : ' ' ∉ x.data) :
    strings.Split ("rule family=" ++ f ++ " mark set=" ++ s ++ " limit=" ++ x) ' ' =
      ["rule", "family=" ++ f, "mark", "set=" ++ s, "limit=" ++ x] := by
  have e : "rule family=" ++ f ++ " mark set=" ++ s ++ " limit=" ++ x =
      joinTokens ["rule", "family=" ++ f, "mark", "set=" ++ s] ("limit=" ++ x) := by
    apply String.ext; simp [joinTokens]
  rw [e, strings.Split_tokens _ _ (by simp [hf, hs]) (by simp [hx])]
  rfl

theorem tokens_source_invert (f a i : String) (hf : ' ' ∉ f.data) (ha : ' ' ∉ a.data)
    (hi : ' ' ∉ i.data) :
    strings.Split ("rule family=" ++ f ++ " source address=" ++ a ++ " invert=" ++ i) ' ' =
      ["rule", "family=" ++ f, "source", "address=" ++ a, "invert=" ++ i] := by
  have e : "rule family=" ++ f ++ " source address=" ++ a ++ " invert=" ++ i =
      joinTokens ["rule", "family=" ++ f, "source", "address=" ++ a] ("invert=" ++ i) := by
    apply String.ext; simp [joinTokens]
  rw [e, strings.Split_tokens _ _ (by simp [hf, ha]) (by simp [hi])]
  rfl

/-- The source case reads the one token after the keyword: for `f`, `a`, `i`
with no space and no `=`, on `rule family=f source address=a invert=i` the parser
returns the family `f` and the source address `a`, and the token `invert=i`
is left in the slice. -/
theorem StringToRule_source_invert (f a i : String) (hf : plain f) (ha : plain a)
    (hi : plain i) :
    StringToRule ("rule family=" ++ f ++ " source address=" ++ a ++ " invert=" ++ i) =
      .returned { Family := f, Source := { Address := a } } := by
  have k0 := strings.Split_key_value "family" f (by decide) hf.2
  have k1 := strings.Split_key_value "address" a (by decide) ha.2
  simp only [String.reduceAppend] at k0 k1
  have s1 : '=' ∈ ("invert=" ++ i).data := by simp
  unfold StringToRule
  rw [tokens_source_invert f a i hf.1 ha.1 hi.1]
  simp [StringToRule.loop, StringToRule.scan, removeSliceElement, sliceIndex, bind,
    Outcome.bind, pure, k0, k1, ne_keywords _ s1]

/-! ## Clauses joined in any order -/

theorem splitChars_append_sep_split (sep : Char) (a b : List Char) :
    splitChars sep (a ++ sep :: b) = splitChars sep a ++ splitChars sep b := by
  induction a with
  | nil => simp [splitChars]
  | cons c cs ih =>
    by_cases hc : c = sep
    · simp [splitChars, hc, ih]
    · have hne := splitChars_ne_nil sep cs
      simp only [List.cons_append, splitChars, hc, if_false]
      rw [show cs.append (sep :: b) = cs ++ sep :: b from rfl, ih]
      cases e : splitChars sep cs with
      | nil => exact absurd e hne
      | cons t ts => simp

theorem strings.Split_append_sep_split (sep : Char) (a b : String) :
    strings.Split (a ++ String.singleton sep ++ b) sep =
      strings.Split a sep ++ strings.Split b sep := by
  simp [strings.Split, String.data_append, splitChars_append_sep_split]

theorem intercalate_go_append (s : String) (l : List String) :
    ∀ x y : String, String.intercalate.go (x ++ y) s l = x ++ String.intercalate.go y s l := by
  induction l with
  | nil => intro x y; simp [String.intercalate.go]
  | cons c cs ih =>
    intro x y
    simp only [String.intercalate.go]
    rw [String.append_assoc, String.append_assoc, ih, String.append_assoc]

theorem intercalate_cons_cons (s a b : String) (l : List String) :
    String.intercalate s (a :: b :: l) = a ++ s ++ String.intercalate s (b :: l) := by
  simp only [String.intercalate, String.intercalate.go]
  rw [String.append_assoc, intercalate_go_append, intercalate_go_append, String.append_assoc]

/-- The tokens of clauses joined by single spaces are the tokens of the
clauses, in order. -/
theorem strings.Split_intercalate (c : String) (l : List String) :
    strings.Split (String.intercalate " " (c :: l)) ' ' =
      (c :: l).flatMap (fun c => strings.Split c ' ') := by
  induction l generalizing c with
  | nil => simp [String.intercalate, String.intercalate.go]
  | cons d ds ih =>
    have e := strings.Split_append_sep_split ' ' c (String.intercalate " " (d :: ds))
    rw [intercalate_cons_cons, show c ++ " " ++ String.intercalate " " (d :: ds) =
      c ++ String.singleton ' ' ++ String.intercalate " " (d :: ds) from rfl, e, ih d]
    simp

theorem clause_ne (f a n : String) :
    "source address=" ++ a ≠ "rule family=" ++ f ∧
    "service name=" ++ n ≠ "rule family=" ++ f ∧
    "service name=" ++ n ≠ "source address=" ++ a ∧
    "accept" ≠ "rule family=" ++ f ∧ "accept" ≠ "source address=" ++ a ∧
    "accept" ≠ "service name=" ++ n := by
  refine ⟨?_, ?_, ?_, ?_, ?_, ?_⟩ <;> intro h <;> have := congrArg String.data h <;>
    simp at this

theorem clause_tokens (f a n : String) (hf : ' ' ∉ f.data) (ha : ' ' ∉ a.data)
    (hn : ' ' ∉ n.data) :
    strings.Split ("rule family=" ++ f) ' ' = ["rule", "family=" ++ f] ∧
    strings.Split ("source address=" ++ a) ' ' = ["source", "address=" ++ a] ∧
    strings.Split ("service name=" ++ n) ' ' = ["service", "name=" ++ n] ∧
    strings.Split "accept" ' ' = ["accept"] := by
  have e1 : "rule family=" ++ f = joinTokens ["rule"] ("family=" ++ f) := by
    apply String.ext; simp [joinTokens]
  have e2 : "source address=" ++ a = joinTokens ["source"] ("address=" ++ a) := by
    apply String.ext; simp [joinTokens]
  have e3 : "service name=" ++ n = joinTokens ["service"] ("name=" ++ n) := by
    apply String.ext; simp [joinTokens]
  refine ⟨?_, ?_, ?_, by decide⟩
  · rw [e1, strings.Split_joinTokens _ _ (by decide),
      strings.Split_of_not_mem _ _ (by simp [hf])]; rfl
  · rw [e2, strings.Split_joinTokens _ _ (by decide),
      strings.Split_of_not_mem _ _ (by simp [ha])]; rfl
  · rw [e3, strings.Split_joinTokens _ _ (by decide),
      strings.Split_of_not_mem _ _ (by simp [hn])]; rfl

theorem clauses_head (f a n : String) (hf : ' ' ∉ f.data) (ha : ' ' ∉ a.data)
    (hn : ' ' ∉ n.data) (l : List String)
    (hl : ∀ c ∈ l, c ∈ ["rule family=" ++ f, "source address=" ++ a, "service name=" ++ n,
      "accept"]) :
    l.flatMap (fun c => strings.Split c ' ') = [] ∨
      ∃ h tl, l.flatMap (fun c => strings.Split c ' ') = h :: tl ∧ h ≠ "limit" := by
  obtain ⟨t1, t2, t3, t4⟩ := clause_tokens f a n hf ha hn
  cases l with
  | nil => left; rfl
  | cons c cs =>
    right
    have hc := hl c (by simp)
    simp only [List.mem_cons, List.mem_singleton, List.not_mem_nil, or_false] at hc
    rcases hc with hc | hc | hc | hc <;> subst hc <;>
      simp only [List.flatMap_cons, t1, t2, t3, t4, List.cons_append, List.nil_append]
    · exact ⟨_, _, rfl, by decide⟩
    · exact ⟨_, _, rfl, by decide⟩
    · exact ⟨_, _, rfl, by decide⟩
    · exact ⟨_, _, rfl, by decide⟩

theorem StringToRule_loop_clauses (f a n : String) (hf : plain f) (ha : plain a)
    (hn : plain n) (l : List String) :
    (∀ c ∈ l, c ∈ ["rule family=" ++ f, "source address=" ++ a, "service name=" ++ n,
      "accept"]) →
    ∀ (rule : Rule) (fuel : Nat), l.length < fuel →
      StringToRule.loop fuel rule (l.flatMap (fun c => strings.Split c ' ')) =
        .returned (l.foldl (setClause f a n) rule) := by
  obtain ⟨t1, t2, t3, t4⟩ := clause_tokens f a n hf.1 ha.1 hn.1
  obtain ⟨n1, n2, n3, n4, n5, n6⟩ := clause_ne f a n
  have k1 := strings.Split_key_value "family" f (by decide) hf.2
  have k2 := strings.Split_key_value "address" a (by decide) ha.2
  have k3 := strings.Split_key_value "name" n (by decide) hn.2
  simp only [String.reduceAppend] at k1 k2 k3
  induction l with
  | nil =>
    intro _ rule fuel hfuel
    obtain ⟨k, rfl⟩ : ∃ k, fuel = k + 1 := ⟨fuel - 1, by simp at hfuel; omega⟩
    simp [StringToRule.loop, StringToRule.scan]
  | cons c cs ih =>
    intro hl rule fuel hfuel
    obtain ⟨k, rfl⟩ : ∃ k, fuel = k + 1 := ⟨fuel - 1, by omega⟩
    have hk : cs.length < k := by simp at hfuel; omega
    have hcs : ∀ c ∈ cs, c ∈ ["rule family=" ++ f, "source address=" ++ a,
        "service name=" ++ n, "accept"] := fun c hc => hl c (by simp [hc])
    have ih' := fun rule => ih hcs rule k hk
    have hc := hl c (by simp)
    simp only [List.mem_cons, List.mem_singleton, List.not_mem_nil, or_false] at hc
    rcases hc with hc | hc | hc | hc <;> subst hc <;>
      simp only [List.flatMap_cons, List.foldl_cons, t1, t2, t3, t4, List.cons_append,
        List.nil_append]
    · rw [← ih']
      simp [StringToRule.loop, StringToRule.scan, removeSliceElement, bind, Outcome.bind,
        pure, k1, sliceIndex_cons_zero, sliceIndex_cons_one, setClause]
    · rw [← ih']
      simp [StringToRule.loop, StringToRule.scan, removeSliceElement, bind, Outcome.bind,
        pure, k2, sliceIndex_cons_zero, sliceIndex_cons_one, setClause, n1]
    · rw [← ih']
      simp [StringToRule.loop, StringToRule.scan, removeSliceElement, bind, Outcome.bind,
        pure, k3, sliceIndex_cons_zero, sliceIndex_cons_one, setClause, n2, n3]
    · rw [← ih']
      rcases clauses_head f a n hf.1 ha.1 hn.1 cs hcs with e | ⟨h, tl, e, hne⟩
      · rw [e]
        simp [StringToRule.loop, StringToRule.scan, removeSliceElement, bind, Outcome.bind,
          pure, setClause, n4, n5, n6]
      · rw [e]
        simp [StringToRule.loop, StringToRule.scan, removeSliceElement, bind, Outcome.bind,
          pure, setClause, n4, n5, n6, sliceIndex_cons_zero, hne]

theorem setClause_comm (f a n : String) (x y : String) (z : Rule)
    (hx : x ∈ ["rule family=" ++ f, "source address=" ++ a, "service name=" ++ n, "accept"])
    (hy : y ∈ ["rule family=" ++ f, "source address=" ++ a, "service name=" ++ n, "accept"]) :
    setClause f a n (setClause f a n z x) y = setClause f a n (setClause f a n z y) x := by
  obtain ⟨n1, n2, n3, n4, n5, n6⟩ := clause_ne f a n
  simp only [List.mem_cons, List.mem_singleton, List.not_mem_nil, or_false] at hx hy
  rcases hx with hx | hx | hx | hx <;> rcases hy with hy | hy | hy | hy <;> subst hx <;>
    subst hy <;> simp [setClause, n1, n2, n3, n4, n5, n6]

/-! ## Restarting loops: the slice shrinks, the fuel is enough -/

theorem restartLoop_sublist {σ : Type}
    (scan : σ → List String → Outcome (Option (σ × List String)))
    (hscan : ∀ st s, Shrinks s (scan st s)) (fuel : Nat) :
    ∀ (st : σ) (s : List String) (st1 : σ) (s1 : List String),
      restartLoop scan fuel st s = .returned (st1, s1) → s1.Sublist s := by
  induction fuel with
  | zero => intro st s st1 s1 h; simp [restartLoop] at h
  | succ k ih =>
    intro st s st1 s1 h
    simp only [restartLoop] at h
    split at h
    · simp only [Outcome.returned.injEq, Prod.mk.injEq] at h
      rw [← h.2]
    · rename_i st2 s2 e
      exact (ih st2 s2 st1 s1 h).trans (hscan st s st2 s2 e).1
    · simp at h
    · simp at h

theorem restartLoop_fuel {σ : Type}
    (scan : σ → List String → Outcome (Option (σ × List String)))
    (hscan : ∀ st s, Shrinks s (scan st s)) (f1 : Nat) :
    ∀ (f2 : Nat) (st : σ) (s : List String), s.length < f1 → s.length < f2 →
      restartLoop scan f1 st s = restartLoop scan f2 st s := by
  induction f1 with
  | zero => intro f2 st s h; omega
  | succ k ih =>
    intro f2 st s h1 h2
    obtain ⟨m, rfl⟩ : ∃ m, f2 = m + 1 := ⟨f2 - 1, by omega⟩
    simp only [restartLoop]
    split
    · rfl
    · rename_i st2 s2 e
      have := (hscan st s st2 s2 e).2
      exact ih m st2 s2 (by omega) (by omega)
    · rfl
    · rfl

theorem restartLoop_cons {σ : Type}
    (scan : σ → List String → Outcome (Option (σ × List String)))
    (hscan : ∀ st s, Shrinks s (scan st s)) (n : String) (inv : List String → Prop)
    (hinv : ∀ s s1, s1.Sublist s → inv s → inv s1)
    (hsim : ∀ st s, inv s → scan st (n :: s) = (scan st s).map (consState n)) (fuel : Nat) :
    ∀ (st : σ) (s : List String), inv s →
      restartLoop scan fuel st (n :: s) =
        (restartLoop scan fuel st s).map (fun p => (p.1, n :: p.2)) := by
  induction fuel with
  | zero => intro st s _; rfl
  | succ k ih =>
    intro st s hs
    simp only [restartLoop, hsim st s hs]
    cases e : scan st s with
    | returned o =>
      cases o with
      | none => rfl
      | some p =>
        obtain ⟨st2, s2⟩ := p
        simp only [Outcome.map, consState, Option.map]
        exact ih st2 s2 (hinv s s2 (hscan st s st2 s2 e).1 hs)
    | fault => rfl
    | fuelOut => rfl

theorem Outcome.bind_eq_returned {α β : Type} (o : Outcome α) (k : α → Outcome β) (b : β) :
    o.bind k = .returned b ↔ ∃ a, o = .returned a ∧ k a = .returned b := by
  cases o <;> simp [Outcome.bind]

theorem Outcome.bind_def {α β : Type} (o : Outcome α) (k : α → Outcome β) :
    (o >>= k) = o.bind k := rfl

theorem Outcome.pure_def {α : Type} (a : α) : (pure a : Outcome α) = .returned a := rfl

theorem Outcome.returned_bind {α β : Type} (a : α) (k : α → Outcome β) :
    (Outcome.returned a).bind k = k a := rfl

theorem removeSliceElement_shrinks {s s1 : List String} {index : Nat}
    (h : removeSliceElement s index = .returned s1) :
    s1.Sublist s ∧ s1.length + 1 = s.length := by
  unfold removeSliceElement at h
  split at h
  · rename_i hle
    simp only [Outcome.returned.injEq] at h
    subst h
    constructor
    · have e : s = s.take index ++ s.drop index := (List.take_append_drop index s).symm
      conv_rhs => rw [e]
      refine List.Sublist.append (List.Sublist.refl _) ?_
      rw [← List.drop_drop 1 index s] 
      exact List.drop_sublist _ _
    · simp only [List.length_append, List.length_take, List.length_drop]
      omega
  · simp at h

theorem Within_returned {σ : Type} (s : List String) (st : σ) :
    Within s (.returned (some (st, s))) := by
  intro st1 s1 h
  simp only [Outcome.returned.injEq, Option.some.injEq, Prod.mk.injEq] at h
  rw [← h.2]

theorem Within_bind_remove {σ : Type} (s : List String) (index : Nat)
    (k : List String → Outcome (Option (σ × List String)))
    (h : ∀ s1, s1.Sublist s → Within s1 (k s1)) :
    Within s ((removeSliceElement s index).bind k) := by
  intro st s2 e
  obtain ⟨s1, e1, e2⟩ := (Outcome.bind_eq_returned _ _ _).mp e
  have := removeSliceElement_shrinks e1
  exact (h s1 this.1 st s2 e2).trans this.1

theorem Within_bind {σ α : Type} (s : List String) (o : Outcome α)
    (k : α → Outcome (Option (σ × List String))) (h : ∀ a, Within s (k a)) :
    Within s (o.bind k) := by
  intro st s2 e
  obtain ⟨a, -, e2⟩ := (Outcome.bind_eq_returned _ _ _).mp e
  exact h a st s2 e2

theorem Within_bind_sub {σ α : Type} (s : List String) (o : Outcome (α × List String))
    (k : α × List String → Outcome (Option (σ × List String)))
    (ho : ∀ v s1, o = .returned (v, s1) → s1.Sublist s)
    (h : ∀ v s1, s1.Sublist s → Within s1 (k (v, s1))) :
    Within s (o.bind k) := by
  intro st s2 e
  obtain ⟨⟨v, s1⟩, e1, e2⟩ := (Outcome.bind_eq_returned _ _ _).mp e
  exact (h v s1 (ho v s1 e1) st s2 e2).trans (ho v s1 e1)

theorem Within_ite {σ : Type} (s : List String) (c : Prop) [Decidable c]
    (a b : Outcome (Option (σ × List String))) (ha : Within s a) (hb : Within s b) :
    Within s (if c then a else b) := by
  split
  · exact ha
  · exact hb

theorem Shrinks_none {σ : Type} (s : List String) :
    Shrinks s (.returned none : Outcome (Option (σ × List String))) := by
  intro st s1 h; simp at h

theorem Shrinks_bind_remove {σ : Type} (s : List String) (index : Nat)
    (k : List String → Outcome (Option (σ × List String)))
    (h : ∀ s1, s1.Sublist s → Within s1 (k s1)) :
    Shrinks s ((removeSliceElement s index).bind k) := by
  intro st s2 e
  obtain ⟨s1, e1, e2⟩ := (Outcome.bind_eq_returned _ _ _).mp e
  have := removeSliceElement_shrinks e1
  have h2 := h s1 this.1 st s2 e2
  exact ⟨h2.trans this.1, by have := h2.length_le; omega⟩

theorem Shrinks_bind {σ α : Type} (s : List String) (o : Outcome α)
    (k : α → Outcome (Option (σ × List String))) (h : ∀ a, Shrinks s (k a)) :
    Shrinks s (o.bind k) := by
  intro st s2 e
  obtain ⟨a, -, e2⟩ := (Outcome.bind_eq_returned _ _ _).mp e
  exact h a st s2 e2

theorem Shrinks_ite {σ : Type} (s : List String) (c : Prop) [Decidable c]
    (a b : Outcome (Option (σ × List String))) (ha : Shrinks s a) (hb : Shrinks s b) :
    Shrinks s (if c then a else b) := by
  split
  · exact ha
  · exact hb

theorem stringToMark_scan_shrinks (mark : Mark) (slice : List String) :
    ∀ (rest : List String) (index : Nat),
      Shrinks slice (stringToMark.scan mark slice index rest) := by
  intro rest
  induction rest with
  | nil => intro index; exact Shrinks_none _
  | cons value rest ih =>
    intro index
    simp only [stringToMark.scan, Outcome.bind_def, Outcome.pure_def]
    repeat' first
      | exact ih _
      | exact Within_returned _ _
      | apply Shrinks_ite
      | apply Shrinks_bind_remove
      | apply Within_bind_remove
      | apply Within_ite
      | apply Shrinks_bind
      | apply Within_bind
      | intro _

theorem stringToReject_scan_shrinks (reject : Reject) (slice : List String) :
    ∀ (rest : List String) (index : Nat),
      Shrinks slice (stringToReject.scan reject slice index rest) := by
  intro rest
  induction rest with
  | nil => intro index; exact Shrinks_none _
  | cons value rest ih =>
    intro index
    simp only [stringToReject.scan, Outcome.bind_def, Outcome.pure_def]
    repeat' first
      | exact ih _
      | exact Within_returned _ _
      | apply Shrinks_ite
      | apply Shrinks_bind_remove
      | apply Within_bind_remove
      | apply Within_ite
      | apply Shrinks_bind
      | apply Within_bind
      | intro _

theorem stringToForwardPort_scan_shrinks (forwardPort : ForwardPort) (slice : List String) :
    ∀ (rest : List String) (index : Nat),
      Shrinks slice (stringToForwardPort.scan forwardPort slice index rest) := by
  intro rest
  induction rest with
  | nil => intro index; exact Shrinks_none _
  | cons value rest ih =>
    intro index
    simp only [stringToForwardPort.scan, Outcome.bind_def, Outcome.pure_def]
    repeat' first
      | exact ih _
      | exact Within_returned _ _
      | apply Shrinks_ite
      | apply Shrinks_bind_remove
      | apply Within_bind_remove
      | apply Within_ite
      | apply Shrinks_bind
      | apply Within_bind
      | intro _

theorem stringToLog_scan_shrinks (log : Log) (slice : List String) :
    ∀ (rest : List String) (index : Nat),
      Shrinks slice (stringToLog.scan log slice index rest) := by
  intro rest
  induction rest with
  | nil => intro index; exact Shrinks_none _
  | cons value rest ih =>
    intro index
    simp only [stringToLog.scan, Outcome.bind_def, Outcome.pure_def]
    repeat' first
      | exact ih _
      | exact Within_returned _ _
      | apply Shrinks_ite
      | apply Shrinks_bind_remove
      | apply Within_bind_remove
      | apply Within_ite
      | apply Shrinks_bind
      | apply Within_bind
      | intro _

theorem stringToReject_loop_eq (fuel : Nat) :
    ∀ (reject : Reject) (slice : List String),
      stringToReject.loop fuel reject slice =
        restartLoop (fun st s => stringToReject.scan st s 0 s) fuel reject slice := by
  induction fuel with
  | zero => intro _ _; rfl
  | succ k ih =>
    intro reject slice
    simp only [stringToReject.loop, restartLoop]
    split <;> simp_all

theorem stringToMark_loop_eq (fuel : Nat) :
    ∀ (mark : Mark) (slice : List String),
      stringToMark.loop fuel mark slice =
        restartLoop (fun st s => stringToMark.scan st s 0 s) fuel mark slice := by
  induction fuel with
  | zero => intro _ _; rfl
  | succ k ih =>
    intro mark slice
    simp only [stringToMark.loop, restartLoop]
    split <;> simp_all

theorem stringToForwardPort_loop_eq (fuel : Nat) :
    ∀ (forwardPort : ForwardPort) (slice : List String),
      stringToForwardPort.loop fuel forwardPort slice =
        restartLoop (fun st s => stringToForwardPort.scan st s 0 s) fuel forwardPort slice := by
  induction fuel with
  | zero => intro _ _; rfl
  | succ k ih =>
    intro forwardPort slice
    simp only [stringToForwardPort.loop, restartLoop]
    split <;> simp_all

theorem stringToLog_loop_eq (fuel : Nat) :
    ∀ (log : Log) (slice : List String),
      stringToLog.loop fuel log slice =
        restartLoop (fun st s => stringToLog.scan st s 0 s) fuel log slice := by
  induction fuel with
  | zero => intro _ _; rfl
  | succ k ih =>
    intro log slice
    simp only [stringToLog.loop, restartLoop]
    split <;> simp_all

theorem stringToReject_sublist (slice : List String) (v : Reject) (s1 : List String)
    (h : stringToReject slice = .returned (v, s1)) : s1.Sublist slice := by
  unfold stringToReject at h
  rw [stringToReject_loop_eq] at h
  exact restartLoop_sublist _ (fun st s => stringToReject_scan_shrinks st s s 0) _ _ _ _ _ h

theorem stringToMark_sublist (slice : List String) (v : Mark) (s1 : List String)
    (h : stringToMark slice = .returned (v, s1)) : s1.Sublist slice := by
  unfold stringToMark at h
  rw [stringToMark_loop_eq] at h
  exact restartLoop_sublist _ (fun st s => stringToMark_scan_shrinks st s s 0) _ _ _ _ _ h

theorem stringToForwardPort_sublist (slice : List String) (v : ForwardPort)
    (s1 : List String) (h : stringToForwardPort slice = .returned (v, s1)) :
    s1.Sublist slice := by
  unfold stringToForwardPort at h
  rw [stringToForwardPort_loop_eq] at h
  exact restartLoop_sublist _ (fun st s => stringToForwardPort_scan_shrinks st s s 0)
    _ _ _ _ _ h

theorem stringToLog_sublist (slice : List String) (v : Log) (s1 : List String)
    (h : stringToLog slice = .returned (v, s1)) : s1.Sublist slice := by
  unfold stringToLog at h
  rw [stringToLog_loop_eq] at h
  exact restartLoop_sublist _ (fun st s => stringToLog_scan_shrinks st s s 0) _ _ _ _ _ h

theorem StringToRule_scan_shrinks (rule : Rule) (strslice : List String) :
    ∀ (rest : List String) (index : Nat),
      Shrinks strslice (StringToRule.scan rule strslice index rest) := by
  intro rest
  induction rest with
  | nil => intro index; exact Shrinks_none _
  | cons value rest ih =>
    intro index
    simp only [StringToRule.scan, Outcome.bind_def, Outcome.pure_def]
    repeat' first
      | exact ih _
      | exact Within_returned _ _
      | apply Shrinks_ite
      | apply Shrinks_bind_remove
      | apply Within_bind_sub _ _ _ (stringToForwardPort_sublist _)
      | apply Within_bind_sub _ _ _ (stringToLog_sublist _)
      | apply Within_bind_sub _ _ _ (stringToReject_sublist _)
      | apply Within_bind_sub _ _ _ (stringToMark_sublist _)
      | apply Within_bind_remove
      | apply Within_ite
      | apply Shrinks_bind
      | apply Within_bind
      | intro _

theorem StringToRule_loop_eq (fuel : Nat) :
    ∀ (rule : Rule) (strslice : List String),
      StringToRule.loop fuel rule strslice =
        (restartLoop (fun st s => StringToRule.scan st s 0 s) fuel rule strslice).map
          Prod.fst := by
  induction fuel with
  | zero => intro _ _; rfl
  | succ k ih =>
    intro rule strslice
    simp only [StringToRule.loop, restartLoop]
    split <;> simp_all [Outcome.map]

/-! ## A noise token in front of the slice -/

theorem Outcome.map_bind {α β γ : Type} (o : Outcome α) (k : α → Outcome β) (f : β → γ) :
    (o.bind k).map f = o.bind (fun a => (k a).map f) := by
  cases o <;> rfl

theorem Outcome.bind_map {α β γ : Type} (o : Outcome α) (g : α → β) (k : β → Outcome γ) :
    (o.map g).bind k = o.bind (fun a => k (g a)) := by
  cases o <;> rfl

theorem Outcome.map_returned {α β : Type} (a : α) (f : α → β) :
    (Outcome.returned a).map f = .returned (f a) := rfl

theorem Outcome.map_ite {α β : Type} (c : Prop) [Decidable c] (a b : Outcome α) (f : α → β) :
    (if c then a else b).map f = if c then a.map f else b.map f := by
  split <;> rfl

theorem removeSliceElement_cons (n : String) (s : List String) (index : Nat) :
    removeSliceElement (n :: s) (index + 1) = (removeSliceElement s index).map (n :: ·) := by
  unfold removeSliceElement
  by_cases h : index + 1 ≤ s.length
  · simp [h, Outcome.map]
  · simp [h, Outcome.map]

theorem sliceIndex_cons_succ {α : Type} (n : α) (s : List α) (index : Nat) :
    sliceIndex (n :: s) (index + 1) = sliceIndex s index := by
  simp [sliceIndex]

theorem stringToMark_scan_cons (n : String) (mark : Mark) (slice : List String) :
    ∀ (rest : List String) (index : Nat),
      stringToMark.scan mark (n :: slice) (index + 1) rest =
        (stringToMark.scan mark slice index rest).map (consState n) := by
  intro rest
  induction rest with
  | nil => intro index; rfl
  | cons value rest ih =>
    intro index
    simp only [stringToMark.scan, Outcome.bind_def, Outcome.pure_def, Outcome.map_bind,
      Outcome.bind_map, Outcome.map_ite, Outcome.map_returned, removeSliceElement_cons,
      sliceIndex_cons_succ, ih, consState, Option.map]

theorem stringToReject_scan_cons (n : String) (reject : Reject) (slice : List String) :
    ∀ (rest : List String) (index : Nat),
      stringToReject.scan reject (n :: slice) (index + 1) rest =
        (stringToReject.scan reject slice index rest).map (consState n) := by
  intro rest
  induction rest with
  | nil => intro index; rfl
  | cons value rest ih =>
    intro index
    simp only [stringToReject.scan, Outcome.bind_def, Outcome.pure_def, Outcome.map_bind,
      Outcome.bind_map, Outcome.map_ite, Outcome.map_returned, removeSliceElement_cons,
      sliceIndex_cons_succ, ih, consState, Option.map]

theorem stringToForwardPort_scan_cons (n : String) (forwardPort : ForwardPort)
    (slice : List String) :
    ∀ (rest : List String) (index : Nat),
      stringToForwardPort.scan forwardPort (n :: slice) (index + 1) rest =
        (stringToForwardPort.scan forwardPort slice index rest).map (consState n) := by
  intro rest
  induction rest with
  | nil => intro index; rfl
  | cons value rest ih =>
    intro index
    simp only [stringToForwardPort.scan, Outcome.bind_def, Outcome.pure_def, Outcome.map_bind,
      Outcome.bind_map, Outcome.map_ite, Outcome.map_returned, removeSliceElement_cons,
      sliceIndex_cons_succ, ih, consState, Option.map]

theorem stringToLog_scan_cons (n : String) (log : Log) (slice : List String) :
    ∀ (rest : List String) (index : Nat),
      stringToLog.scan log (n :: slice) (index + 1) rest =
        (stringToLog.scan log slice index rest).map (consState n) := by
  intro rest
  induction rest with
  | nil => intro index; rfl
  | cons value rest ih =>
    intro index
    simp only [stringToLog.scan, Outcome.bind_def, Outcome.pure_def, Outcome.map_bind,
      Outcome.bind_map, Outcome.map_ite, Outcome.map_returned, removeSliceElement_cons,
      sliceIndex_cons_succ, ih, consState, Option.map]

theorem stringToReject_scan_skip (reject : Reject) (slice : List String) (index : Nat)
    (value : String) (rest : List String) (h : '=' ∈ value.data)
    (h1 : secondPart value ≠ "type") (h2 : secondPart value ≠ "limit") :
    stringToReject.scan reject slice index (value :: rest) =
      stringToReject.scan reject slice (index + 1) rest := by
  simp [stringToReject.scan, sliceIndex_Split_one value h, bind, Outcome.bind, h1, h2]

theorem stringToReject_cons (n : String) (hn : Noise n) (slice : List String) :
    stringToReject (n :: slice) = (stringToReject slice).map (fun p => (p.1, n :: p.2)) := by
  unfold stringToReject
  rw [stringToReject_loop_eq, stringToReject_loop_eq,
    restartLoop_cons _ (fun st s => stringToReject_scan_shrinks st s s 0) n (fun _ => True)
      (fun _ _ _ _ => trivial)
      (fun st s _ => by
        show stringToReject.scan st (n :: s) 0 (n :: s) = _
        rw [stringToReject_scan_skip _ _ _ _ _ hn.1 hn.2.1 hn.2.2.1,
          stringToReject_scan_cons]) _ _ _ trivial,
    restartLoop_fuel _ (fun st s => stringToReject_scan_shrinks st s s 0)
      ((n :: slice).length + 1) (slice.length + 1) _ _ (by simp only [List.length_cons]; omega)
      (by omega)]

theorem stringToMark_cons (n : String) (hn : Noise n) (slice : List String) :
    stringToMark (n :: slice) = (stringToMark slice).map (fun p => (p.1, n :: p.2)) := by
  unfold stringToMark
  rw [stringToMark_loop_eq, stringToMark_loop_eq,
    restartLoop_cons _ (fun st s => stringToMark_scan_shrinks st s s 0) n (fun _ => True)
      (fun _ _ _ _ => trivial)
      (fun st s _ => by
        show stringToMark.scan st (n :: s) 0 (n :: s) = _
        rw [stringToMark_scan_skip _ _ _ _ _ hn.2.2.2.1, stringToMark_scan_cons]) _ _ _ trivial,
    restartLoop_fuel _ (fun st s => stringToMark_scan_shrinks st s s 0)
      ((n :: slice).length + 1) (slice.length + 1) _ _ (by simp only [List.length_cons]; omega)
      (by omega)]

theorem stringToForwardPort_cons (n : String) (hn : Noise n) (slice : List String) :
    stringToForwardPort (n :: slice) =
      (stringToForwardPort slice).map (fun p => (p.1, n :: p.2)) := by
  unfold stringToForwardPort
  rw [stringToForwardPort_loop_eq, stringToForwardPort_loop_eq,
    restartLoop_cons _ (fun st s => stringToForwardPort_scan_shrinks st s s 0) n
      (fun _ => True) (fun _ _ _ _ => trivial)
      (fun st s _ => by
        show stringToForwardPort.scan st (n :: s) 0 (n :: s) = _
        rw [stringToForwardPort_scan_skip _ _ _ _ _ hn.2.2.2.2.1,
          stringToForwardPort_scan_cons]) _ _ _ trivial,
    restartLoop_fuel _ (fun st s => stringToForwardPort_scan_shrinks st s s 0)
      ((n :: slice).length + 1) (slice.length + 1) _ _ (by simp only [List.length_cons]; omega)
      (by omega)]

theorem stringToLog_cons (n : String) (hn : Noise n) (slice : List String) :
    stringToLog (n :: slice) = (stringToLog slice).map (fun p => (p.1, n :: p.2)) := by
  unfold stringToLog
  rw [stringToLog_loop_eq, stringToLog_loop_eq,
    restartLoop_cons _ (fun st s => stringToLog_scan_shrinks st s s 0) n (fun _ => True)
      (fun _ _ _ _ => trivial)
      (fun st s _ => by
        show stringToLog.scan st (n :: s) 0 (n :: s) = _
        rw [stringToLog_scan_skip _ _ _ _ _ hn.2.2.2.2.2, stringToLog_scan_cons]) _ _ _ trivial,
    restartLoop_fuel _ (fun st s => stringToLog_scan_shrinks st s s 0)
      ((n :: slice).length + 1) (slice.length + 1) _ _ (by simp only [List.length_cons]; omega)
      (by omega)]

theorem StringToRule_scan_cons (n : String) (hn : Noise n) (rule : Rule)
    (strslice : List String) :
    ∀ (rest : List String) (index : Nat), "accept" ∉ rest → "drop" ∉ rest →
      StringToRule.scan rule (n :: strslice) (index + 1) rest =
        (StringToRule.scan rule strslice index rest).map (consState n) := by
  intro rest
  induction rest with
  | nil => intro index _ _; rfl
  | cons value rest ih =>
    intro index ha hd
    have ha1 : value ≠ "accept" := fun e => ha (by simp [e])
    have hd1 : value ≠ "drop" := fun e => hd (by simp [e])
    have ha2 : "accept" ∉ rest := fun e => ha (by simp [e])
    have hd2 : "drop" ∉ rest := fun e => hd (by simp [e])
    simp only [StringToRule.scan, Outcome.bind_def, Outcome.pure_def, Outcome.map_bind,
      Outcome.bind_map, Outcome.map_ite, Outcome.map_returned, removeSliceElement_cons,
      sliceIndex_cons_succ, ih _ ha2 hd2, consState, Option.map, ha1, hd1, if_false,
      stringToForwardPort_cons n hn, stringToLog_cons n hn, stringToReject_cons n hn,
      stringToMark_cons n hn]

/-- With a noise token in front, the parser has the same outcome, provided no
token is `accept` or `drop`. -/
theorem StringToRule_loop_cons (n : String) (hn : Noise n) (strslice : List String)
    (ha : "accept" ∉ strslice) (hd : "drop" ∉ strslice) :
    StringToRule.loop ((n :: strslice).length + 1) {} (n :: strslice) =
      StringToRule.loop (strslice.length + 1) {} strslice := by
  have hnk : n ∉ keywords := by
    have := ne_keywords n hn.1
    simp [keywords, this]
  rw [StringToRule_loop_eq, StringToRule_loop_eq,
    restartLoop_cons _ (fun st s => StringToRule_scan_shrinks st s s 0) n
      (fun s => "accept" ∉ s ∧ "drop" ∉ s)
      (fun s s1 hs h => ⟨fun e => h.1 (hs.subset e), fun e => h.2 (hs.subset e)⟩)
      (fun st s h => by
        show StringToRule.scan st (n :: s) 0 (n :: s) = _
        rw [StringToRule_scan_skip _ _ _ _ _ hnk, StringToRule_scan_cons n hn _ _ _ _ h.1 h.2])
      _ _ _ ⟨ha, hd⟩,
    restartLoop_fuel _ (fun st s => StringToRule_scan_shrinks st s s 0)
      ((n :: strslice).length + 1) (strslice.length + 1) _ _
      (by simp only [List.length_cons]; omega) (by omega)]
  cases restartLoop (fun st s => StringToRule.scan st s 0 s) (strslice.length + 1) {} strslice <;>
    rfl

/-! ## Tokens of further inputs -/

theorem tokens_accept_limit (k f v : String) (hk : ' ' ∉ k.data) (hf : ' ' ∉ f.data)
    (hv : ' ' ∉ v.data) :
    strings.Split ("rule family=" ++ f ++ " " ++ k ++ " limit value=" ++ v) ' ' =
      ["rule", "family=" ++ f, k, "limit", "value=" ++ v] := by
  have e : "rule family=" ++ f ++ " " ++ k ++ " limit value=" ++ v =
      joinTokens ["rule", "family=" ++ f, k, "limit"] ("value=" ++ v) := by
    apply String.ext; simp [joinTokens]
  rw [e, strings.Split_tokens _ _ (by simp [hf, hk]) (by simp [hv])]
  rfl

theorem tokens_log_steals (f a p v : String) (hf : ' ' ∉ f.data) (ha : ' ' ∉ a.data)
    (hp : ' ' ∉ p.data) (hv : ' ' ∉ v.data) (hf0 : f ≠ "") (ha0 : a ≠ "") (hp0 : p ≠ "")
    (hv0 : v ≠ "") :
    strings.Split (Rule.ToString
        { Family := f, Source := { Address := a }, Log := { Prefix := p },
          Accept := { Flag := true, Limit := { Value := v } } }) ' ' =
      ["rule", "family=" ++ f, "source", "address=" ++ a, "log", "prefix=" ++ p, "accept",
        "limit", "value=" ++ v, ""] := by
  have e : Rule.ToString
        { Family := f, Source := { Address := a }, Log := { Prefix := p },
          Accept := { Flag := true, Limit := { Value := v } } } =
      joinTokens ["rule", "family=" ++ f, "source", "address=" ++ a, "log", "prefix=" ++ p,
        "accept", "limit", "value=" ++ v] "" := by
    apply String.ext
    simp [joinTokens, Rule.ToString, Source.IsEmpty, Destination.IsEmpty, Service.IsEmpty,
      Port.IsEmpty, Protocol.IsEmpty, IcmpBlock.IsEmpty, IcmpType.IsEmpty, ForwardPort.IsEmpty,
      Log.IsEmpty, Audit.IsEmpty, Accept.IsEmpty, Reject.IsEmpty, Drop.IsEmpty, Mark.IsEmpty,
      Limit.IsEmpty, Source.ToString, Log.ToString, Accept.ToString, hf0, ha0, hp0, hv0]
  rw [e, strings.Split_tokens _ _ (by simp [hf, ha, hp, hv]) (by decide)]
  rfl

theorem tokens_reject_rendered (f a t : String) (hf : ' ' ∉ f.data) (ha : ' ' ∉ a.data)
    (ht : ' ' ∉ t.data) (hf0 : f ≠ "") (ha0 : a ≠ "") (ht0 : t ≠ "") :
    strings.Split (Rule.ToString
        { Family := f, Source := { Address := a }, Reject := { Type_ := t } }) ' ' =
      ["rule", "family=" ++ f, "source", "address=" ++ a, "reject", "type=" ++ t, ""] := by
  have e : Rule.ToString
        { Family := f, Source := { Address := a }, Reject := { Type_ := t } } =
      joinTokens ["rule", "family=" ++ f, "source", "address=" ++ a, "reject", "type=" ++ t]
        "" := by
    apply String.ext
    simp [joinTokens, Rule.ToString, Source.IsEmpty, Destination.IsEmpty, Service.IsEmpty,
      Port.IsEmpty, Protocol.IsEmpty, IcmpBlock.IsEmpty, IcmpType.IsEmpty, ForwardPort.IsEmpty,
      Log.IsEmpty, Audit.IsEmpty, Accept.IsEmpty, Reject.IsEmpty, Drop.IsEmpty, Mark.IsEmpty,
      Limit.IsEmpty, Source.ToString, Reject.ToString, hf0, ha0, ht0]
  rw [e, strings.Split_tokens _ _ (by simp [hf, ha, ht]) (by decide)]
  rfl

/-! ## What a scan returns -/

theorem Outcome.All_returned {α : Type} (Q : α → Prop) (a : α) (h : Q a) :
    Outcome.All Q (.returned a) := by
  intro b e
  simp only [Outcome.returned.injEq] at e
  exact e ▸ h

theorem Outcome.All_bind {α β : Type} (Q : β → Prop) (o : Outcome α) (k : α → Outcome β)
    (h : ∀ a, Outcome.All Q (k a)) : Outcome.All Q (o.bind k) := by
  intro b e
  obtain ⟨a, -, e2⟩ := (Outcome.bind_eq_returned _ _ _).mp e
  exact h a b e2

theorem Outcome.All_bind_of {α β : Type} (R : α → Prop) (Q : β → Prop) (o : Outcome α)
    (k : α → Outcome β) (ho : Outcome.All R o) (h : ∀ a, R a → Outcome.All Q (k a)) :
    Outcome.All Q (o.bind k) := by
  intro b e
  obtain ⟨a, e1, e2⟩ := (Outcome.bind_eq_returned _ _ _).mp e
  exact h a (ho a e1) b e2

theorem Outcome.All_ite {α : Type} (Q : α → Prop) (c : Prop) [Decidable c] (a b : Outcome α)
    (ha : c → Outcome.All Q a) (hb : ¬ c → Outcome.All Q b) :
    Outcome.All Q (if c then a else b) := by
  split
  · exact ha (by assumption)
  · exact hb (by assumption)

theorem restartLoop_end {σ : Type}
    (scan : σ → List String → Outcome (Option (σ × List String))) (fuel : Nat) :
    ∀ (st : σ) (s : List String) (st1 : σ) (s1 : List String),
      restartLoop scan fuel st s = .returned (st1, s1) → scan st1 s1 = .returned none := by
  induction fuel with
  | zero => intro st s st1 s1 h; simp [restartLoop] at h
  | succ k ih =>
    intro st s st1 s1 h
    simp only [restartLoop] at h
    split at h
    · rename_i e
      simp only [Outcome.returned.injEq, Prod.mk.injEq] at h
      rw [← h.1, ← h.2]; exact e
    · exact ih _ _ _ _ h
    · simp at h
    · simp at h

/-! ## The sub-parsers go past the tokens they do not know -/

theorem stringToMark_scan_end (mark : Mark) (slice : List String) :
    ∀ (rest : List String) (index : Nat),
      Outcome.All (fun o => o = none → ∀ t ∈ rest, firstPart t ∉ markKeys)
        (stringToMark.scan mark slice index rest) := by
  intro rest
  induction rest with
  | nil => intro index; exact Outcome.All_returned _ _ (fun _ t ht => by simp at ht)
  | cons value rest ih =>
    intro index
    simp only [stringToMark.scan, Outcome.bind_def, Outcome.pure_def, sliceIndex_Split_zero,
      Outcome.returned_bind]
    refine Outcome.All_ite _ _ _ _ (fun _ => ?_) (fun h1 => Outcome.All_ite _ _ _ _ (fun _ => ?_)
      (fun h2 => ?_))
    · repeat' first
        | exact Outcome.All_returned _ _ (fun e => by simp at e)
        | apply Outcome.All_bind
        | intro _
    · repeat' first
        | exact Outcome.All_returned _ _ (fun e => by simp at e)
        | apply Outcome.All_bind
        | intro _
    · intro o e ho t ht
      rcases List.mem_cons.mp ht with ht | ht
      · subst ht; simp [markKeys, h1, h2]
      · exact ih _ o e ho t ht

theorem stringToForwardPort_scan_end (forwardPort : ForwardPort) (slice : List String) :
    ∀ (rest : List String) (index : Nat),
      Outcome.All (fun o => o = none → ∀ t ∈ rest, firstPart t ∉ fpKeys)
        (stringToForwardPort.scan forwardPort slice index rest) := by
  intro rest
  induction rest with
  | nil => intro index; exact Outcome.All_returned _ _ (fun _ t ht => by simp at ht)
  | cons value rest ih =>
    intro index
    simp only [stringToForwardPort.scan, Outcome.bind_def, Outcome.pure_def,
      sliceIndex_Split_zero, Outcome.returned_bind]
    refine Outcome.All_ite _ _ _ _ (fun _ => ?_) (fun h1 => Outcome.All_ite _ _ _ _ (fun _ => ?_)
      (fun h2 => Outcome.All_ite _ _ _ _ (fun _ => ?_) (fun h3 => Outcome.All_ite _ _ _ _
        (fun _ => ?_) (fun h4 => ?_))))
    · repeat' first
        | exact Outcome.All_returned _ _ (fun e => by simp at e)
        | apply Outcome.All_bind
        | intro _
    · repeat' first
        | exact Outcome.All_returned _ _ (fun e => by simp at e)
        | apply Outcome.All_bind
        | intro _
    · repeat' first
        | exact Outcome.All_returned _ _ (fun e => by simp at e)
        | apply Outcome.All_bind
        | intro _
    · repeat' first
        | exact Outcome.All_returned _ _ (fun e => by simp at e)
        | apply Outcome.All_bind
        | intro _
    · intro o e ho t ht
      rcases List.mem_cons.mp ht with ht | ht
      · subst ht; simp [fpKeys, h1, h2, h3, h4]
      · exact ih _ o e ho t ht

theorem stringToLog_scan_end (log : Log) (slice : List String) :
    ∀ (rest : List String) (index : Nat),
      Outcome.All (fun o => o = none → ∀ t ∈ rest, firstPart t ∉ logKeys)
        (stringToLog.scan log slice index rest) := by
  intro rest
  induction rest with
  | nil => intro index; exact Outcome.All_returned _ _ (fun _ t ht => by simp at ht)
  | cons value rest ih =>
    intro index
    simp only [stringToLog.scan, Outcome.bind_def, Outcome.pure_def, sliceIndex_Split_zero,
      Outcome.returned_bind]
    refine Outcome.All_ite _ _ _ _ (fun _ => ?_) (fun h1 => Outcome.All_ite _ _ _ _ (fun _ => ?_)
      (fun h2 => Outcome.All_ite _ _ _ _ (fun _ => ?_) (fun h3 => ?_)))
    · repeat' first
        | exact Outcome.All_returned _ _ (fun e => by simp at e)
        | apply Outcome.All_bind
        | intro _
    · repeat' first
        | exact Outcome.All_returned _ _ (fun e => by simp at e)
        | apply Outcome.All_bind
        | intro _
    · repeat' first
        | exact Outcome.All_returned _ _ (fun e => by simp at e)
        | apply Outcome.All_bind
        | intro _
    · intro o e ho t ht
      rcases List.mem_cons.mp ht with ht | ht
      · subst ht; simp [logKeys, h1, h2, h3]
      · exact ih _ o e ho t ht

theorem stringToMark_cons_skip (n : String) (hn : firstPart n ∉ markKeys) (slice : List String) :
    stringToMark (n :: slice) = (stringToMark slice).map (fun p => (p.1, n :: p.2)) := by
  unfold stringToMark
  rw [stringToMark_loop_eq, stringToMark_loop_eq,
    restartLoop_cons _ (fun st s => stringToMark_scan_shrinks st s s 0) n (fun _ => True)
      (fun _ _ _ _ => trivial)
      (fun st s _ => by
        show stringToMark.scan st (n :: s) 0 (n :: s) = _
        rw [stringToMark_scan_skip _ _ _ _ _ hn, stringToMark_scan_cons]) _ _ _ trivial,
    restartLoop_fuel _ (fun st s => stringToMark_scan_shrinks st s s 0)
      ((n :: slice).length + 1) (slice.length + 1) _ _ (by simp only [List.length_cons]; omega)
      (by omega)]

theorem stringToForwardPort_cons_skip (n : String) (hn : firstPart n ∉ fpKeys)
    (slice : List String) :
    stringToForwardPort (n :: slice) =
      (stringToForwardPort slice).map (fun p => (p.1, n :: p.2)) := by
  unfold stringToForwardPort
  rw [stringToForwardPort_loop_eq, stringToForwardPort_loop_eq,
    restartLoop_cons _ (fun st s => stringToForwardPort_scan_shrinks st s s 0) n
      (fun _ => True) (fun _ _ _ _ => trivial)
      (fun st s _ => by
        show stringToForwardPort.scan st (n :: s) 0 (n :: s) = _
        rw [stringToForwardPort_scan_skip _ _ _ _ _ hn, stringToForwardPort_scan_cons])
      _ _ _ trivial,
    restartLoop_fuel _ (fun st s => stringToForwardPort_scan_shrinks st s s 0)
      ((n :: slice).length + 1) (slice.length + 1) _ _ (by simp only [List.length_cons]; omega)
      (by omega)]

theorem stringToLog_cons_skip (n : String) (hn : firstPart n ∉ logKeys) (slice : List String) :
    stringToLog (n :: slice) = (stringToLog slice).map (fun p => (p.1, n :: p.2)) := by
  unfold stringToLog
  rw [stringToLog_loop_eq, stringToLog_loop_eq,
    restartLoop_cons _ (fun st s => stringToLog_scan_shrinks st s s 0) n (fun _ => True)
      (fun _ _ _ _ => trivial)
      (fun st s _ => by
        show stringToLog.scan st (n :: s) 0 (n :: s) = _
        rw [stringToLog_scan_skip _ _ _ _ _ hn, stringToLog_scan_cons]) _ _ _ trivial,
    restartLoop_fuel _ (fun st s => stringToLog_scan_shrinks st s s 0)
      ((n :: slice).length + 1) (slice.length + 1) _ _ (by simp only [List.length_cons]; omega)
      (by omega)]

/-! ## The forward-port sub-parser as a single pass -/

theorem lastValue_nil (key : String) : lastValue key [] = "" := rfl

theorem lastValue_concat (key : String) (l : List String) (t : String) :
    lastValue key (l ++ [t]) = if firstPart t = key then secondPart t else lastValue key l := by
  unfold lastValue
  by_cases h : firstPart t = key
  · simp [List.filter_append, List.filter_cons, h]
  · simp [List.filter_append, List.filter_cons, h]

theorem foldl_set_filter (l : List String) :
    ∀ fp : ForwardPort, (l.filter (fun t => decide (firstPart t ∈ fpKeys))).foldl
      ForwardPort.set fp = l.foldl ForwardPort.set fp := by
  induction l with
  | nil => intro fp; rfl
  | cons t tl ih =>
    intro fp
    by_cases h : firstPart t ∈ fpKeys
    · simp [List.filter_cons, h, ih]
    · have e : fp.set t = fp := by
        simp only [fpKeys, List.mem_cons, List.mem_singleton, List.not_mem_nil, or_false,
          not_or] at h
        simp [ForwardPort.set, h]
      simp [List.filter_cons, h, ih, e]

theorem foldl_set_lastValue (l : List String) :
    l.foldl ForwardPort.set {} = (forwardPortOnePass l).1 := by
  induction l using List.reverseRecOn with
  | nil => rfl
  | append_singleton l t ih =>
    rw [List.foldl_append, ih]
    simp only [forwardPortOnePass, lastValue_concat, List.foldl_cons, List.foldl_nil,
      ForwardPort.set]
    by_cases h1 : firstPart t = "port"
    · simp [h1]
    · by_cases h2 : firstPart t = "protocol"
      · simp [h2]
      · by_cases h3 : firstPart t = "to-port"
        · simp [h3]
        · by_cases h4 : firstPart t = "to-addr"
          · simp [h4]
          · simp [h1, h2, h3, h4]

/-! ## No loop runs out of scans -/

theorem Outcome.Done_returned {α : Type} (a : α) : (Outcome.returned a).Done := by
  simp [Outcome.Done]

theorem Outcome.Done_fault {α : Type} : (Outcome.fault : Outcome α).Done := by
  simp [Outcome.Done]

theorem Outcome.Done_bind {α β : Type} (o : Outcome α) (k : α → Outcome β) (ho : o.Done)
    (h : ∀ a, (k a).Done) : (o.bind k).Done := by
  cases o with
  | returned a => exact h a
  | fault => exact Outcome.Done_fault
  | fuelOut => exact absurd rfl ho

theorem Outcome.Done_ite {α : Type} (c : Prop) [Decidable c] (a b : Outcome α) (ha : a.Done)
    (hb : b.Done) : (if c then a else b).Done := by
  split
  · exact ha
  · exact hb

theorem Outcome.Done_map {α β : Type} (f : α → β) (o : Outcome α) (h : o.Done) :
    (o.map f).Done := by
  cases o with
  | returned a => exact Outcome.Done_returned _
  | fault => exact Outcome.Done_fault
  | fuelOut => exact absurd rfl h

theorem sliceIndex_done {α : Type} (s : List α) (i : Nat) : (sliceIndex s i).Done := by
  unfold sliceIndex
  split
  · exact Outcome.Done_returned _
  · exact Outcome.Done_fault

theorem removeSliceElement_done (s : List String) (i : Nat) : (removeSliceElement s i).Done := by
  unfold removeSliceElement
  split
  · exact Outcome.Done_returned _
  · exact Outcome.Done_fault

/-- A loop whose scans need no fuel and shorten the slice at each restart ends
within `len + 1` scans. -/
theorem restartLoop_done {σ : Type}
    (scan : σ → List String → Outcome (Option (σ × List String)))
    (hscan : ∀ st s, Shrinks s (scan st s)) (hdone : ∀ st s, (scan st s).Done) (fuel : Nat) :
    ∀ (st : σ) (s : List String), s.length < fuel → (restartLoop scan fuel st s).Done := by
  induction fuel with
  | zero => intro st s h; omega
  | succ k ih =>
    intro st s h
    simp only [restartLoop]
    split
    · exact Outcome.Done_returned _
    · rename_i st2 s2 e
      have := (hscan st s st2 s2 e).2
      exact ih st2 s2 (by omega)
    · exact Outcome.Done_fault
    · rename_i e
      exact absurd e (hdone st s)

theorem stringToMark_scan_done (mark : Mark) (slice : List String) :
    ∀ (rest : List String) (index : Nat), (stringToMark.scan mark slice index rest).Done := by
  intro rest
  induction rest with
  | nil => intro index; exact Outcome.Done_returned _
  | cons value rest ih =>
    intro index
    simp only [stringToMark.scan, Outcome.bind_def, Outcome.pure_def]
    repeat' first
      | exact ih _
      | exact Outcome.Done_returned _
      | exact sliceIndex_done _ _
      | exact removeSliceElement_done _ _
      | apply Outcome.Done_ite
      | apply Outcome.Done_bind
      | intro _

theorem stringToReject_scan_done (reject : Reject) (slice : List String) :
    ∀ (rest : List String) (index : Nat),
      (stringToReject.scan reject slice index rest).Done := by
  intro rest
  induction rest with
  | nil => intro index; exact Outcome.Done_returned _
  | cons value rest ih =>
    intro index
    simp only [stringToReject.scan, Outcome.bind_def, Outcome.pure_def]
    repeat' first
      | exact ih _
      | exact Outcome.Done_returned _
      | exact sliceIndex_done _ _
      | exact removeSliceElement_done _ _
      | apply Outcome.Done_ite
      | apply Outcome.Done_bind
      | intro _

theorem stringToForwardPort_scan_done (forwardPort : ForwardPort) (slice : List String) :
    ∀ (rest : List String) (index : Nat),
      (stringToForwardPort.scan forwardPort slice index rest).Done := by
  intro rest
  induction rest with
  | nil => intro index; exact Outcome.Done_returned _
  | cons value rest ih =>
    intro index
    simp only [stringToForwardPort.scan, Outcome.bind_def, Outcome.pure_def]
    repeat' first
      | exact ih _
      | exact Outcome.Done_returned _
      | exact sliceIndex_done _ _
      | exact removeSliceElement_done _ _
      | apply Outcome.Done_ite
      | apply Outcome.Done_bind
      | intro _

theorem stringToLog_scan_done (log : Log) (slice : List String) :
    ∀ (rest : List String) (index : Nat), (stringToLog.scan log slice index rest).Done := by
  intro rest
  induction rest with
  | nil => intro index; exact Outcome.Done_returned _
  | cons value rest ih =>
    intro index
    simp only [stringToLog.scan, Outcome.bind_def, Outcome.pure_def]
    repeat' first
      | exact ih _
      | exact Outcome.Done_returned _
      | exact sliceIndex_done _ _
      | exact removeSliceElement_done _ _
      | apply Outcome.Done_ite
      | apply Outcome.Done_bind
      | intro _

theorem stringToReject_loop_ends (fuel : Nat) (reject : Reject) (slice : List String)
    (h : slice.length < fuel) : (stringToReject.loop fuel reject slice).Done := by
  rw [stringToReject_loop_eq]
  exact restartLoop_done _ (fun st s => stringToReject_scan_shrinks st s s 0)
    (fun st s => stringToReject_scan_done st s s 0) _ _ _ h

theorem stringToMark_loop_ends (fuel : Nat) (mark : Mark) (slice : List String)
    (h : slice.length < fuel) : (stringToMark.loop fuel mark slice).Done := by
  rw [stringToMark_loop_eq]
  exact restartLoop_done _ (fun st s => stringToMark_scan_shrinks st s s 0)
    (fun st s => stringToMark_scan_done st s s 0) _ _ _ h

theorem stringToForwardPort_loop_ends (fuel : Nat) (forwardPort : ForwardPort)
    (slice : List String) (h : slice.length < fuel) :
    (stringToForwardPort.loop fuel forwardPort slice).Done := by
  rw [stringToForwardPort_loop_eq]
  exact restartLoop_done _ (fun st s => stringToForwardPort_scan_shrinks st s s 0)
    (fun st s => stringToForwardPort_scan_done st s s 0) _ _ _ h

theorem stringToLog_loop_ends (fuel : Nat) (log : Log) (slice : List String)
    (h : slice.length < fuel) : (stringToLog.loop fuel log slice).Done := by
  rw [stringToLog_loop_eq]
  exact restartLoop_done _ (fun st s => stringToLog_scan_shrinks st s s 0)
    (fun st s => stringToLog_scan_done st s s 0) _ _ _ h

theorem StringToRule_scan_done (rule : Rule) (strslice : List String) :
    ∀ (rest : List String) (index : Nat),
      (StringToRule.scan rule strslice index rest).Done := by
  intro rest
  induction rest with
  | nil => intro index; exact Outcome.Done_returned _
  | cons value rest ih =>
    intro index
    simp only [StringToRule.scan, Outcome.bind_def, Outcome.pure_def]
    repeat' first
      | exact ih _
      | exact Outcome.Done_returned _
      | exact sliceIndex_done _ _
      | exact removeSliceElement_done _ _
      | exact stringToReject_loop_ends _ _ _ (Nat.lt_succ_self _)
      | exact stringToMark_loop_ends _ _ _ (Nat.lt_succ_self _)
      | exact stringToForwardPort_loop_ends _ _ _ (Nat.lt_succ_self _)
      | exact stringToLog_loop_ends _ _ _ (Nat.lt_succ_self _)
      | apply Outcome.Done_ite
      | apply Outcome.Done_bind
      | intro _

theorem StringToRule_loop_ends (fuel : Nat) (rule : Rule) (strslice : List String)
    (h : strslice.length < fuel) : (StringToRule.loop fuel rule strslice).Done := by
  rw [StringToRule_loop_eq]
  exact Outcome.Done_map _ _ (restartLoop_done _ (fun st s => StringToRule_scan_shrinks st s s 0)
    (fun st s => StringToRule_scan_done st s s 0) _ _ _ h)

/-! ## One field per parsed source and destination -/

theorem Keeps_some {σ : Type} (P : σ → Prop) (st : σ) (s : List String) (h : P st) :
    Keeps P (some (st, s)) := by
  intro p e
  simp only [Option.some.injEq] at e
  exact e ▸ h

theorem Keeps_none {σ : Type} (P : σ → Prop) : Keeps P (none : Option (σ × List String)) := by
  intro p e; simp at e

theorem restartLoop_keeps {σ : Type}
    (scan : σ → List String → Outcome (Option (σ × List String))) (P : σ → Prop)
    (hscan : ∀ st s, P st → Outcome.All (Keeps P) (scan st s)) (fuel : Nat) :
    ∀ (st : σ) (s : List String) (st1 : σ) (s1 : List String), P st →
      restartLoop scan fuel st s = .returned (st1, s1) → P st1 := by
  induction fuel with
  | zero => intro st s st1 s1 _ h; simp [restartLoop] at h
  | succ k ih =>
    intro st s st1 s1 hP h
    simp only [restartLoop] at h
    split at h
    · simp only [Outcome.returned.injEq, Prod.mk.injEq] at h
      exact h.1 ▸ hP
    · rename_i st2 s2 e
      exact ih st2 s2 st1 s1 (hscan st s hP _ e _ rfl) h
    · simp at h
    · simp at h

theorem nonEmptyCount_one (v : String) :
    nonEmptyCount [v, "", "", ""] ≤ 1 ∧ nonEmptyCount ["", v, "", ""] ≤ 1 ∧
    nonEmptyCount ["", "", v, ""] ≤ 1 ∧ nonEmptyCount ["", "", "", v] ≤ 1 ∧
    nonEmptyCount [v, ""] ≤ 1 ∧ nonEmptyCount ["", v] ≤ 1 := by
  by_cases h : v = "" <;> simp [nonEmptyCount, List.filter_cons, h]

theorem StringToRule_scan_oneField (rule : Rule) (hP : rule.OneField) (strslice : List String) :
    ∀ (rest : List String) (index : Nat),
      Outcome.All (Keeps Rule.OneField) (StringToRule.scan rule strslice index rest) := by
  intro rest
  induction rest with
  | nil => intro index; exact Outcome.All_returned _ _ (Keeps_none _)
  | cons value rest ih =>
    intro index
    simp only [StringToRule.scan, Outcome.bind_def, Outcome.pure_def]
    repeat' first
      | exact ih _
      | exact Outcome.All_returned _ _ (Keeps_some _ _ _ hP)
      | exact Outcome.All_returned _ _ (Keeps_some _ _ _ ⟨by assumption, hP.2⟩)
      | exact Outcome.All_returned _ _ (Keeps_some _ _ _ ⟨hP.1, by assumption⟩)
      | exact Outcome.All_returned _ _ (nonEmptyCount_one _).1
      | exact Outcome.All_returned _ _ (nonEmptyCount_one _).2.1
      | exact Outcome.All_returned _ _ (nonEmptyCount_one _).2.2.1
      | exact Outcome.All_returned _ _ (nonEmptyCount_one _).2.2.2.1
      | exact Outcome.All_returned _ _ (nonEmptyCount_one _).2.2.2.2.1
      | exact Outcome.All_returned _ _ (nonEmptyCount_one _).2.2.2.2.2
      | exact Outcome.All_returned _ _ (nonEmptyCount_one "").1
      | exact Outcome.All_returned _ _ (nonEmptyCount_one "").2.2.2.2.1
      | refine Outcome.All_bind_of
          (fun s : Source => nonEmptyCount [s.Address, s.Mac, s.Ipset, s.Invert] ≤ 1) _ _ _ ?_ ?_
      | refine Outcome.All_bind_of
          (fun d : Destination => nonEmptyCount [d.Address, d.Invert] ≤ 1) _ _ _ ?_ ?_
      | apply Outcome.All_ite
      | apply Outcome.All_bind
      | intro _

theorem StringToRule_oneField (str : String) (r : Rule) (h : StringToRule str = .returned r) :
    r.OneField := by
  unfold StringToRule at h
  rw [StringToRule_loop_eq] at h
  cases e : restartLoop (fun st s => StringToRule.scan st s 0 s)
      ((strings.Split str ' ').length + 1) {} (strings.Split str ' ') with
  | returned p =>
    rw [e] at h
    simp only [Outcome.map, Outcome.returned.injEq] at h
    obtain ⟨r1, s1⟩ := p
    simp only at h
    subst h
    exact restartLoop_keeps _ Rule.OneField
      (fun st s hP => StringToRule_scan_oneField st hP s s 0) _ _ _ _ _ (by decide) e
  | fault => rw [e] at h; simp [Outcome.map] at h
  | fuelOut => rw [e] at h; simp [Outcome.map] at h

/-! ## The rendering of a rule without family -/

theorem HeadToken_append (c tail : String) (hc : HeadToken c) (ht : HeadToken tail) :
    HeadToken (c ++ tail) := by
  rcases hc with hc | ⟨tok, more, hp, hc⟩
  · rw [hc, String.empty_append]; exact ht
  · exact Or.inr ⟨tok, more ++ tail, hp, by rw [hc, String.append_assoc]⟩

theorem HeadToken_ite (c : Prop) [Decidable c] (s : String)
    (h : ∃ tok more : String, plain tok ∧ s = tok ++ " " ++ more) :
    HeadToken (if c then s else "") := by
  split
  · exact Or.inr h
  · exact Or.inl rfl

theorem Source_ToString_head (x : Source) :
    ∃ tok more : String, plain tok ∧ x.ToString = tok ++ " " ++ more :=
  ⟨"", "source " ++ ((if x.Address ≠ "" then "address=" ++ x.Address
      else if x.Mac ≠ "" then "mac=" ++ x.Mac else "ipset=" ++ x.Ipset) ++
      ((if x.Invert ≠ "" then " invert=" ++ x.Invert else "") ++ " ")), by decide, by
    apply String.ext
    unfold Source.ToString
    by_cases c1 : x.Address = "" <;> by_cases c2 : x.Mac = "" <;> by_cases c3 : x.Invert = "" <;>
      simp [c1, c2, c3]⟩

theorem Destination_ToString_head (x : Destination) :
    ∃ tok more : String, plain tok ∧ x.ToString = tok ++ " " ++ more :=
  ⟨"", "destination " ++ ((if x.Address ≠ "" then "address=" ++ x.Address else "") ++
      ((if x.Invert ≠ "" then " invert=" ++ x.Invert else "") ++ " ")), by decide, by
    apply String.ext
    unfold Destination.ToString
    by_cases c1 : x.Address = "" <;> by_cases c3 : x.Invert = "" <;> simp [c1, c3]⟩

theorem Service_ToString_head (x : Service) :
    ∃ tok more : String, plain tok ∧ x.ToString = tok ++ " " ++ more :=
  ⟨"service", (if x.Name ≠ "" then "name=" ++ x.Name else "") ++ " ", by decide, by
    apply String.ext
    unfold Service.ToString
    by_cases c1 : x.Name = "" <;> simp [c1]⟩

theorem Port_ToString_head (x : Dbus.Port) :
    ∃ tok more : String, plain tok ∧ x.ToString = tok ++ " " ++ more :=
  ⟨"port", (if x.Port ≠ "" then "name=" ++ x.Port else "") ++
      ((if x.Protocol ≠ "" then "protocol=" ++ x.Protocol else "") ++ " "), by decide, by
    apply String.ext
    unfold Port.ToString
    by_cases c1 : x.Port = "" <;> by_cases c2 : x.Protocol = "" <;> simp [c1, c2]⟩

theorem Protocol_ToString_head (x : Protocol) :
    ∃ tok more : String, plain tok ∧ x.ToString = tok ++ " " ++ more :=
  ⟨"Protocol", (if x.Value ≠ "" then "value=" ++ x.Value else "") ++ " ", by decide, by
    apply String.ext
    unfold Protocol.ToString
    by_cases c1 : x.Value = "" <;> simp [c1]⟩

theorem IcmpBlock_ToString_head (x : IcmpBlock) :
    ∃ tok more : String, plain tok ∧ x.ToString = tok ++ " " ++ more :=
  ⟨"icmp-block", (if x.Name ≠ "" then "name=" ++ x.Name else "") ++ " ", by decide, by
    apply String.ext
    unfold IcmpBlock.ToString
    by_cases c1 : x.Name = "" <;> simp [c1]⟩

theorem IcmpType_ToString_head (x : IcmpType) :
    ∃ tok more : String, plain tok ∧ x.ToString = tok ++ " " ++ more :=
  ⟨"icmp-type", (if x.Name ≠ "" then "name=" ++ x.Name else "") ++ " ", by decide, by
    apply String.ext
    unfold IcmpType.ToString
    by_cases c1 : x.Name = "" <;> simp [c1]⟩

theorem ForwardPort_ToString_head (x : ForwardPort) :
    ∃ tok more : String, plain tok ∧ x.ToString = tok ++ " " ++ more :=
  ⟨"forward-port", (if x.Port ≠ "" then "port=" ++ x.Port else "") ++
      ((if x.Protocol ≠ "" then " protocol=" ++ x.Protocol else "") ++
      ((if x.ToPort ≠ "" then " to-port=" ++ x.ToPort else "") ++
      ((if x.ToAddr ≠ "" then " to-addr=" ++ x.ToAddr else "") ++ " "))), by decide, by
    apply String.ext
    unfold ForwardPort.ToString
    by_cases c1 : x.Port = "" <;> by_cases c2 : x.Protocol = "" <;>
      by_cases c3 : x.ToPort = "" <;> by_cases c4 : x.ToAddr = "" <;> simp [c1, c2, c3, c4]⟩

theorem Log_ToString_head (x : Log) :
    ∃ tok more : String, plain tok ∧ x.ToString = tok ++ " " ++ more := by
  obtain ⟨p, lv, ⟨v⟩⟩ := x
  refine ⟨"log", String.mk ((Log.ToString ⟨p, lv, ⟨v⟩⟩).data.drop 4), by decide, ?_⟩
  apply String.ext
  by_cases c1 : p = "" <;> by_cases c2 : lv = "" <;> by_cases c3 : v = "" <;>
    simp [Log.ToString, c1, c2, c3, Limit.IsEmpty]

theorem Audit_ToString_head (x : Audit) :
    ∃ tok more : String, plain tok ∧ x.ToString = tok ++ " " ++ more := by
  obtain ⟨⟨v⟩⟩ := x
  refine ⟨"audit", String.mk ((Audit.ToString ⟨⟨v⟩⟩).data.drop 6), by decide, ?_⟩
  apply String.ext
  by_cases c3 : v = "" <;> simp [Audit.ToString, c3, Limit.IsEmpty]

theorem Accept_ToString_head (x : Accept) :
    ∃ tok more : String, plain tok ∧ x.ToString = tok ++ " " ++ more := by
  obtain ⟨flag, ⟨v⟩⟩ := x
  cases flag
  · by_cases c3 : v = ""
    · exact ⟨"", "", by decide, by apply String.ext; simp [Accept.ToString, c3, Limit.IsEmpty]⟩
    · exact ⟨"limit", "value=" ++ v ++ " ", by decide, by
        apply String.ext; simp [Accept.ToString, c3, Limit.IsEmpty]⟩
  · exact ⟨"accept", (if v ≠ "" then "limit value=" ++ v else "") ++ " ", by decide, by
      apply String.ext
      by_cases c3 : v = "" <;> simp [Accept.ToString, c3, Limit.IsEmpty]⟩

theorem Reject_ToString_head (x : Reject) :
    ∃ tok more : String, plain tok ∧ x.ToString = tok ++ " " ++ more :=
  ⟨"reject", (if x.Type_ ≠ "" then "type=" ++ x.Type_ else "") ++
      ((if x.Limit.Value ≠ "" then " limit value=" ++ x.Limit.Value else "") ++ " "),
    by decide, by
    obtain ⟨t, ⟨v⟩⟩ := x
    apply String.ext
    by_cases c1 : t = "" <;> by_cases c3 : v = "" <;>
      simp [Reject.ToString, c1, c3, Limit.IsEmpty]⟩

theorem Drop_ToString_head (x : Drop) :
    ∃ tok more : String, plain tok ∧ x.ToString = tok ++ " " ++ more := by
  obtain ⟨flag, ⟨v⟩⟩ := x
  cases flag
  · by_cases c3 : v = ""
    · exact ⟨"", "", by decide, by apply String.ext; simp [Drop.ToString, c3, Limit.IsEmpty]⟩
    · exact ⟨"limit", "value=" ++ v ++ " ", by decide, by
        apply String.ext; simp [Drop.ToString, c3, Limit.IsEmpty]⟩
  · exact ⟨"drop", (if v ≠ "" then "limit value=" ++ v else "") ++ " ", by decide, by
      apply String.ext
      by_cases c3 : v = "" <;> simp [Drop.ToString, c3, Limit.IsEmpty]⟩

theorem Mark_ToString_head (x : Mark) :
    ∃ tok more : String, plain tok ∧ x.ToString = tok ++ " " ++ more := by
  obtain ⟨st, ⟨v⟩⟩ := x
  refine ⟨"mark", String.mk ((Mark.ToString ⟨st, ⟨v⟩⟩).data.drop 5), by decide, ?_⟩
  apply String.ext
  by_cases c1 : st = "" <;> by_cases c3 : v = "" <;> simp [Mark.ToString, c1, c3, Limit.IsEmpty]

/-- After `rule`, a token without `=`, or nothing: the rule case faults. -/
theorem StringToRule_rule_head (s : String) (h : HeadToken s) :
    StringToRule ("rule " ++ s) = .fault := by
  rcases h with h | ⟨tok, more, hp, h⟩
  · subst h; decide
  · have e : "rule " ++ s = joinTokens ["rule", tok] more := by
      subst h; apply String.ext; simp [joinTokens]
    unfold StringToRule
    rw [e, strings.Split_joinTokens _ _ (by simp [hp.1])]
    simp [StringToRule.loop, StringToRule.scan, removeSliceElement, sliceIndex, bind,
      Outcome.bind, strings.Split_of_not_mem _ _ hp.2]

theorem StringToRule_ToString_family_empty (r : Rule) (h : r.Family = "") :
    StringToRule r.ToString = .fault := by
  rw [Rule.ToString_eq_append, h]
  simp only [ne_eq, not_true_eq_false, if_false, String.empty_append]
  apply StringToRule_rule_head
  refine HeadToken_append _ _ (HeadToken_ite _ _ (Source_ToString_head _)) ?_
  refine HeadToken_append _ _ (HeadToken_ite _ _ (Destination_ToString_head _)) ?_
  refine HeadToken_append _ _ (HeadToken_ite _ _ (Service_ToString_head _)) ?_
  refine HeadToken_append _ _ (HeadToken_ite _ _ (Port_ToString_head _)) ?_
  refine HeadToken_append _ _ (HeadToken_ite _ _ (Protocol_ToString_head _)) ?_
  refine HeadToken_append _ _ (HeadToken_ite _ _ (IcmpBlock_ToString_head _)) ?_
  refine HeadToken_append _ _ (HeadToken_ite _ _ (IcmpType_ToString_head _)) ?_
  refine HeadToken_append _ _ (HeadToken_ite _ _ (ForwardPort_ToString_head _)) ?_
  refine HeadToken_append _ _ (HeadToken_ite _ _ (Log_ToString_head _)) ?_
  refine HeadToken_append _ _ (HeadToken_ite _ _ (Audit_ToString_head _)) ?_
  refine HeadToken_append _ _ (HeadToken_ite _ _ (Accept_ToString_head _)) ?_
  refine HeadToken_append _ _ (HeadToken_ite _ _ (Reject_ToString_head _)) ?_
  refine HeadToken_append _ _ (HeadToken_ite _ _ (Drop_ToString_head _)) ?_
  exact HeadToken_append _ _ (HeadToken_ite _ _ (Mark_ToString_head _)) (Or.inl rfl)

/-! ## The port check -/

theorem Numeral.not_mem {s : String} (h : Numeral s) (c : Char) (hc : c.isDigit = false) :
    c ∉ s.data := by
  intro hm
  have := h.2 c hm
  rw [hc] at this
  exact Bool.noConfusion this

theorem strconv.Atoi_numeral (s : String) (h : Numeral s) :
    (strconv.Atoi s).1 =
      if digitsValue s.data ≥ 2 ^ 63 then 2 ^ 63 - 1 else digitsValue s.data := by
  obtain ⟨h0, hd⟩ := h
  cases e : s.data with
  | nil => exact absurd e h0
  | cons c cs =>
    have hc : c.isDigit = true := hd c (by simp [e])
    have h1 : c ≠ '-' := fun x => by rw [x] at hc; exact absurd hc (by decide)
    have h2 : c ≠ '+' := fun x => by rw [x] at hc; exact absurd hc (by decide)
    have hall : (c :: cs).all Char.isDigit = true := by
      rw [List.all_eq_true]
      intro x hx
      exact hd x (by rw [e]; exact hx)
    unfold strconv.Atoi
    simp only [e, List.head?_cons, Option.some.injEq, h1, h2, or_self, if_false, hall,
      not_true_eq_false, or_false, false_and, not_false_eq_true, true_and]
    simp only [reduceCtorEq, if_false]
    split <;> rfl

theorem strconv.Atoi_numeral_range (s : String) (h : Numeral s) :
    ((strconv.Atoi s).1 > 0 ∧ (strconv.Atoi s).1 ≤ 65535) ↔ inPortRange (digitsValue s.data) := by
  rw [strconv.Atoi_numeral s h]
  unfold inPortRange
  split
  · rename_i hbig
    constructor
    · intro hh; omega
    · intro hh; omega
  · constructor
    · intro hh; omega
    · intro hh; omega

theorem splitChars_head (sep : Char) (l : List Char) :
    (splitChars sep l).head? = some (l.takeWhile (fun c => decide (c ≠ sep))) := by
  induction l with
  | nil => rfl
  | cons c cs ih =>
    by_cases hc : c = sep
    · simp [splitChars, hc]
    · simp only [splitChars, hc, if_false]
      split
      · rename_i e; rw [e] at ih; simp at ih
      · rename_i t ts e
        rw [e] at ih
        simp only [List.head?_cons, Option.some.injEq] at ih
        simp [List.takeWhile_cons, hc, ih]

theorem sliceIndex_Split_head (s : String) (sep : Char) :
    sliceIndex (strings.Split s sep) 0 =
      .returned (String.mk (s.data.takeWhile (fun c => decide (c ≠ sep)))) := by
  have h := splitChars_head sep s.data
  unfold sliceIndex strings.Split
  cases e : splitChars sep s.data with
  | nil => rw [e] at h; simp at h
  | cons a as =>
    rw [e] at h
    simp only [List.head?_cons, Option.some.injEq] at h
    simp [h]

theorem takeWhile_of_not_mem (sep : Char) (l : List Char) (h : sep ∉ l) :
    l.takeWhile (fun c => decide (c ≠ sep)) = l := by
  induction l with
  | nil => rfl
  | cons c cs ih =>
    have hc : c ≠ sep := fun e => h (by simp [e])
    have hcs : sep ∉ cs := fun e => h (by simp [e])
    simp only [List.takeWhile_cons, ne_eq, hc, not_false_eq_true, decide_True, if_true, ih hcs]

theorem sliceIndex_Split_dash (a rest : String) (h : '-' ∉ a.data) :
    sliceIndex (strings.Split (a ++ "-" ++ rest) '-') 0 = .returned a ∧
    ∃ b, sliceIndex (strings.Split (a ++ "-" ++ rest) '-') 1 = .returned b := by
  have e := strings.Split_append_sep '-' a rest h
  rw [show a ++ String.singleton '-' ++ rest = a ++ "-" ++ rest from rfl] at e
  rw [e]
  have hne := splitChars_ne_nil '-' rest.data
  unfold strings.Split
  cases e2 : splitChars '-' rest.data with
  | nil => exact absurd e2 hne
  | cons b bs => exact ⟨by simp [sliceIndex], ⟨String.mk b, by simp [sliceIndex]⟩⟩

theorem checkPort_first_in_range (a rest : String) (ha : Numeral a)
    (hr : inPortRange (digitsValue a.data)) : checkPort (a ++ "-" ++ rest) = .returned none := by
  have hd : '-' ∉ a.data := ha.not_mem '-' (by decide)
  obtain ⟨k0, b, k1⟩ := sliceIndex_Split_dash a rest hd
  have hin := (strconv.Atoi_numeral_range a ha).mpr hr
  have hm : '-' ∈ (a ++ "-" ++ rest).data := by simp
  unfold checkPort
  simp only [strings.Contains, Outcome.bind_def, Outcome.pure_def, k0, k1, Outcome.returned_bind,
    sliceIndex_Split_head, hm, decide_True, if_true, hin, not_true_eq_false, false_and,
    if_false]
  split
  · split <;> rfl
  · rfl

theorem checkPort_range (a b : String) (ha : Numeral a) (hb : Numeral b) :
    checkPort (a ++ "-" ++ b) =
      .returned (if ¬ inPortRange (digitsValue a.data) ∧ ¬ inPortRange (digitsValue b.data)
        then some "port range error." else none) := by
  have hd : '-' ∉ a.data := ha.not_mem '-' (by decide)
  have hd2 : '-' ∉ b.data := hb.not_mem '-' (by decide)
  have hs : '/' ∉ (a ++ "-" ++ b).data := by
    have h1 : '/' ∉ a.data := ha.not_mem '/' (by decide)
    have h2 : '/' ∉ b.data := hb.not_mem '/' (by decide)
    simp [h1, h2]
  have hm : '-' ∈ (a ++ "-" ++ b).data := by simp
  have e := strings.Split_append_sep '-' a b hd
  rw [show a ++ String.singleton '-' ++ b = a ++ "-" ++ b from rfl,
    strings.Split_of_not_mem _ _ hd2] at e
  unfold checkPort
  simp only [strings.Contains, Outcome.bind_def, Outcome.pure_def, hs, hm, decide_True,
    decide_False, if_true, if_false, e, sliceIndex_cons_zero, sliceIndex_cons_one,
    Outcome.returned_bind, strconv.Atoi_numeral_range a ha, strconv.Atoi_numeral_range b hb,
    Bool.false_eq_true]
  split <;> rfl

theorem checkPort_no_dash (s : String)
    (h : '-' ∉ s.data.takeWhile (fun c => decide (c ≠ '/'))) : checkPort s = .returned none := by
  unfold checkPort
  by_cases hs : '/' ∈ s.data
  · simp only [strings.Contains, Outcome.bind_def, Outcome.pure_def, hs, decide_True, if_true,
      sliceIndex_Split_head, Outcome.returned_bind, h, decide_False, Bool.false_eq_true,
      if_false]
  · rw [takeWhile_of_not_mem _ _ hs] at h
    simp only [strings.Contains, hs, h, decide_False, Bool.false_eq_true, if_false,
      Outcome.pure_def]

/-- With the token `foo=bar` put in front of an input none of whose tokens is
`accept` or `drop`, the parser returns the same rule. -/
theorem StringToRule_noise_front (str : String) (r : Rule)
    (h : "accept" ∉ strings.Split str ' ' ∧ "drop" ∉ strings.Split str ' ')
    (hr : StringToRule str = .returned r) :
    StringToRule ("foo=bar " ++ str) = .returned r := by
  have e : strings.Split ("foo=bar " ++ str) ' ' = "foo=bar" :: strings.Split str ' ' := by
    have := strings.Split_append_sep ' ' "foo=bar" str (by decide)
    rw [← this]; rfl
  rw [← hr]
  unfold StringToRule
  simp only [e]
  exact StringToRule_loop_cons "foo=bar" (by decide) _ h.1 h.2

/-! ## Round trip -/

/-- C1, as amended: on every supported rule (see `Rule.Supported`: a family; a
source with one field and no invert, or no source and a destination address, or
no clause at all; a destination without invert; no port, protocol, icmp-block,
icmp-type, audit or reject clause; accept and drop empty or flagged; no action
limit next to a log clause; no value with a space or an `=`), parsing the
rendering returns, without fault, the rule itself. -/
theorem StringToRule_ToString_of_supported (r : Rule) (h : r.Supported) :
    StringToRule r.ToString = .returned r :=
  StringToRule_ToString_supported r h

/-- Witness of C1: a rule with source, destination, service, forward-port, log,
accept and mark clauses, and a rule without source, with destination, service
and accept clauses. -/
theorem StringToRule_ToString_of_supported_witness :
    (Rule.Supported
        { Family := "ipv4", Source := { Address := "10.0.0.0/24" },
          Destination := { Address := "10.0.0.1" }, Service := { Name := "ftp" },
          ForwardPort := { Port := "80", Protocol := "tcp", ToPort := "8080" },
          Log := { Prefix := "ftp", Level := "info", Limit := { Value := "1/m" } },
          Accept := { Flag := true }, Mark := { Set := "0x1" } } ∧
      StringToRule (Rule.ToString
          { Family := "ipv4", Source := { Address := "10.0.0.0/24" },
            Destination := { Address := "10.0.0.1" }, Service := { Name := "ftp" },
            ForwardPort := { Port := "80", Protocol := "tcp", ToPort := "8080" },
            Log := { Prefix := "ftp", Level := "info", Limit := { Value := "1/m" } },
            Accept := { Flag := true }, Mark := { Set := "0x1" } }) =
        .returned
          { Family := "ipv4", Source := { Address := "10.0.0.0/24" },
            Destination := { Address := "10.0.0.1" }, Service := { Name := "ftp" },
            ForwardPort := { Port := "80", Protocol := "tcp", ToPort := "8080" },
            Log := { Prefix := "ftp", Level := "info", Limit := { Value := "1/m" } },
            Accept := { Flag := true }, Mark := { Set := "0x1" } }) ∧
    (Rule.Supported
        { Family := "ipv4", Destination := { Address := "10.0.0.1" },
          Service := { Name := "ftp" }, Accept := { Flag := true } } ∧
      StringToRule (Rule.ToString
          { Family := "ipv4", Destination := { Address := "10.0.0.1" },
            Service := { Name := "ftp" }, Accept := { Flag := true } }) =
        .returned
          { Family := "ipv4", Destination := { Address := "10.0.0.1" },
            Service := { Name := "ftp" }, Accept := { Flag := true } }) :=
  have h : Rule.Supported
        { Family := "ipv4", Source := { Address := "10.0.0.0/24" },
          Destination := { Address := "10.0.0.1" }, Service := { Name := "ftp" },
          ForwardPort := { Port := "80", Protocol := "tcp", ToPort := "8080" },
          Log := { Prefix := "ftp", Level := "info", Limit := { Value := "1/m" } },
          Accept := { Flag := true }, Mark := { Set := "0x1" } } :=
    { family_ne := by decide, family := by decide, source := by decide,
      source_address := by decide, source_mac := by decide, source_ipset := by decide,
      destination_invert := by decide, destination_address := by decide,
      service := by decide, port := by decide, protocol := by decide,
      icmpBlock := by decide, icmpType := by decide, forwardPort_port := by decide,
      forwardPort_protocol := by decide, forwardPort_toPort := by decide,
      forwardPort_toAddr := by decide, log_prefix := by decide, log_level := by decide,
      log_limit := by decide, log_alone := by decide, audit := by decide,
      accept_flag := by decide, accept_limit := by decide, reject := by decide,
      drop_flag := by decide, drop_limit := by decide, mark_set := by decide,
      mark_limit := by decide }
  have h2 : Rule.Supported
        { Family := "ipv4", Destination := { Address := "10.0.0.1" },
          Service := { Name := "ftp" }, Accept := { Flag := true } } :=
    { family_ne := by decide, family := by decide, source := by decide,
      source_address := by decide, source_mac := by decide, source_ipset := by decide,
      destination_invert := by decide, destination_address := by decide,
      service := by decide, port := by decide, protocol := by decide,
      icmpBlock := by decide, icmpType := by decide, forwardPort_port := by decide,
      forwardPort_protocol := by decide, forwardPort_toPort := by decide,
      forwardPort_toAddr := by decide, log_prefix := by decide, log_level := by decide,
      log_limit := by decide, log_alone := by decide, audit := by decide,
      accept_flag := by decide, accept_limit := by decide, reject := by decide,
      drop_flag := by decide, drop_limit := by decide, mark_set := by decide,
      mark_limit := by decide }
  ⟨⟨h, StringToRule_ToString_of_supported _ h⟩, ⟨h2, StringToRule_ToString_of_supported _ h2⟩⟩

/-- C1 fails as stated: the source address `a=b` has no space, yet the rule
does not come back: the parser splits the token `address=a=b` on `=` and keeps
the part `a`. -/
theorem StringToRule_ToString_equals_sign :
    StringToRule (Rule.ToString { Family := "ipv4", Source := { Address := "a=b" } }) =
      .returned { Family := "ipv4", Source := { Address := "a" } } ∧
    StringToRule (Rule.ToString { Family := "ipv4", Source := { Address := "a=b" } }) ≠
      .returned { Family := "ipv4", Source := { Address := "a=b" } } := by
  decide

/-! ## The serializer -/

/-- C2: for non-empty `f`, `a`, `n` the rule with family `f`, source address `a`,
service name `n` and the accept flag renders as
`rule family=f source address=a service name=n accept` followed by two spaces. -/
theorem Rule.ToString_family_source_service_accept (f a n : String)
    (hf : f ≠ "") (ha : a ≠ "") (hn : n ≠ "") :
    Rule.ToString
        { Family := f, Source := { Address := a }, Service := { Name := n },
          Accept := { Flag := true } } =
      "rule family=" ++ f ++ " source address=" ++ a ++ " service name=" ++ n ++ " accept  " := by
  apply String.ext
  simp [Rule.ToString, Source.IsEmpty, Destination.IsEmpty, Service.IsEmpty, Port.IsEmpty,
    Protocol.IsEmpty, IcmpBlock.IsEmpty, IcmpType.IsEmpty, ForwardPort.IsEmpty, Log.IsEmpty,
    Audit.IsEmpty, Accept.IsEmpty, Reject.IsEmpty, Drop.IsEmpty, Mark.IsEmpty, Limit.IsEmpty,
    Source.ToString, Service.ToString, Accept.ToString, hf, ha, hn]

/-- Witness of C2 at the spec's scenario 1: `ipv4`, `10.0.0.0/24`, `ftp`. -/
theorem Rule.ToString_family_source_service_accept_witness :
    ("ipv4" ≠ "" ∧ "10.0.0.0/24" ≠ "" ∧ "ftp" ≠ "") ∧
    Rule.ToString
        { Family := "ipv4", Source := { Address := "10.0.0.0/24" }, Service := { Name := "ftp" },
          Accept := { Flag := true } } =
      "rule family=ipv4 source address=10.0.0.0/24 service name=ftp accept  " :=
  ⟨by decide, Rule.ToString_family_source_service_accept "ipv4" "10.0.0.0/24" "ftp"
    (by decide) (by decide) (by decide)⟩

/-- C4: `Rule.ToString` is `rule `, then `family=` and the family when it is not
empty, then the renderings of the non-empty clauses in the fixed order source,
destination, service, port, protocol, icmp-block, icmp-type, forward-port, log,
audit, accept, reject, drop, mark; the zero rule renders as `rule `. -/
theorem Rule.ToString_fixed_order (r : Rule) :
    r.ToString =
      "rule " ++ (if r.Family ≠ "" then "family=" ++ r.Family else "") ++
        String.join [
          if ¬ r.Source.IsEmpty then r.Source.ToString else "",
          if ¬ r.Destination.IsEmpty then r.Destination.ToString else "",
          if ¬ r.Service.IsEmpty then r.Service.ToString else "",
          if ¬ r.Port.IsEmpty then r.Port.ToString else "",
          if ¬ r.Protocol.IsEmpty then r.Protocol.ToString else "",
          if ¬ r.IcmpBlock.IsEmpty then r.IcmpBlock.ToString else "",
          if ¬ r.IcmpType.IsEmpty then r.IcmpType.ToString else "",
          if ¬ r.ForwardPort.IsEmpty then r.ForwardPort.ToString else "",
          if ¬ r.Log.IsEmpty then r.Log.ToString else "",
          if ¬ r.Audit.IsEmpty then r.Audit.ToString else "",
          if ¬ r.Accept.IsEmpty then r.Accept.ToString else "",
          if ¬ r.Reject.IsEmpty then r.Reject.ToString else "",
          if ¬ r.Drop.IsEmpty then r.Drop.ToString else "",
          if ¬ r.Mark.IsEmpty then r.Mark.ToString else ""] ∧
    Rule.ToString {} = "rule " := by
  refine ⟨?_, by decide⟩
  unfold Rule.ToString
  simp -zeta only [ite_append_right]
  simp only [String.join, List.foldl, String.append_assoc, String.empty_append]

/-- C5: for each of the fifteen clause types, `IsEmpty` is true exactly when
every field is zero (the empty string, `false`, an empty nested `Limit`); so an
`Accept` or `Drop` with `Flag = false` and a non-empty limit is not empty. -/
theorem IsEmpty_iff_all_fields_zero :
    (∀ x : Source, x.IsEmpty = true ↔
      x.Address = "" ∧ x.Mac = "" ∧ x.Ipset = "" ∧ x.Invert = "") ∧
    (∀ x : Destination, x.IsEmpty = true ↔ x.Address = "" ∧ x.Invert = "") ∧
    (∀ x : Service, x.IsEmpty = true ↔ x.Name = "") ∧
    (∀ x : Dbus.Port, x.IsEmpty = true ↔ x.Port = "" ∧ x.Protocol = "") ∧
    (∀ x : Protocol, x.IsEmpty = true ↔ x.Value = "") ∧
    (∀ x : IcmpBlock, x.IsEmpty = true ↔ x.Name = "") ∧
    (∀ x : IcmpType, x.IsEmpty = true ↔ x.Name = "") ∧
    (∀ x : ForwardPort, x.IsEmpty = true ↔
      x.Port = "" ∧ x.Protocol = "" ∧ x.ToPort = "" ∧ x.ToAddr = "") ∧
    (∀ x : Log, x.IsEmpty = true ↔ x.Prefix = "" ∧ x.Level = "" ∧ x.Limit.IsEmpty = true) ∧
    (∀ x : Audit, x.IsEmpty = true ↔ x.Limit.IsEmpty = true) ∧
    (∀ x : Accept, x.IsEmpty = true ↔ x.Flag = false ∧ x.Limit.IsEmpty = true) ∧
    (∀ x : Reject, x.IsEmpty = true ↔ x.Type_ = "" ∧ x.Limit.IsEmpty = true) ∧
    (∀ x : Drop, x.IsEmpty = true ↔ x.Flag = false ∧ x.Limit.IsEmpty = true) ∧
    (∀ x : Mark, x.IsEmpty = true ↔ x.Set = "" ∧ x.Limit.IsEmpty = true) ∧
    (∀ x : Limit, x.IsEmpty = true ↔ x.Value = "") := by
  refine ⟨?_, ?_, ?_, ?_, ?_, ?_, ?_, ?_, ?_, ?_, ?_, ?_, ?_, ?_, ?_⟩ <;> intro x <;> cases x <;>
    simp [Source.IsEmpty, Destination.IsEmpty, Service.IsEmpty, Port.IsEmpty, Protocol.IsEmpty,
      IcmpBlock.IsEmpty, IcmpType.IsEmpty, ForwardPort.IsEmpty, Log.IsEmpty, Audit.IsEmpty,
      Accept.IsEmpty, Reject.IsEmpty, Drop.IsEmpty, Mark.IsEmpty, Limit.IsEmpty]

/-- C6: a `Source` with a non-empty `Address` renders as ` source address=`, the
address, ` invert=` and the invert value when that is not empty, and one space,
whatever `Mac` and `Ipset` hold. -/
theorem Source.ToString_address_wins (s : Source) (h : s.Address ≠ "") :
    s.ToString =
      " source address=" ++ s.Address ++ (if s.Invert ≠ "" then " invert=" ++ s.Invert else "")
        ++ " " := by
  apply String.ext
  by_cases hi : s.Invert = "" <;> simp [Source.ToString, h, hi]

/-- Witness of C6: address and mac both set, only `address=` is rendered. -/
theorem Source.ToString_address_wins_witness :
    "10.0.0.1" ≠ "" ∧
    Source.ToString { Address := "10.0.0.1", Mac := "aa:bb:cc:dd:ee:ff" } =
      " source address=10.0.0.1 " :=
  ⟨by decide,
    Source.ToString_address_wins { Address := "10.0.0.1", Mac := "aa:bb:cc:dd:ee:ff" }
      (by decide)⟩

/-- C7 fails on the claim's own example: the rule with family `ipv4` and service
`ftp` renders with no space between the family and the keyword, so the tokens
are `rule`, `family=ipv4service`, `name=ftp` and the empty token; neither
`family=ipv4` nor `service` is among them. -/
theorem Rule.ToString_family_service_tokens :
    Rule.ToString { Family := "ipv4", Service := { Name := "ftp" } } =
      "rule family=ipv4service name=ftp " ∧
    strings.Split (Rule.ToString { Family := "ipv4", Service := { Name := "ftp" } }) ' ' =
      ["rule", "family=ipv4service", "name=ftp", ""] ∧
    "family=ipv4" ∉
      strings.Split (Rule.ToString { Family := "ipv4", Service := { Name := "ftp" } }) ' ' ∧
    "service" ∉
      strings.Split (Rule.ToString { Family := "ipv4", Service := { Name := "ftp" } }) ' ' := by
  decide

/-- C8 fails: `Port.ToString` puts no space between the port and `protocol=`;
port `80` with protocol `tcp` renders as `port name=80protocol=tcp `. -/
theorem Port.ToString_no_space_before_protocol :
    Port.ToString { Port := "80", Protocol := "tcp" } = "port name=80protocol=tcp " ∧
    Port.ToString { Port := "80", Protocol := "tcp" } ≠ "port name=80 protocol=tcp " := by
  decide

/-- C9 fails: `Protocol.ToString` starts with the capitalised word `Protocol`,
not with the keyword `protocol`; the value `tcp` renders as
`Protocol value=tcp `. -/
theorem Protocol.ToString_capitalised :
    Protocol.ToString { Value := "tcp" } = "Protocol value=tcp " ∧
    Protocol.ToString { Value := "tcp" } ≠ "protocol value=tcp " := by
  decide

/-- C10: the rule whose only non-zero field is an `Accept` with `Flag = false`
and the non-empty limit `v` renders as `rule limit value=v ` with no `accept`
keyword, and the same holds for `Drop`. -/
theorem Rule.ToString_dangling_limit (v : String) (hv : v ≠ "") :
    Rule.ToString { Accept := { Flag := false, Limit := { Value := v } } } =
      "rule limit value=" ++ v ++ " " ∧
    Rule.ToString { Drop := { Flag := false, Limit := { Value := v } } } =
      "rule limit value=" ++ v ++ " " := by
  constructor <;> apply String.ext <;>
  simp [Rule.ToString, Source.IsEmpty, Destination.IsEmpty, Service.IsEmpty, Port.IsEmpty,
    Protocol.IsEmpty, IcmpBlock.IsEmpty, IcmpType.IsEmpty, ForwardPort.IsEmpty, Log.IsEmpty,
    Audit.IsEmpty, Accept.IsEmpty, Reject.IsEmpty, Drop.IsEmpty, Mark.IsEmpty, Limit.IsEmpty,
    Accept.ToString, Drop.ToString, hv]

/-- Witness of C10 at the limit `1/m`. -/
theorem Rule.ToString_dangling_limit_witness :
    "1/m" ≠ "" ∧
    Rule.ToString { Accept := { Flag := false, Limit := { Value := "1/m" } } } =
      "rule limit value=1/m " ∧
    Rule.ToString { Drop := { Flag := false, Limit := { Value := "1/m" } } } =
      "rule limit value=1/m " :=
  ⟨by decide, Rule.ToString_dangling_limit "1/m" (by decide)⟩

/-! ## The parser on given inputs -/

/-- C3: for `f`, `p`, `q` with no space and no `=`, `StringToRule` on
`rule family=f port name=p protocol=q accept ` (trailing space) returns the rule
with family `f`, port `p` with protocol `q`, the accept flag set, and every
other field zero. -/
theorem StringToRule_family_port_accept (f p q : String)
    (hf : plain f) (hp : plain p) (hq : plain q) :
    StringToRule ("rule family=" ++ f ++ " port name=" ++ p ++ " protocol=" ++ q ++ " accept ") =
      .returned
        { Family := f, Port := { Port := p, Protocol := q }, Accept := { Flag := true } } := by
  have k1 := strings.Split_key_value "family" f (by decide) hf.2
  have k2 := strings.Split_key_value "name" p (by decide) hp.2
  have k3 := strings.Split_key_value "protocol" q (by decide) hq.2
  simp only [String.reduceAppend] at k1 k2 k3
  have s1 : '=' ∈ ("protocol=" ++ q).data := by simp
  unfold StringToRule
  rw [tokens_family_port_accept f p q hf.1 hp.1 hq.1]
  simp [StringToRule.loop, StringToRule.scan, removeSliceElement, sliceIndex, bind, Outcome.bind,
    pure, k1, k2, k3, ne_keywords _ s1]

/-- Witness of C3 at the spec's scenario 2: `ipv4`, `80`, `tcp`. -/
theorem StringToRule_family_port_accept_witness :
    (plain "ipv4" ∧ plain "80" ∧ plain "tcp") ∧
    StringToRule "rule family=ipv4 port name=80 protocol=tcp accept " =
      .returned
        { Family := "ipv4", Port := { Port := "80", Protocol := "tcp" },
          Accept := { Flag := true } } :=
  ⟨by decide,
    StringToRule_family_port_accept "ipv4" "80" "tcp" (by decide) (by decide) (by decide)⟩

/-! ## The parser on malformed, noisy and reordered inputs -/

/-- C11: for `t` with no space and no `=`, other than `type` and `limit`,
`StringToRule` on `rule family=ipv4 reject type=t` returns the rule with family
`ipv4` and an empty reject clause: `stringToReject` compares the text after the
`=` with `type` and `limit`, so the type is never stored. -/
theorem StringToRule_reject_type (t : String) (ht : plain t) (h1 : t ≠ "type")
    (h2 : t ≠ "limit") :
    StringToRule ("rule family=ipv4 reject type=" ++ t) = .returned { Family := "ipv4" } := by
  have k0 : strings.Split "family=ipv4" '=' = ["family", "ipv4"] := by decide
  have k1 := strings.Split_key_value "type" t (by decide) ht.2
  simp only [String.reduceAppend] at k1
  have s1 : '=' ∈ ("type=" ++ t).data := by simp
  unfold StringToRule
  rw [tokens_reject_type t ht.1]
  simp [StringToRule.loop, StringToRule.scan, stringToReject, stringToReject.loop,
    stringToReject.scan, removeSliceElement, sliceIndex, bind, Outcome.bind,
    pure, k0, k1, h1, h2, ne_keywords _ s1]

/-- Witness of C11 at the spec's input, `t = icmp-host-prohibited`. -/
theorem StringToRule_reject_type_witness :
    (plain "icmp-host-prohibited" ∧ "icmp-host-prohibited" ≠ "type" ∧
      "icmp-host-prohibited" ≠ "limit") ∧
    StringToRule "rule family=ipv4 reject type=icmp-host-prohibited" =
      .returned { Family := "ipv4" } :=
  ⟨by decide,
    StringToRule_reject_type "icmp-host-prohibited" (by decide) (by decide) (by decide)⟩

/-- C12: for `f`, `s`, `x` with no space, `StringToRule` on
`rule family=f mark set=s limit=x` faults: `stringToMark` removes the token
`limit=x`, which was the last one, and then indexes the slice at its place. -/
theorem StringToRule_mark_limit (f s x : String) (hf : ' ' ∉ f.data) (hs : ' ' ∉ s.data)
    (hx : ' ' ∉ x.data) :
    StringToRule ("rule family=" ++ f ++ " mark set=" ++ s ++ " limit=" ++ x) = .fault := by
  have k0 := sliceIndex_Split_one ("family=" ++ f) (by simp)
  have k1 := sliceIndex_Split_zero ("set=" ++ s)
  have k2 := sliceIndex_Split_one ("set=" ++ s) (by simp)
  have k3 := sliceIndex_Split_zero ("limit=" ++ x)
  have f1 := (firstPart_keys s).2.2.2
  have f2 := firstPart_key_value "limit" x (by decide)
  simp only [String.reduceAppend] at f2
  rw [f1] at k1
  rw [f2] at k3
  unfold StringToRule
  rw [tokens_mark_limit f s x hf hs hx]
  simp [StringToRule.loop, StringToRule.scan, stringToMark, stringToMark.loop,
    stringToMark.scan, removeSliceElement, bind, Outcome.bind,
    pure, k0, k1, k2, k3, sliceIndex_cons_zero, sliceIndex_cons_one]
  simp [sliceIndex]

/-- Witness of C12 at the spec's scenario 3: `ipv4`, `0x1`, `value=3/m`. -/
theorem StringToRule_mark_limit_witness :
    (' ' ∉ "ipv4".data ∧ ' ' ∉ "0x1".data ∧ ' ' ∉ "value=3/m".data) ∧
    StringToRule "rule family=ipv4 mark set=0x1 limit=value=3/m" = .fault :=
  ⟨by decide, StringToRule_mark_limit "ipv4" "0x1" "value=3/m" (by decide) (by decide)
    (by decide)⟩

/-- C13 fails on the claim's own example: with `foo=bar` in front of it, `accept`
is the last token and is reached at index 1; the guard `len(strslice) > 0`
passes on the slice `[foo=bar]` and `strslice[1]` faults. Without the extra
token the input parses, and where the guard is not involved the extra token is
discarded: with a token after `accept`, after `accept`, in front of a port
clause and after it. -/
theorem StringToRule_noise_before_accept :
    StringToRule "rule family=ipv4 accept" =
      .returned { Family := "ipv4", Accept := { Flag := true } } ∧
    StringToRule "rule family=ipv4 foo=bar accept" = .fault ∧
    StringToRule "rule family=ipv4 foo=bar accept " =
      .returned { Family := "ipv4", Accept := { Flag := true } } ∧
    StringToRule "rule family=ipv4 accept foo=bar" =
      .returned { Family := "ipv4", Accept := { Flag := true } } ∧
    StringToRule "rule family=ipv4 foo=bar port name=80 protocol=tcp" =
      .returned { Family := "ipv4", Port := { Port := "80", Protocol := "tcp" } } ∧
    StringToRule "rule family=ipv4 port name=80 protocol=tcp foo=bar" =
      .returned { Family := "ipv4", Port := { Port := "80", Protocol := "tcp" } } := by
  decide

/-- C14: on an input none of whose tokens is one of the fifteen keywords,
`StringToRule` returns the zero rule. -/
theorem StringToRule_no_keyword (str : String)
    (h : ∀ t ∈ strings.Split str ' ', t ∉ keywords) : StringToRule str = .returned {} := by
  unfold StringToRule
  exact StringToRule_loop_done _ _ _ h

/-- Witness of C14 on `foo=bar baz limit value=1`. -/
theorem StringToRule_no_keyword_witness :
    (∀ t ∈ strings.Split "foo=bar baz limit value=1" ' ', t ∉ keywords) ∧
    StringToRule "foo=bar baz limit value=1" = .returned {} :=
  ⟨by decide, StringToRule_no_keyword "foo=bar baz limit value=1" (by decide)⟩

/-- C15 fails on the claim's own example: `accept` (and `drop`) as the last
token faults when a token is left in front of it, here `protocol=tcp`: the
guard tests `len(strslice) > 0` and then indexes `strslice[index]` with
`index = 1`. With nothing left in front the same keyword is accepted. -/
theorem StringToRule_accept_last_faults :
    StringToRule "rule family=ipv4 port name=80 protocol=tcp accept" = .fault ∧
    StringToRule "rule family=ipv4 port name=80 protocol=tcp drop" = .fault ∧
    StringToRule "rule family=ipv4 accept" =
      .returned { Family := "ipv4", Accept := { Flag := true } } := by
  decide

/-- C16 fails: after removing the keyword, the `protocol`, `icmp-block` and
`icmp-type` cases index `strslice[index+1]`, the second token after the
keyword. With one token after the keyword they fault; with two, the value
comes from the second. -/
theorem StringToRule_protocol_reads_second_token :
    StringToRule "rule family=ipv4 protocol value=tcp" = .fault ∧
    StringToRule "rule family=ipv4 icmp-block name=echo-request" = .fault ∧
    StringToRule "rule family=ipv4 icmp-type name=echo-request" = .fault ∧
    StringToRule "rule family=ipv4 protocol value=tcp a=b" =
      .returned { Family := "ipv4", Protocol := { Value := "b" } } := by
  decide

/-- C17: on the input that is one of the keywords `rule`, `source`,
`destination`, `service`, `port`, `protocol`, `icmp-block`, `icmp-type`, `audit`
and nothing else, `StringToRule` faults. -/
theorem StringToRule_keyword_alone_faults :
    StringToRule "rule" = .fault ∧ StringToRule "source" = .fault ∧
    StringToRule "destination" = .fault ∧ StringToRule "service" = .fault ∧
    StringToRule "port" = .fault ∧ StringToRule "protocol" = .fault ∧
    StringToRule "icmp-block" = .fault ∧ StringToRule "icmp-type" = .fault ∧
    StringToRule "audit" = .fault := by
  decide

/-- C18: for `f`, `a`, `n` with no space and no `=`, the four clauses
`rule family=f`, `source address=a`, `service name=n` and `accept`, joined by
single spaces in any order, parse to the rule with family `f`, source address
`a`, service name `n` and the accept flag. -/
theorem StringToRule_clauses_any_order (f a n : String) (hf : plain f) (ha : plain a)
    (hn : plain n) (l : List String)
    (hl : l.Perm ["rule family=" ++ f, "source address=" ++ a, "service name=" ++ n,
      "accept"]) :
    StringToRule (String.intercalate " " l) =
      .returned
        { Family := f, Source := { Address := a }, Service := { Name := n },
          Accept := { Flag := true } } := by
  obtain ⟨n1, n2, n3, n4, n5, n6⟩ := clause_ne f a n
  have hmem : ∀ c ∈ l, c ∈ ["rule family=" ++ f, "source address=" ++ a,
      "service name=" ++ n, "accept"] := fun c hc => hl.mem_iff.mp hc
  have hfold := List.Perm.foldl_eq' hl
    (fun x hx y hy z => setClause_comm f a n x y z (hmem x hx) (hmem y hy)) ({} : Rule)
  have hval : List.foldl (setClause f a n) ({} : Rule)
      ["rule family=" ++ f, "source address=" ++ a, "service name=" ++ n, "accept"] =
      { Family := f, Source := { Address := a }, Service := { Name := n },
        Accept := { Flag := true } } := by
    simp [setClause, n1, n2, n3, n4, n5, n6]
  have hlen : l.length = 4 := hl.length_eq
  cases l with
  | nil => simp at hlen
  | cons c cs =>
    unfold StringToRule
    rw [strings.Split_intercalate]
    have h := StringToRule_loop_clauses f a n hf ha hn (c :: cs) hmem {} ((c :: cs).length + 1)
      (Nat.lt_succ_self _)
    rw [hfold, hval] at h
    refine StringToRule_loop_mono _ _ _ _ _ ?_ h
    have : (c :: cs).length ≤
        ((c :: cs).flatMap (fun c => strings.Split c ' ')).length := by
      clear h hfold hlen hl hmem
      induction (c :: cs) with
      | nil => simp
      | cons d ds ih =>
        have hd : 0 < (strings.Split d ' ').length := by
          unfold strings.Split
          have := splitChars_ne_nil ' ' d.data
          simp only [List.length_map]
          exact List.length_pos.mpr this
        have := ih
        simp only [List.flatMap_cons, List.length_append, List.length_cons]
        omega
    omega

/-- Witness of C18 in the order accept, source, rule, service. -/
theorem StringToRule_clauses_any_order_witness :
    (plain "ipv4" ∧ plain "10.0.0.1" ∧ plain "ftp") ∧
    StringToRule "accept source address=10.0.0.1 rule family=ipv4 service name=ftp" =
      .returned
        { Family := "ipv4", Source := { Address := "10.0.0.1" }, Service := { Name := "ftp" },
          Accept := { Flag := true } } :=
  ⟨by decide,
    StringToRule_clauses_any_order "ipv4" "10.0.0.1" "ftp" (by decide) (by decide) (by decide)
      ["accept", "source address=10.0.0.1", "rule family=ipv4", "service name=ftp"]
      (by decide)⟩

/-- C19 fails: on `rule family=ipv4 source address=10.0.0.1 invert=true` the
returned source has the address and an empty `Invert`: the source case reads the
one token after the keyword, although its switch has a case `invert`. So the
parser does not read the `invert` that `Source.ToString` writes after the
address, and the same holds for the destination. -/
theorem StringToRule_source_invert_dropped :
    StringToRule "rule family=ipv4 source address=10.0.0.1 invert=true" =
      .returned { Family := "ipv4", Source := { Address := "10.0.0.1" } } ∧
    ({ Family := "ipv4", Source := { Address := "10.0.0.1" } } : Rule).Source.Invert ≠
      "true" ∧
    Rule.ToString { Family := "ipv4", Source := { Address := "10.0.0.1", Invert := "true" } } =
      "rule family=ipv4 source address=10.0.0.1 invert=true " ∧
    StringToRule "rule family=ipv4 source address=10.0.0.1 invert=true " =
      .returned { Family := "ipv4", Source := { Address := "10.0.0.1" } } ∧
    StringToRule "rule family=ipv4 source invert=true" =
      .returned { Family := "ipv4", Source := { Invert := "true" } } ∧
    StringToRule "rule family=ipv4 destination address=10.0.0.1 invert=true" =
      .returned { Family := "ipv4", Destination := { Address := "10.0.0.1" } } := by
  decide

/-- C20 fails: the audit case splits the token after the keyword on `=` and
takes the second part, but that token is `limit`; the parser faults on the
audit clause of the grammar, which is also what `Audit.ToString` writes. -/
theorem StringToRule_audit_faults :
    StringToRule "rule family=ipv4 audit limit value=1/m" = .fault ∧
    Rule.ToString
        { Family := "ipv4", Source := { Address := "10.0.0.1" },
          Audit := { Limit := { Value := "1/m" } } } =
      "rule family=ipv4 source address=10.0.0.1 audit limit value=1/m " ∧
    StringToRule "rule family=ipv4 source address=10.0.0.1 audit limit value=1/m " =
      .fault := by
  decide

/-! ## The parser on further inputs -/

/-- C21: for `f`, `v` with no space and no `=`, `StringToRule` on
`rule family=f accept limit value=v` returns the rule with family `f` and the
accept clause with its flag set and the limit `v`, and on
`rule family=f drop limit value=v` the same with the drop clause; every other
clause is empty. -/
theorem StringToRule_action_limit (f v : String) (hf : plain f) (hv : plain v) :
    StringToRule ("rule family=" ++ f ++ " accept limit value=" ++ v) =
      .returned { Family := f, Accept := { Flag := true, Limit := { Value := v } } } ∧
    StringToRule ("rule family=" ++ f ++ " drop limit value=" ++ v) =
      .returned { Family := f, Drop := { Flag := true, Limit := { Value := v } } } := by
  have k0 := strings.Split_key_value "family" f (by decide) hf.2
  have k1 := strings.Split_key_value "value" v (by decide) hv.2
  simp only [String.reduceAppend] at k0 k1
  have s1 : '=' ∈ ("value=" ++ v).data := by simp
  have t1 := tokens_accept_limit "accept" f v (by decide) hf.1 hv.1
  have t2 := tokens_accept_limit "drop" f v (by decide) hf.1 hv.1
  have e1 : "rule family=" ++ f ++ " accept limit value=" ++ v =
      "rule family=" ++ f ++ " " ++ "accept" ++ " limit value=" ++ v := by
    apply String.ext; simp
  have e2 : "rule family=" ++ f ++ " drop limit value=" ++ v =
      "rule family=" ++ f ++ " " ++ "drop" ++ " limit value=" ++ v := by
    apply String.ext; simp
  constructor
  · unfold StringToRule
    rw [e1, t1]
    simp [StringToRule.loop, StringToRule.scan, removeSliceElement, sliceIndex, bind,
      Outcome.bind, pure, k0, k1, ne_keywords _ s1]
  · unfold StringToRule
    rw [e2, t2]
    simp [StringToRule.loop, StringToRule.scan, removeSliceElement, sliceIndex, bind,
      Outcome.bind, pure, k0, k1, ne_keywords _ s1]

/-- Witness of C21 at the family `ipv4` and the limit `1/m`. -/
theorem StringToRule_action_limit_witness :
    (plain "ipv4" ∧ plain "1/m") ∧
    StringToRule "rule family=ipv4 accept limit value=1/m" =
      .returned { Family := "ipv4", Accept := { Flag := true, Limit := { Value := "1/m" } } } ∧
    StringToRule "rule family=ipv4 drop limit value=1/m" =
      .returned { Family := "ipv4", Drop := { Flag := true, Limit := { Value := "1/m" } } } :=
  ⟨by decide, StringToRule_action_limit "ipv4" "1/m" (by decide) (by decide)⟩

/-! ## Round trips that work and round trips that fault -/

/-- C22: for `f`, `a`, `n` with no space and no `=`, `f` and `a` non-empty,
parsing the rendering of the rule with family `f`, source address `a`, service
name `n` and the accept flag returns, without fault, that rule, equal in every
field. (The claim also takes `n` non-empty; the round trip holds without.) -/
theorem StringToRule_ToString_scenario (f a n : String) (hf : plain f) (ha : plain a)
    (hn : plain n) (hf0 : f ≠ "") (ha0 : a ≠ "") :
    StringToRule (Rule.ToString
        { Family := f, Source := { Address := a }, Service := { Name := n },
          Accept := { Flag := true } }) =
      .returned
        { Family := f, Source := { Address := a }, Service := { Name := n },
          Accept := { Flag := true } } := by
  have e : plain "" := by decide
  exact StringToRule_ToString_supported _
    { family_ne := hf0, family := hf, source := Or.inl ⟨rfl, Or.inl ⟨ha0, rfl, rfl⟩⟩,
      source_address := ha, source_mac := e, source_ipset := e,
      destination_invert := rfl, destination_address := e,
      service := hn, port := rfl, protocol := rfl,
      icmpBlock := rfl, icmpType := rfl, forwardPort_port := e,
      forwardPort_protocol := e, forwardPort_toPort := e,
      forwardPort_toAddr := e, log_prefix := e, log_level := e,
      log_limit := e, log_alone := fun _ => ⟨rfl, rfl, rfl⟩, audit := rfl,
      accept_flag := Or.inl rfl, accept_limit := e, reject := rfl,
      drop_flag := Or.inr rfl, drop_limit := e, mark_set := e,
      mark_limit := e }

/-- Witness of C22 at the spec's scenario 1: `ipv4`, `10.0.0.0/24`, `ftp`. -/
theorem StringToRule_ToString_scenario_witness :
    (plain "ipv4" ∧ plain "10.0.0.0/24" ∧ plain "ftp" ∧ "ipv4" ≠ "" ∧ "10.0.0.0/24" ≠ "") ∧
    StringToRule (Rule.ToString
        { Family := "ipv4", Source := { Address := "10.0.0.0/24" }, Service := { Name := "ftp" },
          Accept := { Flag := true } }) =
      .returned
        { Family := "ipv4", Source := { Address := "10.0.0.0/24" }, Service := { Name := "ftp" },
          Accept := { Flag := true } } :=
  ⟨by decide, StringToRule_ToString_scenario "ipv4" "10.0.0.0/24" "ftp" (by decide) (by decide)
    (by decide) (by decide) (by decide)⟩

/-- C26: for non-empty `f`, `a`, `p`, `v` with no space and no `=`, parsing the
rendering of the rule with family `f`, source address `a`, log prefix `p` and
an accept clause with the limit `v` returns the rule in which the limit `v` is
the limit of the log clause, and the accept clause has its flag and no limit:
the log sub-parser scans all the remaining tokens and takes the `limit` that
follows `accept`. -/
theorem StringToRule_log_takes_limit (f a p v : String) (hf : plain f) (ha : plain a)
    (hp : plain p) (hv : plain v) (hf0 : f ≠ "") (ha0 : a ≠ "") (hp0 : p ≠ "") (hv0 : v ≠ "") :
    StringToRule (Rule.ToString
        { Family := f, Source := { Address := a }, Log := { Prefix := p },
          Accept := { Flag := true, Limit := { Value := v } } }) =
      .returned
        { Family := f, Source := { Address := a },
          Log := { Prefix := p, Limit := { Value := v } }, Accept := { Flag := true } } := by
  have k0 := strings.Split_key_value "family" f (by decide) hf.2
  have k1 := strings.Split_key_value "address" a (by decide) ha.2
  have k2 := strings.Split_key_value "prefix" p (by decide) hp.2
  have k3 := strings.Split_key_value "value" v (by decide) hv.2
  simp only [String.reduceAppend] at k0 k1 k2 k3
  have k4 : strings.Split "accept" '=' = ["accept"] := by decide
  have k5 : strings.Split "limit" '=' = ["limit"] := by decide
  have k6 : strings.Split "" '=' = [""] := by decide
  unfold StringToRule
  rw [tokens_log_steals f a p v hf.1 ha.1 hp.1 hv.1 hf0 ha0 hp0 hv0]
  simp [StringToRule.loop, StringToRule.scan, stringToLog, stringToLog.loop, stringToLog.scan,
    removeSliceElement, sliceIndex, bind, Outcome.bind, pure, k0, k1, k2, k3, k4, k5, k6]

/-- Witness of C26 at `ipv4`, `10.0.0.1`, the prefix `ftp` and the limit
`1/m`. -/
theorem StringToRule_log_takes_limit_witness :
    (plain "ipv4" ∧ plain "10.0.0.1" ∧ plain "ftp" ∧ plain "1/m" ∧ "ipv4" ≠ "" ∧
      "10.0.0.1" ≠ "" ∧ "ftp" ≠ "" ∧ "1/m" ≠ "") ∧
    StringToRule (Rule.ToString
        { Family := "ipv4", Source := { Address := "10.0.0.1" }, Log := { Prefix := "ftp" },
          Accept := { Flag := true, Limit := { Value := "1/m" } } }) =
      .returned
        { Family := "ipv4", Source := { Address := "10.0.0.1" },
          Log := { Prefix := "ftp", Limit := { Value := "1/m" } },
          Accept := { Flag := true } } :=
  ⟨by decide, StringToRule_log_takes_limit "ipv4" "10.0.0.1" "ftp" "1/m" (by decide) (by decide)
    (by decide) (by decide) (by decide) (by decide) (by decide) (by decide)⟩

/-- C27: for non-empty `f`, `a`, `t` with no space and no `=`, `t` other than
`type`, parsing the rendering of the rule with family `f`, source address `a`
and reject type `t` faults: the rendering ends in a space, which gives an empty
last token, and `stringToReject` indexes the part after `=` of every token. -/
theorem StringToRule_ToString_reject_faults (f a t : String) (hf : plain f) (ha : plain a)
    (ht : plain t) (hf0 : f ≠ "") (ha0 : a ≠ "") (ht0 : t ≠ "") (h : t ≠ "type") :
    StringToRule (Rule.ToString
        { Family := f, Source := { Address := a }, Reject := { Type_ := t } }) = .fault := by
  have k0 := strings.Split_key_value "family" f (by decide) hf.2
  have k1 := strings.Split_key_value "address" a (by decide) ha.2
  have k2 := strings.Split_key_value "type" t (by decide) ht.2
  simp only [String.reduceAppend] at k0 k1 k2
  have k6 : strings.Split "" '=' = [""] := by decide
  unfold StringToRule
  rw [tokens_reject_rendered f a t hf.1 ha.1 ht.1 hf0 ha0 ht0]
  by_cases hl : t = "limit"
  · subst hl
    have k7 : strings.Split "type=limit" '=' = ["type", "limit"] := by decide
    simp [StringToRule.loop, StringToRule.scan, stringToReject, stringToReject.loop,
      stringToReject.scan, removeSliceElement, sliceIndex, bind, Outcome.bind, pure, k0, k1, k6,
      k7]
  · simp [StringToRule.loop, StringToRule.scan, stringToReject, stringToReject.loop,
      stringToReject.scan, removeSliceElement, sliceIndex, bind, Outcome.bind, pure, k0, k1, k2,
      k6, h, hl]

/-- Witness of C27 at `ipv4`, `10.0.0.1` and the type
`icmp-host-prohibited`. -/
theorem StringToRule_ToString_reject_faults_witness :
    (plain "ipv4" ∧ plain "10.0.0.1" ∧ plain "icmp-host-prohibited" ∧ "ipv4" ≠ "" ∧
      "10.0.0.1" ≠ "" ∧ "icmp-host-prohibited" ≠ "" ∧ "icmp-host-prohibited" ≠ "type") ∧
    StringToRule (Rule.ToString
        { Family := "ipv4", Source := { Address := "10.0.0.1" },
          Reject := { Type_ := "icmp-host-prohibited" } }) = .fault :=
  ⟨by decide, StringToRule_ToString_reject_faults "ipv4" "10.0.0.1" "icmp-host-prohibited"
    (by decide) (by decide) (by decide) (by decide) (by decide) (by decide) (by decide)⟩

/-- C28: for every rule whose family is empty, whatever its other fields,
parsing the rendering faults: what follows `rule ` in the rendering is nothing,
or starts with a token that has no `=` (an empty token, a keyword or `limit`),
and the rule case indexes the part after the `=` of that token. -/
theorem StringToRule_ToString_no_family (r : Rule) (h : r.Family = "") :
    StringToRule r.ToString = .fault :=
  StringToRule_ToString_family_empty r h

/-- Witness of C28 on the rule with service `ftp` and the accept flag, whose
rendering is `rule service name=ftp accept` and two spaces, and on the zero
rule. -/
theorem StringToRule_ToString_no_family_witness :
    ({ Service := { Name := "ftp" }, Accept := { Flag := true } } : Rule).Family = "" ∧
    Rule.ToString { Service := { Name := "ftp" }, Accept := { Flag := true } } =
      "rule service name=ftp accept  " ∧
    StringToRule (Rule.ToString { Service := { Name := "ftp" }, Accept := { Flag := true } }) =
      .fault ∧
    StringToRule (Rule.ToString {}) = .fault :=
  ⟨rfl, by decide,
    StringToRule_ToString_no_family { Service := { Name := "ftp" }, Accept := { Flag := true } }
      rfl, by decide⟩

/-! ## The sub-parsers -/

/-- C23 fails as stated: the sub-parsers do not stop at a token whose key is
no field name. On `port=80`, `x=1`, `to-port=90` the forward-port sub-parser
takes `to-port=90` as well and leaves `x=1` alone; the mark and log sub-parsers
go past `x=1` in the same way. -/
theorem stringToForwardPort_goes_on :
    stringToForwardPort ["port=80", "x=1", "to-port=90"] =
      .returned ({ Port := "80", ToPort := "90" }, ["x=1"]) ∧
    stringToForwardPort ["port=80", "x=1", "to-port=90"] ≠
      .returned ({ Port := "80" }, ["x=1", "to-port=90"]) ∧
    stringToMark ["x=1", "set=0x1"] = .returned ({ Set := "0x1" }, ["x=1"]) ∧
    stringToLog ["prefix=p", "x=1", "level=info"] =
      .returned ({ Prefix := "p", Level := "info" }, ["x=1"]) := by
  decide

/-- C23, as amended: the sub-parsers `stringToMark`, `stringToForwardPort` and
`stringToLog` skip a token whose key is none of the clause's field names and go
on: with such a token `n` in front, each returns what it returns without `n`,
and `n` in front of the remaining sequence; and the sequence that each returns
has no token left whose key is one of the clause's field names. -/
theorem stringTo_skips_and_goes_on (n : String) (slice : List String) :
    (firstPart n ∉ markKeys →
      stringToMark (n :: slice) = (stringToMark slice).map (fun p => (p.1, n :: p.2))) ∧
    (firstPart n ∉ fpKeys →
      stringToForwardPort (n :: slice) =
        (stringToForwardPort slice).map (fun p => (p.1, n :: p.2))) ∧
    (firstPart n ∉ logKeys →
      stringToLog (n :: slice) = (stringToLog slice).map (fun p => (p.1, n :: p.2))) ∧
    (∀ v s1, stringToMark slice = .returned (v, s1) → ∀ t ∈ s1, firstPart t ∉ markKeys) ∧
    (∀ v s1, stringToForwardPort slice = .returned (v, s1) →
      ∀ t ∈ s1, firstPart t ∉ fpKeys) ∧
    (∀ v s1, stringToLog slice = .returned (v, s1) → ∀ t ∈ s1, firstPart t ∉ logKeys) := by
  refine ⟨fun h => stringToMark_cons_skip n h slice,
    fun h => stringToForwardPort_cons_skip n h slice,
    fun h => stringToLog_cons_skip n h slice, ?_, ?_, ?_⟩
  · intro v s1 h
    unfold stringToMark at h
    rw [stringToMark_loop_eq] at h
    exact stringToMark_scan_end v s1 s1 0 _ (restartLoop_end _ _ _ _ _ _ h) rfl
  · intro v s1 h
    unfold stringToForwardPort at h
    rw [stringToForwardPort_loop_eq] at h
    exact stringToForwardPort_scan_end v s1 s1 0 _ (restartLoop_end _ _ _ _ _ _ h) rfl
  · intro v s1 h
    unfold stringToLog at h
    rw [stringToLog_loop_eq] at h
    exact stringToLog_scan_end v s1 s1 0 _ (restartLoop_end _ _ _ _ _ _ h) rfl

/-- Witness of C23 on the token `x=1` in front of `port=80`, `y=2`,
`to-port=90`: the forward-port sub-parser returns both values, and `x=1` and
`y=2`, whose keys are no field names, are what is left. -/
theorem stringTo_skips_and_goes_on_witness :
    firstPart "x=1" ∉ fpKeys ∧
    stringToForwardPort ["x=1", "port=80", "y=2", "to-port=90"] =
      (stringToForwardPort ["port=80", "y=2", "to-port=90"]).map
        (fun p => (p.1, "x=1" :: p.2)) ∧
    stringToForwardPort ["port=80", "y=2", "to-port=90"] =
      .returned ({ Port := "80", ToPort := "90" }, ["y=2"]) ∧
    (∀ t ∈ ["y=2"], firstPart t ∉ fpKeys) :=
  ⟨by decide,
    (stringTo_skips_and_goes_on "x=1" ["port=80", "y=2", "to-port=90"]).2.1 (by decide),
    by decide,
    (stringTo_skips_and_goes_on "x=1" ["port=80", "y=2", "to-port=90"]).2.2.2.2.1
      { Port := "80", ToPort := "90" } ["y=2"] (by decide)⟩

/-- C25: on every token list in which each token whose key is `port`,
`protocol`, `to-port` or `to-addr` has an `=`, `stringToForwardPort` returns,
without fault, what the single pass `forwardPortOnePass` gives: the tokens with
one of the four keys removed and the others kept in order, and in each field
the value of the last token with its key, or the empty string. -/
theorem stringToForwardPort_eq_onePass (l : List String)
    (h : ∀ t ∈ l, firstPart t ∈ fpKeys → '=' ∈ t.data) :
    stringToForwardPort l = .returned (forwardPortOnePass l) := by
  have := stringToForwardPort_loop_filter l [] {} (l.length + 1) (by simp) h
    (Nat.lt_succ_of_le (List.length_filter_le _ _))
  rw [List.nil_append, foldl_set_filter, foldl_set_lastValue] at this
  unfold stringToForwardPort
  rw [this]
  rfl

/-- Witness of C25 on `port=80`, `x=1`, `to-port=90`, `y`, `port=81`: the last
port wins, and `x=1` and `y` are left in their order. -/
theorem stringToForwardPort_eq_onePass_witness :
    (∀ t ∈ ["port=80", "x=1", "to-port=90", "y", "port=81"],
      firstPart t ∈ fpKeys → '=' ∈ t.data) ∧
    stringToForwardPort ["port=80", "x=1", "to-port=90", "y", "port=81"] =
      .returned (forwardPortOnePass ["port=80", "x=1", "to-port=90", "y", "port=81"]) ∧
    forwardPortOnePass ["port=80", "x=1", "to-port=90", "y", "port=81"] =
      ({ Port := "81", ToPort := "90" }, ["x=1", "y"]) :=
  ⟨by decide,
    stringToForwardPort_eq_onePass ["port=80", "x=1", "to-port=90", "y", "port=81"]
      (by decide), by decide⟩

/-! ## Termination -/

/-- C24: `StringToRule` and the four sub-parsers end on every input, with a
return or with a fault. A scan that restarts (`goto Label`) does so on a
strictly shorter slice, and a loop that is given more scans than the slice has
tokens, that is, as many restarts as it has tokens, never runs out of them. -/
theorem StringToRule_total :
    (∀ str, (∃ rule, StringToRule str = .returned rule) ∨ StringToRule str = .fault) ∧
    (∀ slice, stringToReject slice ≠ .fuelOut ∧ stringToMark slice ≠ .fuelOut ∧
      stringToForwardPort slice ≠ .fuelOut ∧ stringToLog slice ≠ .fuelOut) ∧
    (∀ rule s rule1 s1, StringToRule.scan rule s 0 s = .returned (some (rule1, s1)) →
      s1.length < s.length) ∧
    (∀ st s st1 s1, stringToReject.scan st s 0 s = .returned (some (st1, s1)) →
      s1.length < s.length) ∧
    (∀ st s st1 s1, stringToMark.scan st s 0 s = .returned (some (st1, s1)) →
      s1.length < s.length) ∧
    (∀ st s st1 s1, stringToForwardPort.scan st s 0 s = .returned (some (st1, s1)) →
      s1.length < s.length) ∧
    (∀ st s st1 s1, stringToLog.scan st s 0 s = .returned (some (st1, s1)) →
      s1.length < s.length) ∧
    (∀ fuel rule s, s.length < fuel → StringToRule.loop fuel rule s ≠ .fuelOut) ∧
    (∀ fuel st s, s.length < fuel → stringToReject.loop fuel st s ≠ .fuelOut) ∧
    (∀ fuel st s, s.length < fuel → stringToMark.loop fuel st s ≠ .fuelOut) ∧
    (∀ fuel st s, s.length < fuel → stringToForwardPort.loop fuel st s ≠ .fuelOut) ∧
    (∀ fuel st s, s.length < fuel → stringToLog.loop fuel st s ≠ .fuelOut) := by
  refine ⟨?_, ?_, ?_, ?_, ?_, ?_, ?_, ?_, ?_, ?_, ?_, ?_⟩
  · intro str
    have := StringToRule_loop_ends ((strings.Split str ' ').length + 1) {}
      (strings.Split str ' ') (Nat.lt_succ_self _)
    unfold StringToRule
    cases e : StringToRule.loop ((strings.Split str ' ').length + 1) {}
      (strings.Split str ' ') with
    | returned r => exact Or.inl ⟨r, rfl⟩
    | fault => exact Or.inr rfl
    | fuelOut => exact absurd e this
  · intro slice
    exact ⟨stringToReject_loop_ends _ _ _ (Nat.lt_succ_self _),
      stringToMark_loop_ends _ _ _ (Nat.lt_succ_self _),
      stringToForwardPort_loop_ends _ _ _ (Nat.lt_succ_self _),
      stringToLog_loop_ends _ _ _ (Nat.lt_succ_self _)⟩
  · exact fun st s st1 s1 h => (StringToRule_scan_shrinks st s s 0 st1 s1 h).2
  · exact fun st s st1 s1 h => (stringToReject_scan_shrinks st s s 0 st1 s1 h).2
  · exact fun st s st1 s1 h => (stringToMark_scan_shrinks st s s 0 st1 s1 h).2
  · exact fun st s st1 s1 h => (stringToForwardPort_scan_shrinks st s s 0 st1 s1 h).2
  · exact fun st s st1 s1 h => (stringToLog_scan_shrinks st s s 0 st1 s1 h).2
  · exact fun fuel st s h => StringToRule_loop_ends fuel st s h
  · exact fun fuel st s h => stringToReject_loop_ends fuel st s h
  · exact fun fuel st s h => stringToMark_loop_ends fuel st s h
  · exact fun fuel st s h => stringToForwardPort_loop_ends fuel st s h
  · exact fun fuel st s h => stringToLog_loop_ends fuel st s h

/-- Witness of C24 on `rule family=ipv4 accept`: the first scan restarts on one
token out of three, and three scans are enough. -/
theorem StringToRule_total_witness :
    StringToRule.scan {} ["rule", "family=ipv4", "accept"] 0 ["rule", "family=ipv4", "accept"] =
      .returned (some ({ Family := "ipv4" }, ["accept"])) ∧
    ["accept"].length < ["rule", "family=ipv4", "accept"].length ∧
    ["rule", "family=ipv4", "accept"].length < 4 ∧
    StringToRule.loop 4 {} ["rule", "family=ipv4", "accept"] ≠ .fuelOut :=
  ⟨by decide,
    StringToRule_total.2.2.1 {} ["rule", "family=ipv4", "accept"] { Family := "ipv4" } ["accept"]
      (by decide),
    by decide,
    StringToRule_total.2.2.2.2.2.2.2.1 4 {} ["rule", "family=ipv4", "accept"] (by decide)⟩

/-! ## An invariant of parsed rules -/

/-- C29: in every rule that `StringToRule` returns, at most one of the four
fields `Address`, `Mac`, `Ipset`, `Invert` of the source is non-empty, and at
most one of the two fields `Address`, `Invert` of the destination. -/
theorem StringToRule_source_one_field (str : String) (r : Rule)
    (h : StringToRule str = .returned r) :
    nonEmptyCount [r.Source.Address, r.Source.Mac, r.Source.Ipset, r.Source.Invert] ≤ 1 ∧
    nonEmptyCount [r.Destination.Address, r.Destination.Invert] ≤ 1 :=
  StringToRule_oneField str r h

/-- Witness of C29 on an input with two source clauses and a destination with
`invert=` after the address. -/
theorem StringToRule_source_one_field_witness :
    StringToRule
        "rule family=ipv4 source address=10.0.0.1 source mac=aa destination address=b invert=c" =
      .returned { Family := "ipv4", Source := { Mac := "aa" }, Destination := { Address := "b" } } ∧
    nonEmptyCount ["", "aa", "", ""] ≤ 1 ∧ nonEmptyCount ["b", ""] ≤ 1 :=
  ⟨by decide,
    StringToRule_source_one_field
      "rule family=ipv4 source address=10.0.0.1 source mac=aa destination address=b invert=c"
      { Family := "ipv4", Source := { Mac := "aa" }, Destination := { Address := "b" } }
      (by decide)⟩

/-! ## The port check `checkPort` -/

/-- C30: `checkPort` rejects a range only when both ends are out of range. For
decimal numerals `a` and `b` it returns an error on `a-b` exactly when neither
the number of `a` nor that of `b` is in `1..65535`; for a numeral `a` in
`1..65535` it returns no error on `a-rest`, whatever `rest` is; and it returns
no error on an input with no `-` before its first `/` (nowhere, when it has no
`/`). It does not fault on these inputs. -/
theorem checkPort_rejects_only_both (a b rest s : String) :
    (Numeral a → Numeral b →
      ((checkPort (a ++ "-" ++ b) = .returned (some "port range error.") ↔
          ¬ inPortRange (digitsValue a.data) ∧ ¬ inPortRange (digitsValue b.data)) ∧
        (checkPort (a ++ "-" ++ b) = .returned none ↔
          ¬ (¬ inPortRange (digitsValue a.data) ∧ ¬ inPortRange (digitsValue b.data))))) ∧
    (Numeral a → inPortRange (digitsValue a.data) →
      checkPort (a ++ "-" ++ rest) = .returned none) ∧
    ('-' ∉ s.data.takeWhile (fun c => decide (c ≠ '/')) → checkPort s = .returned none) := by
  refine ⟨fun ha hb => ?_, fun ha hr => checkPort_first_in_range a rest ha hr,
    fun h => checkPort_no_dash s h⟩
  rw [checkPort_range a b ha hb]
  by_cases h : ¬ inPortRange (digitsValue a.data) ∧ ¬ inPortRange (digitsValue b.data)
  · simp [h]
  · simp [h]

/-- Witness of C30: `80-70000` is accepted, and so are `80-x/tcp` and
`70000/tcp`. -/
theorem checkPort_rejects_only_both_witness :
    (Numeral "80" ∧ Numeral "70000" ∧ digitsValue "80".data = 80 ∧
      digitsValue "70000".data = 70000 ∧ inPortRange 80 ∧ ¬ inPortRange 70000 ∧
      '-' ∉ "70000/tcp".data.takeWhile (fun c => decide (c ≠ '/'))) ∧
    checkPort "80-70000" = .returned none ∧
    checkPort "80-x/tcp" = .returned none ∧
    checkPort "70000/tcp" = .returned none :=
  ⟨by decide,
    ((checkPort_rejects_only_both "80" "70000" "x/tcp" "70000/tcp").1 (by decide)
      (by decide)).2.mpr (by decide),
    (checkPort_rejects_only_both "80" "70000" "x/tcp" "70000/tcp").2.1 (by decide) (by decide),
    (checkPort_rejects_only_both "80" "70000" "x/tcp" "70000/tcp").2.2 (by decide)⟩

end Dbus
